import Mathlib

/-!
# Physika: the Wavefront OBJ codec (`obj_mesh_io.cpp`)

A shallow embedding of `ObjMeshIO::load`, `ObjMeshIO::save`, `ObjMeshIO::loadMaterials`
and `ObjMeshIO::saveMaterials`, followed by theorems about them.

Conventions of the embedding.

* Text (`std::string`, NUL-terminated `char` buffers, file contents) is a `List Char`.
* `unsigned int` values are natural numbers reduced modulo `2^32` wherever the source
  does arithmetic on them.
* A call that ends the process (`PHYSIKA_ERROR`, a failed `PHYSIKA_MESSAGE_ASSERT`) is
  `Except.error (Err.fatal _)`; a place where the C++ has no defined behaviour is
  `Except.error (Err.undefined _)`.
* The `Scalar` template parameter and its stream operations are parameters (`Host`).
* The content of the file system is a parameter (`Files`); the mesh pointer is not null.
* A buffer that the source reads without having written it (`type_of_line` on a line that holds
  no token, for one) has an indeterminate value in C++: what it reads as is a parameter
  (`Garbage`), and statements about all inputs hold for every such value.
-/

namespace Physika

/-- Text: the characters of a `std::string` or of a `char` buffer up to its NUL. -/
abbrev Str := List Char

/-- How a call can end without returning. -/
inductive Err where
  | fatal (msg : String)
  | undefined (msg : String)
deriving DecidableEq, Repr

/-- The value `2^32`: `unsigned int` arithmetic is done modulo it. -/
def UINT_RANGE : Nat := 4294967296

/-- The value of `x - 1` computed in `unsigned int`. -/
def usub1 (x : Nat) : Nat := (x % UINT_RANGE + (UINT_RANGE - 1)) % UINT_RANGE

/-- The value of `x + 1` computed in `unsigned int`. -/
def uadd1 (x : Nat) : Nat := (x + 1) % UINT_RANGE

/-! ## Character classes and stream extraction -/

/-- The C locale `isspace`: space, `\t`, `\n`, `\v`, `\f`, `\r`. -/
def isspace (c : Char) : Bool :=
  c = ' ' || c = '\t' || c = '\n' || c = Char.ofNat 11 || c = Char.ofNat 12 || c = '\r'

/-- The C locale `isdigit`. -/
def isdigit (c : Char) : Bool := decide (48 ≤ c.toNat) && decide (c.toNat ≤ 57)

/-- The characters that `stream << line` inserts for a `char` buffer: those before the first NUL. -/
def cstr (line : Str) : Str := line.takeWhile (fun c => c != Char.ofNat 0)

/-- The extraction `stream >> token` of a white-space delimited token from the unread
characters `buf`: `none` when only white space is left (the sentry fails, `failbit` is set and
the destination is not written), else the token and the characters left unread. -/
def extract (buf : Str) : Option (Str × Str) :=
  match buf.dropWhile isspace with
  | [] => none
  | c :: cs => some ((c :: cs).takeWhile (fun x => !isspace x), (c :: cs).dropWhile (fun x => !isspace x))

/-- The tokens that a loop `while(stream >> token)` sees, in order; `cur` is the token being
collected. -/
def tokensAux : Str → Str → List Str
  | [], cur => if cur = [] then [] else [cur]
  | c :: cs, cur =>
    if isspace c then (if cur = [] then tokensAux cs [] else cur :: tokensAux cs [])
    else tokensAux cs (cur ++ [c])

/-- The white-space delimited tokens of the unread characters. -/
def tokens (buf : Str) : List Str := tokensAux buf []

/-- The test `strstr(hay, needle) != NULL`. -/
def strstr : Str → Str → Bool
  | [], needle => needle.isEmpty
  | c :: cs, needle => needle.isPrefixOf (c :: cs) || strstr cs needle

/-! ## `sscanf` with `%u` conversions -/

/-- The items of the format strings used by `load`: `%u` and ordinary characters. -/
inductive Directive where
  | u
  | lit (c : Char)
deriving DecidableEq, Repr

/-- Reads the longest run of decimal digits, accumulating its value onto `acc`. -/
def scanDigits : Str → Nat → Nat × Str
  | [], acc => (acc, [])
  | c :: cs, acc => if isdigit c then scanDigits cs (10 * acc + (c.toNat - 48)) else (acc, c :: cs)

/-- The conversion `%u`: skips white space, accepts an optional sign and needs at least one
digit; the value is stored into an `unsigned int` (negated first after a minus sign). A value
that does not fit is reduced modulo `2^32`, which is what the C library does with the numbers
that a token of at most 19 characters can hold (the C standard leaves the result open).
`none` is a matching failure. -/
def scanUnsigned (s : Str) : Option (Nat × Str) :=
  let body : Str → Bool → Option (Nat × Str) := fun t neg =>
    match t with
    | [] => none
    | c :: cs =>
      if isdigit c then
        let r := scanDigits (c :: cs) 0
        some (if neg then (UINT_RANGE - r.1 % UINT_RANGE) % UINT_RANGE else r.1 % UINT_RANGE, r.2)
      else none
  match s.dropWhile isspace with
  | [] => none
  | c :: cs => if c = '-' then body cs true else if c = '+' then body cs false else body (c :: cs) false

/-- The call `sscanf(s, fmt, ...)`: the values converted, in order, until the first directive
that fails; the return value of `sscanf` is the length of this list. -/
def sscanf : List Directive → Str → List Nat
  | [], _ => []
  | Directive.u :: ds, s =>
    match scanUnsigned s with
    | some (v, r) => v :: sscanf ds r
    | none => []
  | Directive.lit c :: ds, s =>
    match s with
    | [] => []
    | x :: r => if x = c then sscanf ds r else []

/-- The format `"%u//%u"`. -/
def FMT_P_N : List Directive := [Directive.u, Directive.lit '/', Directive.lit '/', Directive.u]

/-- The format `"%u/%u/%u"`. -/
def FMT_P_T_N : List Directive :=
  [Directive.u, Directive.lit '/', Directive.u, Directive.lit '/', Directive.u]

/-- The format `"%u/%u"`. -/
def FMT_P_T : List Directive := [Directive.u, Directive.lit '/', Directive.u]

/-- The format `"%u"`. -/
def FMT_P : List Directive := [Directive.u]

/-! ## Assertion macros (`physika_assert.h`) -/

/-- Modelled from the spec: `PHYSIKA_ERROR(message)` of `physika_assert.h`, which is not
among the sources; the spec makes every such error fatal at the call site. -/
def PHYSIKA_ERROR {α : Type} (message : String) : Except Err α := Except.error (Err.fatal message)

/-- Modelled from the spec: `PHYSIKA_MESSAGE_ASSERT(condition, message)` of `physika_assert.h`,
which is not among the sources; the call is fatal when the condition is false. -/
def PHYSIKA_MESSAGE_ASSERT (condition : Bool) (message : String) : Except Err Unit :=
  if condition then Except.ok () else Except.error (Err.fatal message)

/-- Modelled from the spec: `PHYSIKA_ASSERT(condition)` of `physika_assert.h`, which is not
among the sources: an assertion on its single argument, fatal when the argument is false and
without effect otherwise. -/
def PHYSIKA_ASSERT (condition : Bool) : Except Err Unit :=
  if condition then Except.ok () else Except.error (Err.fatal "assertion failed")

/-- The truth value of a string literal used as a condition, as in
`PHYSIKA_ASSERT("%u error")`: a literal is a non-null pointer, which converts to `true`. -/
def literalAsCondition (_literal : String) : Bool := true

/-! ## The surface mesh model (`surface_mesh.h`) -/

/-- Modelled from the spec: the vertex reference of the mesh model (`Vertex`, not among the
sources): a position index and optional normal and texture indices; an index that has not
been set is `none`. -/
structure Vertex where
  position_index : Nat
  normal_index : Option Nat
  texture_index : Option Nat
deriving DecidableEq, Repr

/-- Modelled from the spec: the constructor `Vertex(position_index)`, a reference with neither
normal nor texture index. -/
def Vertex.ofPosition (position_index : Nat) : Vertex :=
  { position_index := position_index, normal_index := none, texture_index := none }

/-- Modelled from the spec: the setter `setNormalIndex`. -/
def Vertex.setNormalIndex (v : Vertex) (i : Nat) : Vertex := { v with normal_index := some i }

/-- Modelled from the spec: the setter `setTextureCoordinateIndex`. -/
def Vertex.setTextureCoordinateIndex (v : Vertex) (i : Nat) : Vertex :=
  { v with texture_index := some i }

/-- Modelled from the spec: the predicate `hasNormal`. -/
def Vertex.hasNormal (v : Vertex) : Bool := v.normal_index.isSome

/-- Modelled from the spec: the predicate `hasTexture`. -/
def Vertex.hasTexture (v : Vertex) : Bool := v.texture_index.isSome

/-- Modelled from the spec: a face of the mesh model (`Face`, not among the sources), an
ordered list of vertex references. -/
structure Face where
  vertices : List Vertex
deriving DecidableEq, Repr

/-- Modelled from the spec: the method `Face::addVertex`, which appends. -/
def Face.addVertex (f : Face) (v : Vertex) : Face := { vertices := f.vertices ++ [v] }

/-- Modelled from the spec: a group of the mesh model (`Group`, not among the sources): a
name, a material index and the faces in the order they were added. -/
structure Group where
  name : Str
  material_index : Nat
  faces : List Face
deriving DecidableEq, Repr

/-- Modelled from the spec: the method `Group::addFace`, which appends. -/
def Group.addFace (g : Group) (f : Face) : Group := { g with faces := g.faces ++ [f] }

/-- Modelled from the spec: the method `Group::setMaterialIndex`. -/
def Group.setMaterialIndex (g : Group) (i : Nat) : Group := { g with material_index := i }

/-- Modelled from the spec: a material of the mesh model (`Material`, not among the sources);
an empty texture file name stands for "no texture". -/
structure Material (S : Type) where
  name : Str
  Ka : S × S × S
  Kd : S × S × S
  Ks : S × S × S
  shininess : S
  alpha : S
  texture_file_name : Str
deriving DecidableEq, Repr

/-- Modelled from the spec: the predicate `Material::hasTexture`. -/
def Material.hasTexture {S : Type} (m : Material S) : Bool := !m.texture_file_name.isEmpty

/-- Modelled from the spec: the mesh model (`SurfaceMesh`, not among the sources): three
pools, the groups and the materials, each in insertion order. -/
structure SurfaceMesh (S : Type) where
  positions : List (S × S × S)
  normals : List (S × S × S)
  texture_coordinates : List (S × S)
  groups : List Group
  materials : List (Material S)
deriving DecidableEq, Repr

/-- The mesh with no content. -/
def SurfaceMesh.empty (S : Type) : SurfaceMesh S :=
  { positions := [], normals := [], texture_coordinates := [], groups := [], materials := [] }

/-- Modelled from the spec: the method `addVertexPosition`, which appends to the pool. -/
def SurfaceMesh.addVertexPosition {S : Type} (m : SurfaceMesh S) (p : S × S × S) : SurfaceMesh S :=
  { m with positions := m.positions ++ [p] }

/-- Modelled from the spec: the method `addVertexNormal`, which appends to the pool. -/
def SurfaceMesh.addVertexNormal {S : Type} (m : SurfaceMesh S) (p : S × S × S) : SurfaceMesh S :=
  { m with normals := m.normals ++ [p] }

/-- Modelled from the spec: the method `addVertexTextureCoordinate`, which appends to the pool. -/
def SurfaceMesh.addVertexTextureCoordinate {S : Type} (m : SurfaceMesh S) (p : S × S) :
    SurfaceMesh S :=
  { m with texture_coordinates := m.texture_coordinates ++ [p] }

/-- Modelled from the spec: the method `addGroup` (add group by value): the group is appended,
whatever its name. -/
def SurfaceMesh.addGroup {S : Type} (m : SurfaceMesh S) (g : Group) : SurfaceMesh S :=
  { m with groups := m.groups ++ [g] }

/-- Modelled from the spec: the method `addMaterial`, which appends. -/
def SurfaceMesh.addMaterial {S : Type} (m : SurfaceMesh S) (x : Material S) : SurfaceMesh S :=
  { m with materials := m.materials ++ [x] }

/-- Modelled from the spec: the method `numGroups`. -/
def SurfaceMesh.numGroups {S : Type} (m : SurfaceMesh S) : Nat := m.groups.length

/-- The position of the first group called `name`, if any. -/
def indexOfGroup (name : Str) : List Group → Option Nat
  | [] => none
  | g :: gs => if g.name = name then some 0 else (indexOfGroup name gs).map (fun i => i + 1)

/-- Modelled from the spec: the method `groupPtr(name)` (look up group by name, returning a
nullable handle): the first group of that name, as its position in the group list, or `none`
for the null pointer. -/
def SurfaceMesh.groupPtr {S : Type} (m : SurfaceMesh S) (name : Str) : Option Nat :=
  indexOfGroup name m.groups

/-- The position of the first material called `name`, if any. -/
def indexOfMaterial {S : Type} (name : Str) : List (Material S) → Option Nat
  | [] => none
  | x :: xs => if x.name = name then some 0 else (indexOfMaterial name xs).map (fun i => i + 1)

/-- Modelled from the spec: the method `materialIndex(name)`: the index of the first material of
that name, or `-1` when there is none. -/
def SurfaceMesh.materialIndex {S : Type} (m : SurfaceMesh S) (name : Str) : Int :=
  match indexOfMaterial name m.materials with
  | some i => (i : Int)
  | none => -1

/-- The conversion of an `int` to `unsigned int`. -/
def toUnsigned (i : Int) : Nat := (i % (UINT_RANGE : Int)).toNat

/-- Applies `f` to the element at position `i` (nothing changes when `i` is out of range). -/
def updateAt {α : Type} (f : α → α) : Nat → List α → List α
  | _, [] => []
  | 0, x :: xs => f x :: xs
  | i + 1, x :: xs => x :: updateAt f i xs

/-- The write through a group pointer: `f` applied to the group at position `i`. -/
def SurfaceMesh.updateGroup {S : Type} (m : SurfaceMesh S) (i : Nat) (f : Group → Group) :
    SurfaceMesh S :=
  { m with groups := updateAt f i m.groups }

/-! ## What the codec takes from outside `obj_mesh_io.cpp` -/

/-- The `Scalar` template parameter with the operations the codec uses on it, and the two
defaults of the mesh model that the spec leaves open. -/
structure Host (S : Type) where
  /-- The numeric extraction `stream >> x` on unread characters that start with a character
  that is not white space: the value and the characters left, or `none` on failure. -/
  get : Str → Option (S × Str)
  /-- The insertion `fileout << x`. -/
  put : S → Str
  /-- The value of a decimal literal of the source, given by its digits `m` and the number `k`
  of them that follow the point: `lit 1 1` is `0.1`, `lit 65 0` is `65`. -/
  lit : Nat → Nat → S
  /-- The product of two scalars. -/
  mul : S → S → S
  /-- The quotient of two scalars. -/
  div : S → S → S
  /-- The material that `Material<Scalar> material_example;` constructs. -/
  default_material : Material S
  /-- The material index of a group built with `Group<Scalar>(name)`. -/
  default_material_index : Nat

/-- Modelled from the spec: the constructor `Group<Scalar>(name)`, a group without faces. -/
def Host.groupNamed {S : Type} (H : Host S) (name : Str) : Group :=
  { name := name, material_index := H.default_material_index, faces := [] }

/-- Modelled from the spec: the constructor `Group<Scalar>(name, material_index)`, a group
without faces. -/
def groupWithMaterial (name : Str) (material_index : Nat) : Group :=
  { name := name, material_index := material_index, faces := [] }

/-- The extraction `stream >> x` of a scalar from the unread characters: `none` when only
white space is left or the conversion fails. -/
def Host.readScalar {S : Type} (H : Host S) (buf : Str) : Option (S × Str) :=
  match buf.dropWhile isspace with
  | [] => none
  | c :: cs => H.get (c :: cs)

/-- The extraction `stream >> name` into a fresh `std::string`: the next token, or the empty
string when there is none. -/
def readName (buf : Str) : Str :=
  match extract buf with
  | some (t, _) => t
  | none => []

/-- Modelled from the spec: `FilePathUtilities::dirName` (not among the sources), the
directory part of a path: what precedes its last `/`, and `.` when it has none. -/
def dirName (path : Str) : Str :=
  if path.contains '/' then (path.reverse.dropWhile (fun c => c != '/')).drop 1 |>.reverse
  else ['.']

/-- Modelled from the spec: `FilePathUtilities::filenameInPath` (not among the sources), the
base name of a path: what follows its last `/`. -/
def filenameInPath (path : Str) : Str := (path.reverse.takeWhile (fun c => c != '/')).reverse

/-- What the variables that the source declares inside its loops without initialising them
hold when an iteration reads them before anything was written to them. The C++ leaves such a
value indeterminate, so it is a parameter: each field gives the value read in iteration `k`
(counted from 0) from what the previous iteration left in the variable (the empty string, or
nothing to go by, in iteration 0). -/
structure Garbage (S : Type) where
  /-- The buffer `type_of_line` of `load`. -/
  type_of_line : Nat → Str → Str
  /-- The buffer `type_of_line` of `loadMaterials`. -/
  mtl_type_of_line : Nat → Str → Str
  /-- The buffer `mtl_name` of `loadMaterials`. -/
  mtl_name : Nat → Str → Str
  /-- The buffer `next` of `loadMaterials`. -/
  next : Nat → Str → Str
  /-- The variable `alpha` of `loadMaterials`. -/
  alpha : Nat → S → S

/-! ## Decimal output of an `unsigned int` -/

/-- The decimal digits of `n`, least significant first; `fuel` bounds the number of digits. -/
def digitsRev : Nat → Nat → List Nat
  | 0, _ => []
  | fuel + 1, n => if n < 10 then [n] else (n % 10) :: digitsRev fuel (n / 10)

/-- The character of a decimal digit. -/
def digitChar (d : Nat) : Char := Char.ofNat (48 + d)

/-- The insertion `stream << n` of an unsigned integer: its decimal digits. -/
def putNat (n : Nat) : Str := ((digitsRev (n + 1) n).reverse).map digitChar

/-! ## `ObjMeshIO::load` -/

/-- The body of the loop `while(stream >> vertex_indice)` for one token (source lines 122-171):
the vertex reference to add to the face, `none` when the token is passed over, or the fatal
error of the `//` form. -/
def parseVertexToken (vertex_indice : Str) : Except Err (Option Vertex) :=
  if strstr vertex_indice ['/', '/'] then
    match sscanf FMT_P_N vertex_indice with
    | [pos, nor] => Except.ok (some ((Vertex.ofPosition (usub1 pos)).setNormalIndex (usub1 nor)))
    | _ => PHYSIKA_ERROR "invalid vertx in this face"
  else
    match sscanf FMT_P_T_N vertex_indice with
    | [pos, tex, nor] =>
      Except.ok (some (((Vertex.ofPosition (usub1 pos)).setNormalIndex (usub1 nor)).setTextureCoordinateIndex
        (usub1 tex)))
    | _ =>
      if strstr vertex_indice ['/'] then
        match sscanf FMT_P_T vertex_indice with
        | [pos, tex] =>
          Except.ok (some ((Vertex.ofPosition (usub1 pos)).setTextureCoordinateIndex (usub1 tex)))
        | _ => (PHYSIKA_ASSERT (literalAsCondition "%u/%u error")).map (fun _ => none)
      else
        match sscanf FMT_P vertex_indice with
        | [pos] => Except.ok (some (Vertex.ofPosition (usub1 pos)))
        | _ => (PHYSIKA_ASSERT (literalAsCondition "%u error")).map (fun _ => none)

/-- The loop `while(stream >> vertex_indice)` over the tokens left on a face line. The buffer
`vertex_indice` has room for 19 characters and the extraction is not bounded, so a longer
token overruns it. -/
def readFace : List Str → Face → Except Err Face
  | [], face_temple => Except.ok face_temple
  | vertex_indice :: rest, face_temple =>
    if 20 ≤ vertex_indice.length then Except.error (Err.undefined "vertex_indice overrun")
    else
      match parseVertexToken vertex_indice with
      | Except.error e => Except.error e
      | Except.ok (some v) => readFace rest (face_temple.addVertex v)
      | Except.ok none => readFace rest face_temple

/-- The local variables of `load` that live across iterations of its loop, with the mesh.
`current_group` is the position of the group pointed to (`none` for `NULL`); `type_of_line`
is what the buffer of that name holds at the end of an iteration; `iteration` is not a
variable of the source, it counts the iterations done. -/
structure LoadState (S : Type) where
  mesh : SurfaceMesh S
  current_group : Option Nat
  num_face : Nat
  current_material_index : Nat
  line_num : Nat
  num_group_faces : Nat
  group_source_name : Str
  group_clone_index : Nat
  type_of_line : Str
  iteration : Nat
deriving DecidableEq, Repr

/-- The branch `v` (source lines 69-76). -/
def branchV {S : Type} (H : Host S) (st : LoadState S) (stream : Str) : Except Err (LoadState S) :=
  match H.readScalar stream with
  | none => PHYSIKA_ERROR "stream>>x"
  | some (x, s1) =>
    match H.readScalar s1 with
    | none => PHYSIKA_ERROR "stream>>y"
    | some (y, s2) =>
      match H.readScalar s2 with
      | none => PHYSIKA_ERROR "stream>>z"
      | some (z, _) => Except.ok { st with mesh := st.mesh.addVertexPosition (x, y, z) }

/-- The branch `vn` (source lines 78-84). -/
def branchVn {S : Type} (H : Host S) (st : LoadState S) (stream : Str) : Except Err (LoadState S) :=
  match H.readScalar stream with
  | none => PHYSIKA_ERROR "x position of a normal read error"
  | some (x, s1) =>
    match H.readScalar s1 with
    | none => PHYSIKA_ERROR "y position of a normal read error"
    | some (y, s2) =>
      match H.readScalar s2 with
      | none => PHYSIKA_ERROR "z position of a normal read error"
      | some (z, _) => Except.ok { st with mesh := st.mesh.addVertexNormal (x, y, z) }

/-- The branch `vt` (source lines 86-91). -/
def branchVt {S : Type} (H : Host S) (st : LoadState S) (stream : Str) : Except Err (LoadState S) :=
  match H.readScalar stream with
  | none => PHYSIKA_ERROR "x position of a texture read error"
  | some (x, s1) =>
    match H.readScalar s1 with
    | none => PHYSIKA_ERROR "y position of a texture read error"
    | some (y, _) => Except.ok { st with mesh := st.mesh.addVertexTextureCoordinate (x, y) }

/-- The branch `g` (source lines 93-110). An existing group is made current and nothing else
changes; a new group is added with the current material and resets the clone bookkeeping. -/
def branchG {S : Type} (st : LoadState S) (stream : Str) : Except Err (LoadState S) :=
  let group_name := readName stream
  match PHYSIKA_MESSAGE_ASSERT (decide (1 ≤ group_name.length)) "warning: empty group name come in" with
  | Except.error e => Except.error e
  | Except.ok _ =>
    match st.mesh.groupPtr group_name with
    | some i => Except.ok { st with current_group := some i }
    | none =>
      let mesh := st.mesh.addGroup (groupWithMaterial group_name st.current_material_index)
      Except.ok { st with
        mesh := mesh
        current_group := mesh.groupPtr group_name
        group_source_name := group_name
        group_clone_index := 0
        num_group_faces := 0 }

/-- The branch `f` / `fo` (source lines 112-176). -/
def branchF {S : Type} (H : Host S) (st : LoadState S) (stream : Str) : Except Err (LoadState S) :=
  let st1 : LoadState S :=
    match st.current_group with
    | none =>
      let mesh := st.mesh.addGroup (H.groupNamed "default".toList)
      { st with mesh := mesh, current_group := mesh.groupPtr "default".toList }
    | some _ => st
  match readFace (tokens stream) { vertices := [] } with
  | Except.error e => Except.error e
  | Except.ok face_temple =>
    match st1.current_group with
    | none => Except.error (Err.undefined "current_group is NULL")
    | some i =>
      Except.ok { st1 with
        num_face := uadd1 st1.num_face
        num_group_faces := uadd1 st1.num_group_faces
        mesh := st1.mesh.updateGroup i (fun g => g.addFace face_temple) }

/-- The branch `usemtl` (source lines 179-208). The clone is made before the material is
looked up; an unknown material ends in `PHYSIKA_ASSERT` of a string literal. -/
def branchUsemtl {S : Type} (H : Host S) (st : LoadState S) (stream : Str) :
    Except Err (LoadState S) :=
  let st1 : LoadState S :=
    if 0 < st.num_group_faces then
      let new_name := readName (st.group_source_name ++ ['.'] ++ putNat st.group_clone_index)
      let mesh := st.mesh.addGroup (H.groupNamed new_name)
      { st with
        mesh := mesh
        current_group := mesh.groupPtr new_name
        num_group_faces := 0
        group_clone_index := uadd1 st.group_clone_index }
    else st
  let material_name := readName stream
  let st2 : LoadState S :=
    { st1 with current_material_index := toUnsigned (st1.mesh.materialIndex material_name) }
  if st2.current_material_index ≠ toUnsigned (-1) then
    let st3 : LoadState S :=
      if st2.mesh.numGroups = 0 then
        let mesh := st2.mesh.addGroup (H.groupNamed "default".toList)
        { st2 with mesh := mesh, current_group := mesh.groupPtr "default".toList }
      else st2
    match st3.current_group with
    | none => Except.error (Err.undefined "current_group is NULL")
    | some i =>
      Except.ok { st3 with
        mesh := st3.mesh.updateGroup i (fun g => g.setMaterialIndex st3.current_material_index) }
  else
    (PHYSIKA_ASSERT (literalAsCondition "material found false")).map (fun _ => st2)

/-! ## Reading a file line by line -/

/-- The successive contents of `line` in a loop `while(ifs) { ifs.getline(line, maxline); ... }`
over a file holding `text`; `cur` is what the running `getline` has stored so far. A line is
ended by `\n`; after the last line one more `getline` fails and leaves `line` empty, and the
body runs on it before the loop ends; a line that does not fit sets `failbit`, and the loop ends
after the body has run on the `maxline - 1` characters stored. -/
def getlines (maxline : Nat) : Str → Str → List Str
  | [], cur => if cur = [] then [[]] else [cur, []]
  | c :: cs, cur =>
    if c = '\n' then cur :: getlines maxline cs []
    else if cur.length + 1 = maxline then [cur]
    else getlines maxline cs (cur ++ [c])

/-- The file system seen by the codec: the content of the file at a path, `none` when it
cannot be opened. -/
abbrev Files := Str → Option Str

/-! ## `ObjMeshIO::loadMaterials` -/

/-- A `std::stringstream` being read: the characters not yet read and `failbit`. -/
structure Stream where
  buf : Str
  fail : Bool
deriving DecidableEq, Repr

/-- The stream after `stream.str(""); stream.clear(); stream << line;`. -/
def Stream.ofLine (line : Str) : Stream := { buf := cstr line, fail := false }

/-- The extraction `stream >> buffer` of a token: `none` when the stream has failed already
or holds no token (the buffer is then left as it was). -/
def Stream.token (s : Stream) : Option Str × Stream :=
  if s.fail then (none, s)
  else
    match extract s.buf with
    | none => (none, { buf := [], fail := true })
    | some (t, r) => (some t, { buf := r, fail := false })

/-- What `stream >> x` does to a scalar variable `x`. -/
inductive ScalarRead (S : Type) where
  | value (x : S)
  | unchanged
  | zeroed
deriving DecidableEq, Repr

/-- The extraction `stream >> x` of a scalar: the variable is left alone when the sentry fails
and set to zero when the conversion fails. -/
def Stream.scalar {S : Type} (H : Host S) (s : Stream) : ScalarRead S × Stream :=
  if s.fail then (ScalarRead.unchanged, s)
  else
    match s.buf.dropWhile isspace with
    | [] => (ScalarRead.unchanged, { buf := [], fail := true })
    | c :: cs =>
      match H.get (c :: cs) with
      | some (x, r) => (ScalarRead.value x, { buf := r, fail := false })
      | none => (ScalarRead.zeroed, { buf := c :: cs, fail := true })

/-- The local variables of `loadMaterials` that live across iterations of its loop, with the
mesh. The buffers `type_of_line`, `mtl_name`, `next` and the variable `alpha` are not
initialised by the source: the fields hold what the last iteration left in them. `iteration`
is not a variable of the source, it counts the iterations done. -/
structure MtlState (S : Type) where
  mesh : SurfaceMesh S
  num_mtl : Nat
  material_example : Material S
  type_of_line : Str
  mtl_name : Str
  next : Str
  alpha : S
  iteration : Nat
deriving DecidableEq, Repr

/-- The handler `case 'm'` (source lines 372-379). -/
def caseM {S : Type} (filename : Str) (st : MtlState S) (stream : Stream) : MtlState S :=
  let tex_name := (stream.token).1.getD []
  let texture_file_complete := dirName filename ++ ['/'] ++ tex_name
  if tex_name.length ≠ 0 then
    { st with material_example := { st.material_example with texture_file_name := texture_file_complete } }
  else st

/-- The three scalars of a `Kd`/`Ks`/`Ka` line (source lines 345-366): `none` when the first
cannot be read (`break`), the fatal error when the third cannot (a failed read of the second
leaves `failbit` set, so the third fails with it), else the colour and the stream after it. -/
def readK {S : Type} (H : Host S) (stream : Stream) (message : String) :
    Except Err (Option ((S × S × S) × Stream)) :=
  match stream.scalar H with
  | (ScalarRead.value k1, s1) =>
    match s1.scalar H with
    | (ScalarRead.value k2, s2) =>
      match s2.scalar H with
      | (ScalarRead.value k3, s3) => Except.ok (some ((k1, k2, k3), s3))
      | _ => PHYSIKA_ERROR message
    | _ => PHYSIKA_ERROR message
  | _ => Except.ok none

/-- The handler `case 'K'` (source lines 341-370) up to the end of its inner `switch`: the
state and the stream with which control falls through into `case 'm'`. -/
def caseK {S : Type} (H : Host S) (st : MtlState S) (stream : Stream) (c1 : Char) :
    Except Err (MtlState S × Stream) :=
  if c1 = 'd' then
    match readK H stream "error less data when read Kd." with
    | Except.error e => Except.error e
    | Except.ok none => Except.ok (st, (stream.scalar H).2)
    | Except.ok (some (k, s3)) =>
      Except.ok ({ st with material_example := { st.material_example with Kd := k } }, s3)
  else if c1 = 's' then
    match readK H stream "error less data when read Ks." with
    | Except.error e => Except.error e
    | Except.ok none => Except.ok (st, (stream.scalar H).2)
    | Except.ok (some (k, s3)) =>
      Except.ok ({ st with material_example := { st.material_example with Ks := k } }, s3)
  else if c1 = 'a' then
    match readK H stream "error less data when read Ka." with
    | Except.error e => Except.error e
    | Except.ok none => Except.ok (st, (stream.scalar H).2)
    | Except.ok (some (k, s3)) =>
      Except.ok ({ st with material_example := { st.material_example with Ka := k } }, s3)
  else Except.ok (st, stream)

/-- The handler `case 'd'` (source lines 381-393). -/
def caseD {S : Type} (H : Host S) (garbage : Garbage S) (st : MtlState S) (stream : Stream) :
    MtlState S :=
  let r := stream.token
  let next := r.1.getD (garbage.next st.iteration st.next)
  let read : ScalarRead S :=
    if next.headD (Char.ofNat 0) = '-' then (r.2.scalar H).1
    else (Stream.scalar H { buf := r.2.buf ++ next, fail := false }).1
  let alpha : S :=
    match read with
    | ScalarRead.value x => x
    | ScalarRead.unchanged => garbage.alpha st.iteration st.alpha
    | ScalarRead.zeroed => H.lit 0 0
  { st with
    next := next
    alpha := alpha
    material_example := { st.material_example with alpha := alpha } }

/-- The handler `case 'n'` (source lines 316-328). -/
def caseN {S : Type} (H : Host S) (garbage : Garbage S) (st : MtlState S) (stream : Stream) :
    MtlState S :=
  let mesh := if 0 < st.num_mtl then st.mesh.addMaterial st.material_example else st.mesh
  let mtl_name := (stream.token).1.getD (garbage.mtl_name st.iteration st.mtl_name)
  { st with
    mesh := mesh
    num_mtl := uadd1 st.num_mtl
    mtl_name := mtl_name
    material_example :=
      { name := mtl_name
        Ka := (H.lit 1 1, H.lit 1 1, H.lit 1 1)
        Kd := (H.lit 5 1, H.lit 5 1, H.lit 5 1)
        Ks := (H.lit 0 1, H.lit 0 1, H.lit 0 1)
        shininess := H.lit 65 0
        alpha := H.lit 1 0
        texture_file_name := [] } }

/-- The handler `case 'N'` (source lines 330-339). -/
def caseNs {S : Type} (H : Host S) (st : MtlState S) (stream : Stream) (c1 : Char) :
    Except Err (MtlState S) :=
  if c1 = 's' then
    match stream.scalar H with
    | (ScalarRead.value shininess, _) =>
      Except.ok { st with
        material_example :=
          { st.material_example with shininess := H.mul shininess (H.div (H.lit 1280 1) (H.lit 10000 1)) } }
    | _ => PHYSIKA_ERROR "error! no data to set shininess"
  else Except.ok st

/-- The handlers of the `switch` of `loadMaterials` (source lines 311-397), run on the state
`st1` in which `type_of_line` is set. The dispatch is on the first character of `type_of_line`;
`case 'K'` has no `break` after its inner `switch` and continues into `case 'm'`. -/
def dispatchMaterial {S : Type} (H : Host S) (garbage : Garbage S) (filename : Str)
    (st1 : MtlState S) (stream : Stream) : Except Err (MtlState S) :=
  let type_of_line := st1.type_of_line
  let c0 := type_of_line.headD (Char.ofNat 0)
  let c1 := (type_of_line.drop 1).headD (Char.ofNat 0)
  if c0 = '#' then Except.ok st1
  else if c0 = 'n' then Except.ok (caseN H garbage st1 stream)
  else if c0 = 'N' then caseNs H st1 stream c1
  else if c0 = 'K' then
    match caseK H st1 stream c1 with
    | Except.error e => Except.error e
    | Except.ok (st2, stream2) => Except.ok (caseM filename st2 stream2)
  else if c0 = 'm' then Except.ok (caseM filename st1 stream)
  else if c0 = 'd' then Except.ok (caseD H garbage st1 stream)
  else Except.ok st1

/-- One iteration of the loop of `loadMaterials` (source lines 304-397) on the line read. When
the line holds no token the extraction into `type_of_line` fails and the buffer is read as it
is. -/
def loadMaterialsLine {S : Type} (H : Host S) (garbage : Garbage S) (filename : Str)
    (st : MtlState S) (line : Str) : Except Err (MtlState S) :=
  let r := (Stream.ofLine line).token
  let type_of_line := r.1.getD (garbage.mtl_type_of_line st.iteration st.type_of_line)
  match dispatchMaterial H garbage filename { st with type_of_line := type_of_line } r.2 with
  | Except.error e => Except.error e
  | Except.ok st2 => Except.ok { st2 with iteration := st2.iteration + 1 }

/-- The loop of `loadMaterials` over the lines it reads. -/
def loadMaterialsLoop {S : Type} (H : Host S) (garbage : Garbage S) (filename : Str) :
    List Str → MtlState S → Except Err (MtlState S)
  | [], st => Except.ok st
  | line :: rest, st =>
    match loadMaterialsLine H garbage filename st line with
    | Except.error e => Except.error e
    | Except.ok st1 => loadMaterialsLoop H garbage filename rest st1

/-- The function `ObjMeshIO::loadMaterials` (source lines 292-402). The final test
`num_mtl >= 0` on an unsigned counter is always true. -/
def loadMaterials {S : Type} (H : Host S) (files : Files) (garbage : Garbage S) (filename : Str)
    (mesh : SurfaceMesh S) : Except Err (SurfaceMesh S) :=
  match files filename with
  | none => PHYSIKA_ERROR "can't open this mtl file"
  | some text =>
    match loadMaterialsLoop H garbage filename (getlines 1024 text [])
        { mesh := mesh
          num_mtl := 0
          material_example := H.default_material
          type_of_line := []
          mtl_name := []
          next := []
          alpha := H.lit 0 0
          iteration := 0 } with
    | Except.error e => Except.error e
    | Except.ok st => Except.ok (st.mesh.addMaterial st.material_example)

/-! ## `ObjMeshIO::load` -/

/-- The call `filename.find('.')`: the position of the first `c`, `none` for `npos`. -/
def findChar (c : Char) : Str → Option Nat
  | [] => none
  | x :: xs => if x = c then some 0 else (findChar c xs).map (fun i => i + 1)

/-- The filename check at the head of `load` and of `save` (source lines 38-44 and 230-236):
the value of `suffix_idx` when the check passes. `npos` is not below any size. -/
def checkSuffix (filename : Str) : Except Err Nat :=
  match findChar '.' filename with
  | none =>
    (PHYSIKA_MESSAGE_ASSERT false "this is not a obj file").bind (fun _ =>
      Except.error (Err.undefined "substr(npos)"))
  | some suffix_idx =>
    match PHYSIKA_MESSAGE_ASSERT (decide (suffix_idx < filename.length)) "this is not a obj file" with
    | Except.error e => Except.error e
    | Except.ok _ =>
      let suffix := filename.drop suffix_idx
      if suffix ≠ ".obj".toList then PHYSIKA_ERROR "this is not a obj file"
      else Except.ok suffix_idx

/-- The branch `mtllib` (source lines 210-216). -/
def branchMtllib {S : Type} (H : Host S) (files : Files) (garbage : Garbage S) (filename : Str)
    (st : LoadState S) (stream : Str) : Except Err (LoadState S) :=
  let mtl_name := readName stream
  let pre_path := dirName filename
  match loadMaterials H files garbage (pre_path ++ ['/'] ++ mtl_name) st.mesh with
  | Except.error e => Except.error e
  | Except.ok mesh => Except.ok { st with mesh := mesh }

/-- One iteration of the loop of `load` (source lines 61-220) on the line read. When the line
holds no token the extraction into `type_of_line` fails, nothing is written to the buffer, and
the comparisons read it as it is. -/
def loadLine {S : Type} (H : Host S) (files : Files) (garbage : Garbage S) (filename : Str)
    (st : LoadState S) (line : Str) : Except Err (LoadState S) :=
  let r := extract (cstr line)
  let type_of_line : Str :=
    match r with
    | some (t, _) => t
    | none => garbage.type_of_line st.iteration st.type_of_line
  let stream : Str :=
    match r with
    | some (_, rest) => rest
    | none => []
  let st1 : LoadState S :=
    { st with
      line_num := uadd1 st.line_num
      type_of_line := type_of_line
      iteration := st.iteration + 1 }
  if type_of_line = "v".toList then branchV H st1 stream
  else if type_of_line = "vn".toList then branchVn H st1 stream
  else if type_of_line = "vt".toList then branchVt H st1 stream
  else if type_of_line = "g".toList then branchG st1 stream
  else if type_of_line = "f".toList ∨ type_of_line = "fo".toList then branchF H st1 stream
  else if type_of_line = "#".toList ∨ type_of_line = [] then Except.ok st1
  else if type_of_line = "usemtl".toList then branchUsemtl H st1 stream
  else if type_of_line = "mtllib".toList then branchMtllib H files garbage filename st1 stream
  else Except.ok st1

/-- The loop of `load` over the lines it reads. -/
def loadLoop {S : Type} (H : Host S) (files : Files) (garbage : Garbage S) (filename : Str) :
    List Str → LoadState S → Except Err (LoadState S)
  | [], st => Except.ok st
  | line :: rest, st =>
    match loadLine H files garbage filename st line with
    | Except.error e => Except.error e
    | Except.ok st1 => loadLoop H files garbage filename rest st1

/-- The local variables of `load` when its loop starts (source lines 45-51). -/
def initialState {S : Type} (mesh : SurfaceMesh S) : LoadState S :=
  { mesh := mesh
    current_group := none
    num_face := 0
    current_material_index := 0
    line_num := 0
    num_group_faces := 0
    group_source_name := []
    group_clone_index := 0
    type_of_line := []
    iteration := 0 }

/-- The lines on which the loop of `load` runs for a file holding `text`. -/
def objLines (text : Str) : List Str := getlines 1000 text []

/-- The function `ObjMeshIO::load` (source lines 35-224): the mesh after the call. -/
def load {S : Type} (H : Host S) (files : Files) (garbage : Garbage S) (filename : Str)
    (mesh : SurfaceMesh S) : Except Err (SurfaceMesh S) :=
  match checkSuffix filename with
  | Except.error e => Except.error e
  | Except.ok _ =>
    match files filename with
    | none => PHYSIKA_ERROR "couldn't open .obj file"
    | some text =>
      match loadLoop H files garbage filename (objLines text) (initialState mesh) with
      | Except.error e => Except.error e
      | Except.ok st => Except.ok st.mesh

/-! ## `ObjMeshIO::saveMaterials` and `ObjMeshIO::save` -/

/-- The line `key a b c` written for a colour. -/
def putColour {S : Type} (H : Host S) (key : Str) (k : S × S × S) : Str :=
  key ++ [' '] ++ H.put k.1 ++ [' '] ++ H.put k.2.1 ++ [' '] ++ H.put k.2.2 ++ ['\n']

/-- The text that `saveMaterials` writes for one material (source lines 415-422). -/
def putMaterial {S : Type} (H : Host S) (material_example : Material S) : Str :=
  "newmtl ".toList ++ material_example.name ++ ['\n']
    ++ putColour H "Ka".toList material_example.Ka
    ++ putColour H "Kd".toList material_example.Kd
    ++ putColour H "Ks".toList material_example.Ks
    ++ "Ns ".toList ++ H.put (H.div (H.mul material_example.shininess (H.lit 10000 1)) (H.lit 1280 1)) ++ ['\n']
    ++ "d ".toList ++ H.put material_example.alpha ++ ['\n']
    ++ (if material_example.hasTexture then
          "map_Kd ".toList ++ filenameInPath material_example.texture_file_name ++ ['\n']
        else [])

/-- The function `ObjMeshIO::saveMaterials` (source lines 405-425): the text written to the
material file. -/
def saveMaterials {S : Type} (H : Host S) (mesh : SurfaceMesh S) : Str :=
  (mesh.materials.map (putMaterial H)).flatten

/-- The text that `save` writes for one vertex reference (source lines 277-283). -/
def putVertex (v : Vertex) : Str :=
  putNat (uadd1 v.position_index)
    ++ (if v.hasTexture || v.hasNormal then
          ['/'] ++ (match v.texture_index with
                    | some t => putNat (uadd1 t)
                    | none => [])
        else [])
    ++ (match v.normal_index with
        | some n => ['/'] ++ putNat (uadd1 n) ++ [' ']
        | none => [])

/-- The line that `save` writes for one face (source lines 270-285). -/
def putFace (f : Face) : Str := "f ".toList ++ (f.vertices.map putVertex).flatten ++ ['\n']

/-- The lines that `save` writes for one group (source lines 263-286); the material is
reached through `materialPtr`, which has no result for an index out of range. -/
def putGroup {S : Type} (mesh : SurfaceMesh S) (g : Group) : Except Err Str :=
  match mesh.materials.get? g.material_index with
  | none => Except.error (Err.undefined "materialPtr out of range")
  | some x =>
    Except.ok ("usemtl ".toList ++ x.name ++ ['\n'] ++ "g ".toList ++ g.name ++ ['\n']
      ++ (g.faces.map putFace).flatten)

/-- The lines that `save` writes for the groups, in order. -/
def putGroups {S : Type} (mesh : SurfaceMesh S) : List Group → Except Err Str
  | [] => Except.ok []
  | g :: gs =>
    match putGroup mesh g with
    | Except.error e => Except.error e
    | Except.ok t =>
      match putGroups mesh gs with
      | Except.error e => Except.error e
      | Except.ok ts => Except.ok (t ++ ts)

/-- The pool lines `v`, `vn` written by `save`. -/
def putTriples {S : Type} (H : Host S) (key : Str) (pool : List (S × S × S)) : Str :=
  (pool.map (putColour H key)).flatten

/-- The pool lines `vt` written by `save`. -/
def putPairs {S : Type} (H : Host S) (pool : List (S × S)) : Str :=
  (pool.map (fun p => "vt ".toList ++ H.put p.1 ++ [' '] ++ H.put p.2 ++ ['\n'])).flatten

/-- The file system after `path` has been written with `text`. -/
def writeFile (files : Files) (path : Str) (text : Str) : Files :=
  fun p => if p = path then some text else files p

/-- The text that `save` writes to the `.obj` file (source lines 241-287), `stem` being the
file name without its suffix. -/
def saveText {S : Type} (H : Host S) (stem : Str) (mesh : SurfaceMesh S) : Except Err Str :=
  match putGroups mesh mesh.groups with
  | Except.error e => Except.error e
  | Except.ok groups =>
    Except.ok ("mtllib ".toList ++ filenameInPath stem ++ ".mtl".toList ++ ['\n']
      ++ putTriples H "v".toList mesh.positions
      ++ putTriples H "vn".toList mesh.normals
      ++ putPairs H mesh.texture_coordinates
      ++ groups)

/-- The function `ObjMeshIO::save` (source lines 227-289): the file system after the call,
in which the material file `stem.mtl` and the `.obj` file have been written. Both files are
taken to open for writing. -/
def save {S : Type} (H : Host S) (files : Files) (filename : Str) (mesh : SurfaceMesh S) :
    Except Err Files :=
  match checkSuffix filename with
  | Except.error e => Except.error e
  | Except.ok suffix_idx =>
    let stem := filename.take suffix_idx
    let material_path := stem ++ ".mtl".toList
    match saveText H stem mesh with
    | Except.error e => Except.error e
    | Except.ok text =>
      Except.ok (writeFile (writeFile files material_path (saveMaterials H mesh)) filename text)

/-! ## A host for running the codec on examples -/

/-- Equality of results is decidable when it is for errors and values. -/
instance instDecidableEqExcept {ε α : Type} [DecidableEq ε] [DecidableEq α] :
    DecidableEq (Except ε α)
  | Except.ok a, Except.ok b =>
    if h : a = b then isTrue (by rw [h]) else isFalse (fun h2 => h (Except.ok.inj h2))
  | Except.error a, Except.error b =>
    if h : a = b then isTrue (by rw [h]) else isFalse (fun h2 => h (Except.error.inj h2))
  | Except.ok _, Except.error _ => isFalse (fun h => Except.noConfusion h)
  | Except.error _, Except.ok _ => isFalse (fun h => Except.noConfusion h)

/-- Scalars of the example host: decimal fixed-point numbers with six places, held as a count
of millionths. -/
abbrev Fixed := Int

/-- The first six digits after a decimal point, as a count of millionths; further digits are
read and dropped. `k` is the number of digits taken so far. -/
def scanFraction : Str → Nat → Nat → Nat × Str
  | [], num, k => (num * 10 ^ (6 - k), [])
  | c :: cs, num, k =>
    if isdigit c then
      (if k < 6 then scanFraction cs (10 * num + (c.toNat - 48)) (k + 1) else scanFraction cs num k)
    else (num * 10 ^ (6 - k), c :: cs)

/-- Reads a number in plain decimal notation: an optional sign, digits, and an optional
fraction. -/
def getFixed (s : Str) : Option (Fixed × Str) :=
  let body : Str → Bool → Option (Fixed × Str) := fun t neg =>
    match t with
    | [] => none
    | c :: cs =>
      if isdigit c then
        let r := scanDigits (c :: cs) 0
        let sign : Int := if neg then -1 else 1
        match r.2 with
        | '.' :: ds =>
          let f := scanFraction ds 0 0
          some (sign * ((r.1 * 1000000 + f.1 : Nat) : Int), f.2)
        | _ => some (sign * ((r.1 * 1000000 : Nat) : Int), r.2)
      else none
  match s with
  | [] => none
  | c :: cs => if c = '-' then body cs true else if c = '+' then body cs false else body (c :: cs) false

/-- The digits of `num` millionths after the point, without trailing zeros; `k` is the number
of places left. -/
def fractionDigits : Nat → Nat → List Nat
  | 0, _ => []
  | k + 1, num => if num = 0 then [] else (num / 10 ^ k) :: fractionDigits k (num % 10 ^ k)

/-- Writes a fixed-point number in plain decimal notation. -/
def putFixed (x : Fixed) : Str :=
  let n := x.natAbs
  let frac := fractionDigits 6 (n % 1000000)
  (if x < 0 then ['-'] else []) ++ putNat (n / 1000000)
    ++ (if frac = [] then [] else ['.'] ++ frac.map digitChar)

/-- A host whose scalars are decimal fixed-point numbers, read and written in plain decimal
notation; a default-constructed material has no name, zero colours and no texture, and a group
built from a name alone has material index 0. -/
def fixedHost : Host Fixed :=
  { get := getFixed
    put := putFixed
    lit := fun m k => ((m * 10 ^ (6 - k) : Nat) : Int)
    mul := fun a b => a * b / 1000000
    div := fun a b => a * 1000000 / b
    default_material :=
      { name := [], Ka := (0, 0, 0), Kd := (0, 0, 0), Ks := (0, 0, 0), shininess := 0, alpha := 0,
        texture_file_name := [] }
    default_material_index := 0 }

/-- Variables that keep what the previous iteration left in them, as when each has a stack
slot of its own that nothing else writes (empty strings and a zero `alpha` to start with). -/
def staleGarbage : Garbage Fixed :=
  { type_of_line := fun _ prev => prev
    mtl_type_of_line := fun _ prev => prev
    mtl_name := fun _ prev => prev
    next := fun _ prev => prev
    alpha := fun _ prev => prev }

/-- Variables that read as empty strings, and as zero, whenever nothing was written to them. -/
def blankGarbage : Garbage Fixed :=
  { type_of_line := fun _ _ => []
    mtl_type_of_line := fun _ _ => []
    mtl_name := fun _ _ => []
    next := fun _ _ => []
    alpha := fun _ _ => 0 }

/-- A file system holding one file. -/
def oneFile (path : Str) (text : Str) : Files := fun p => if p = path then some text else none

/-- A file system holding no file. -/
def noFiles : Files := fun _ => none

/-! ## Definitions used in the statements -/

/-- The lines of a text, split at `\n`; `cur` is the line being collected. -/
def splitLines : Str → Str → List Str
  | [], cur => [cur]
  | c :: cs, cur => if c = '\n' then cur :: splitLines cs [] else splitLines cs (cur ++ [c])

/-- A material called `name` with zero colours, zero shininess, alpha 1 and no texture. -/
def plainMaterial (name : Str) : Material Fixed :=
  { name := name, Ka := (0, 0, 0), Kd := (0, 0, 0), Ks := (0, 0, 0), shininess := 0,
    alpha := 1000000, texture_file_name := [] }

/-- A mesh with one position, one material `m` and one group `a` holding one face on that
position. -/
def roundTripMesh : SurfaceMesh Fixed :=
  { positions := [(0, 0, 0)]
    normals := []
    texture_coordinates := []
    groups := [{ name := "a".toList, material_index := 0,
                 faces := [{ vertices := [Vertex.ofPosition 0] }] }]
    materials := [plainMaterial "m".toList] }

/-- The default group with the given faces, as `load` makes it with the example host. -/
def defaultGroup (faces : List Face) : Group :=
  { name := "default".toList, material_index := 0, faces := faces }

/-- A face on the given position indices, without normals or texture coordinates. -/
def plainFace (positions : List Nat) : Face := { vertices := positions.map Vertex.ofPosition }

/-- A mesh holding two materials, `m0` and `m`, and nothing else. -/
def materialsOnly : SurfaceMesh Fixed :=
  { positions := [], normals := [], texture_coordinates := [], groups := []
    materials := [plainMaterial "m0".toList, plainMaterial "m".toList] }

/-- The single triangle of the spec, as the text of a file. -/
def triangleText : String := "v 0 0 0\nv 1 0 0\nv 0 1 0\nf 1 2 3\n"

/-- The mesh of the single triangle: three positions and the group `default` with one face. -/
def triangleMesh : SurfaceMesh Fixed :=
  { SurfaceMesh.empty Fixed with
    positions := [(0, 0, 0), (1000000, 0, 0), (0, 1000000, 0)]
    groups := [defaultGroup [plainFace [0, 1, 2]]] }

/-- The call of `load` on a file `a.obj` holding `text`, with the example host. -/
def loadText (garbage : Garbage Fixed) (text : String) (mesh : SurfaceMesh Fixed) :
    Except Err (SurfaceMesh Fixed) :=
  load fixedHost (oneFile "a.obj".toList text.toList) garbage "a.obj".toList mesh

/-- All indices of a vertex reference are within pools of sizes `np`, `nn` and `nt`. -/
def Vertex.within (np nn nt : Nat) (v : Vertex) : Bool :=
  decide (v.position_index < np)
    && (match v.normal_index with
        | some n => decide (n < nn)
        | none => true)
    && (match v.texture_index with
        | some t => decide (t < nt)
        | none => true)

/-- Every vertex reference of every face of every group is within pools of the given sizes. -/
def GroupsWithin (np nn nt : Nat) (groups : List Group) : Prop :=
  ∀ g ∈ groups, ∀ f ∈ g.faces, ∀ v ∈ f.vertices, v.within np nn nt = true

/-- Whether the groups are within pools of given sizes can be computed. -/
instance instDecidableGroupsWithin (np nn nt : Nat) (groups : List Group) :
    Decidable (GroupsWithin np nn nt groups) := by
  unfold GroupsWithin
  infer_instance

/-- The index ranges of the mesh model: every vertex reference is within the pools of the
mesh. -/
def SurfaceMesh.IndicesInRange {S : Type} (m : SurfaceMesh S) : Prop :=
  GroupsWithin m.positions.length m.normals.length m.texture_coordinates.length m.groups

/-- Whether a mesh has its indices in range can be computed. -/
instance instDecidableIndicesInRange {S : Type} (m : SurfaceMesh S) : Decidable m.IndicesInRange := by
  unfold SurfaceMesh.IndicesInRange
  infer_instance

/-- A token is harmless for pools of the given sizes: if the face branch of `load` turns it
into a vertex reference, that reference is within the pools. -/
def tokenWithin (np nn nt : Nat) (tok : Str) : Bool :=
  match parseVertexToken tok with
  | Except.ok (some v) => v.within np nn nt
  | _ => true

/-- A line is harmless for pools of the given sizes: if its first token is `f` or `fo`, every
further token on it is harmless. -/
def faceLineWithin (np nn nt : Nat) (line : Str) : Bool :=
  match extract (cstr line) with
  | some (t, rest) =>
    if t = "f".toList ∨ t = "fo".toList then (tokens rest).all (tokenWithin np nn nt) else true
  | none => true

/-- Two meshes differ at most in their materials. -/
def SameBody {S : Type} (m1 m2 : SurfaceMesh S) : Prop :=
  m2.groups = m1.groups ∧ m2.positions = m1.positions ∧ m2.normals = m1.normals ∧
    m2.texture_coordinates = m1.texture_coordinates

/-- The four forms of a vertex reference on the wire, with 1-based indices: `p`, `p/t`,
`p/t/n` and `p//n`. -/
inductive WireRef where
  | pos (p : Nat)
  | posTex (p t : Nat)
  | posTexNor (p t n : Nat)
  | posNor (p n : Nat)
deriving DecidableEq, Repr

/-- The token of a wire reference: `p`, `p/t`, `p/t/n` or `p//n` in decimal. -/
def WireRef.token : WireRef → Str
  | WireRef.pos p => putNat p
  | WireRef.posTex p t => putNat p ++ ['/'] ++ putNat t
  | WireRef.posTexNor p t n => putNat p ++ ['/'] ++ putNat t ++ ['/'] ++ putNat n
  | WireRef.posNor p n => putNat p ++ ['/', '/'] ++ putNat n

/-- The vertex reference that a wire reference stands for: every index one less. -/
def WireRef.vertex : WireRef → Vertex
  | WireRef.pos p => { position_index := p - 1, normal_index := none, texture_index := none }
  | WireRef.posTex p t =>
    { position_index := p - 1, normal_index := none, texture_index := some (t - 1) }
  | WireRef.posTexNor p t n =>
    { position_index := p - 1, normal_index := some (n - 1), texture_index := some (t - 1) }
  | WireRef.posNor p n =>
    { position_index := p - 1, normal_index := some (n - 1), texture_index := none }

/-- A wire index that is at least 1 and a value of `unsigned int`. -/
def WireIndex (i : Nat) : Prop := 1 ≤ i ∧ i < UINT_RANGE

/-- The wire indices of a reference are values of `unsigned int` that are at least 1. -/
def WireRef.Valid : WireRef → Prop
  | WireRef.pos p => WireIndex p
  | WireRef.posTex p t => WireIndex p ∧ WireIndex t
  | WireRef.posTexNor p t n => WireIndex p ∧ WireIndex t ∧ WireIndex n
  | WireRef.posNor p n => WireIndex p ∧ WireIndex n

/-- The wire indices of a reference lie within pools of sizes `np`, `nn` and `nt`: the position
index is between 1 and `np` and, when present, the normal index is between 1 and `nn` and the
texture index between 1 and `nt`. -/
def WireRef.InPools (np nn nt : Nat) : WireRef → Prop
  | WireRef.pos p => 1 ≤ p ∧ p ≤ np
  | WireRef.posTex p t => (1 ≤ p ∧ p ≤ np) ∧ (1 ≤ t ∧ t ≤ nt)
  | WireRef.posTexNor p t n => (1 ≤ p ∧ p ≤ np) ∧ (1 ≤ t ∧ t ≤ nt) ∧ (1 ≤ n ∧ n ≤ nn)
  | WireRef.posNor p n => (1 ≤ p ∧ p ≤ np) ∧ (1 ≤ n ∧ n ≤ nn)

/-- A line of an `.obj` file respects pools of the given sizes: if its first token is `f` or
`fo`, every further token on it is the text `p`, `p/t`, `p/t/n` or `p//n` of a reference whose
wire indices are values of `unsigned int` and lie within the pools. -/
def FaceLineRespects (np nn nt : Nat) (line : Str) : Prop :=
  ∀ t rest, extract (cstr line) = some (t, rest) → (t = "f".toList ∨ t = "fo".toList) →
    ∀ tok ∈ tokens rest, ∃ w : WireRef, tok = w.token ∧ w.Valid ∧ w.InPools np nn nt

/-- The text of a face line after its `f`: every token preceded by one space. -/
def faceTokensText (refs : List WireRef) : Str := (refs.map (fun r => ' ' :: r.token)).flatten

/-- The first tokens that `load` handles (source lines 89-219). -/
def DIRECTIVES : List Str :=
  ["v".toList, "vn".toList, "vt".toList, "g".toList, "f".toList, "fo".toList, "usemtl".toList,
    "mtllib".toList]

/-- The loop of `load` run on the given lines, from the state in which `load` enters it. -/
def loadLines (garbage : Garbage Fixed) (lines : List String) (mesh : SurfaceMesh Fixed) :
    Except Err (LoadState Fixed) :=
  loadLoop fixedHost noFiles garbage "a.obj".toList (lines.map String.toList) (initialState mesh)

/-- The materials that `loadMaterials` leaves in an empty mesh for a material file `d/x.mtl`
holding `text`. -/
def loadMaterialsText (garbage : Garbage Fixed) (text : String) :
    Except Err (List (Material Fixed)) :=
  (loadMaterials fixedHost (oneFile "d/x.mtl".toList text.toList) garbage "d/x.mtl".toList
    (SurfaceMesh.empty Fixed)).map (fun mesh => mesh.materials)

/-- The material that `newmtl name` starts, in the example host. -/
def freshMaterial (name : Str) : Material Fixed :=
  { name := name, Ka := (100000, 100000, 100000), Kd := (500000, 500000, 500000), Ks := (0, 0, 0),
    shininess := 65000000, alpha := 1000000, texture_file_name := [] }

/-- The emission rule in the words of the specification: the position index plus one; a `/`
if there is a texture or a normal; the texture index plus one if there is a texture; a `/`, the
normal index plus one and one space if there is a normal. -/
def emissionRule (v : Vertex) : Str :=
  putNat (v.position_index + 1)
    ++ (if v.hasTexture || v.hasNormal then ['/'] else [])
    ++ (match v.texture_index with
        | some t => putNat (t + 1)
        | none => [])
    ++ (match v.normal_index with
        | some n => ['/'] ++ putNat (n + 1) ++ [' ']
        | none => [])

/-- The indices of a vertex reference whose successors are values of `unsigned int`. -/
def Vertex.Fits (v : Vertex) : Prop :=
  v.position_index + 1 < UINT_RANGE
    ∧ (∀ t, v.texture_index = some t → t + 1 < UINT_RANGE)
    ∧ (∀ n, v.normal_index = some n → n + 1 < UINT_RANGE)

/-! ## The SPH kernels (`sph_kernel.h`)

`Scalar` is a type parameter of the source; the kernels are embedded over a linearly ordered
field `K`, the arithmetic of `Scalar` being taken as exact. The constants `PI` (of
`math_constants.h`, which is not among the sources), `M_PI` and `M_E` and the function `pow`
are parameters. The numeric literals of the source are `float`s: the quotient `2.0f/3.0f` and
the literals `0.0255f` and `0.102f` are taken at their `float` values, which are not 2/3,
0.0255 and 0.102, and every other literal is the number written. -/

/-- The method `SPH_Kernel::weight` of the base class (source line 29), which returns zero. -/
def SPH_Kernel.weight {K : Type} [LinearOrderedField K] (_r _h : K) : K := 0

/-- The method `SPH_Kernel::gradient` of the base class (source line 30), which returns zero. -/
def SPH_Kernel.gradient {K : Type} [LinearOrderedField K] (_r _h : K) : K := 0

/-- The method `StandardKernel::weight` (source lines 37-49). -/
def StandardKernel.weight {K : Type} [LinearOrderedField K] (PI : K) (r h : K) : K :=
  let hh := h * h
  let qq := r * r / hh
  if qq > 1 then 0
  else
    let dd := 1 - qq
    315 / (64 * PI * hh * h) * dd * dd * dd

/-- The gradient of `StandardKernel`, which does not override that of the base class. -/
def StandardKernel.gradient {K : Type} [LinearOrderedField K] (r h : K) : K :=
  SPH_Kernel.gradient r h

/-- The method `SmoothKernel::weight` (source lines 55-62). -/
def SmoothKernel.weight {K : Type} [LinearOrderedField K] (r h : K) : K :=
  let q := r / h
  if q > 1 then 0
  else 1 - q * q

/-- The method `SmoothKernel::gradient` (source lines 64-74); its local `hh` is not used. -/
def SmoothKernel.gradient {K : Type} [LinearOrderedField K] (r h : K) : K :=
  let q := r / h
  if q > 1 ∨ r = 0 then 0
  else
    let dd := 1 - q * q
    let alpha : K := 1;
    -alpha * dd

/-- The method `SpikyKernel::weight` (source lines 81-90). -/
def SpikyKernel.weight {K : Type} [LinearOrderedField K] (M_PI : K) (r h : K) : K :=
  let q := r / h
  if q > 1 then 0
  else
    let d := 1 - q
    let hh := h * h
    15 / (M_PI * hh * h) * d * d * d

/-- The method `SpikyKernel::gradient` (source lines 92-102). -/
def SpikyKernel.gradient {K : Type} [LinearOrderedField K] (M_PI : K) (r h : K) : K :=
  let q := r / h
  if q > 1 then 0
  else
    let d := 1 - q
    let hh := h * h;
    -45 / (M_PI * hh * h) * d * d

/-- The method `LaplacianKernel::weight` (source lines 111-120). -/
def LaplacianKernel.weight {K : Type} [LinearOrderedField K] (M_PI : K) (r h : K) : K :=
  let q := r / h
  if q > 1 then 0
  else
    let d := 1 - q
    let RR := h * h
    45 / (13 * M_PI * RR * h) * d

/-- The gradient of `LaplacianKernel`, which does not override that of the base class. -/
def LaplacianKernel.gradient {K : Type} [LinearOrderedField K] (r h : K) : K :=
  SPH_Kernel.gradient r h

/-- The method `CubicKernel::weight` (source lines 129-149). The constant `2.0f/3.0f` is a
division of two `float`s, whose value is the `float` nearest to 2/3: 11184811 / 2^24. -/
def CubicKernel.weight {K : Type} [LinearOrderedField K] (M_PI : K) (r h : K) : K :=
  let hh := h * h
  let q := r / h
  let alpha := 3 / (2 * M_PI * hh * h)
  if q > 2 then 0
  else if q ≥ 1 then
    let d := 2 - q
    alpha / 6 * d * d * d
  else
    let qq := q * q
    let qqq := qq * q
    alpha * (11184811 / 16777216 - qq + 0.5 * qqq)

/-- The method `CubicKernel::gradient` (source lines 151-171). -/
def CubicKernel.gradient {K : Type} [LinearOrderedField K] (M_PI : K) (r h : K) : K :=
  let hh := h * h
  let q := r / h
  let alpha := 3 / (2 * M_PI * hh * h)
  if q > 2 then 0
  else if q ≥ 1 then
    let d := 2 - q;
    -0.5 * alpha * d * d
  else
    let qq := q * q
    alpha * (-2 * q + 1.5 * qq)

/-- The method `QuadraticKernel::weight` (source lines 178-186). -/
def QuadraticKernel.weight {K : Type} [LinearOrderedField K] (M_PI : K) (r h : K) : K :=
  let q := r / h
  if q > 1 then 0
  else
    let alpha := 15 / (2 * M_PI)
    alpha * (1 - q) * (1 - q)

/-- The method `QuadraticKernel::gradient` (source lines 188-196). -/
def QuadraticKernel.gradient {K : Type} [LinearOrderedField K] (M_PI : K) (r h : K) : K :=
  let q := r / h
  if q > 1 then 0
  else
    let alpha := 15 / M_PI;
    -alpha * (1 - q)

/-- The method `QuarticKernel::weight` (source lines 201-229). The literal `0.0255f` is the
`float` nearest to 0.0255: 427819 / 2^24. -/
def QuarticKernel.weight {K : Type} [LinearOrderedField K] (r h : K) : K :=
  let hh := h * h
  let q := 2.5 * r / h
  if q > 2.5 then 0
  else if q > 1.5 then
    let d := 2.5 - q
    let dd := d * d
    427819 / 16777216 * dd * dd / hh
  else if q > 0.5 then
    let d := 2.5 - q
    let t := 1.5 - q
    let dd := d * d
    let tt := t * t
    427819 / 16777216 * (dd * dd - 5 * tt * tt) / hh
  else
    let d := 2.5 - q
    let t := 1.5 - q
    let w := 0.5 - q
    let dd := d * d
    let tt := t * t
    let ww := w * w
    427819 / 16777216 * (dd * dd - 5 * tt * tt + 10 * ww * ww) / hh

/-- The method `QuarticKernel::gradient` (source lines 231-256). The literal `0.102f` is the
`float` nearest to 0.102: 427819 / 2^22. -/
def QuarticKernel.gradient {K : Type} [LinearOrderedField K] (r h : K) : K :=
  let hh := h * h
  let q := 2.5 * r / h
  if q > 2.5 then 0
  else if q > 1.5 then
    let d := 2.5 - q;
    -(427819 / 4194304) * d * d * d / hh
  else if q > 0.5 then
    let d := 2.5 - q
    let t := 1.5 - q;
    -(427819 / 4194304) * (d * d * d - 5 * t * t * t) / hh
  else
    let d := 2.5 - q
    let t := 1.5 - q
    let w := 0.5 - q;
    -(427819 / 4194304) * (d * d * d - 5 * t * t * t + 10 * w * w * w) / hh

/-- The method `GaussKernel::weight` (source lines 262-266). -/
def GaussKernel.weight {K : Type} [LinearOrderedField K] (pow : K → K → K) (M_E : K) (r h : K) :
    K :=
  let q := r / h
  pow M_E (-q)

/-- The method `GaussKernel::gradient` (source lines 268-272). -/
def GaussKernel.gradient {K : Type} [LinearOrderedField K] (pow : K → K → K) (M_E : K)
    (r h : K) : K :=
  let q := r / h;
  -pow M_E (-q)

/-! ## Definitions used in the statements on pools and material files -/

/-- Three scalars read one after the other from the characters `buf`. -/
def readTriple {S : Type} (H : Host S) (buf : Str) : Option (S × S × S) :=
  match H.readScalar buf with
  | none => none
  | some (x, s1) =>
    match H.readScalar s1 with
    | none => none
    | some (y, s2) =>
      match H.readScalar s2 with
      | none => none
      | some (z, _) => some (x, y, z)

/-- Two scalars read one after the other from the characters `buf`. -/
def readPair {S : Type} (H : Host S) (buf : Str) : Option (S × S) :=
  match H.readScalar buf with
  | none => none
  | some (x, s1) =>
    match H.readScalar s1 with
    | none => none
    | some (y, _) => some (x, y)

/-- The triple of a line whose first token is `key`: the three scalars that follow the token;
`none` for any other line. -/
def lineTriple {S : Type} (H : Host S) (key : Str) (line : Str) : Option (S × S × S) :=
  match extract (cstr line) with
  | none => none
  | some (t, rest) => if t = key then readTriple H rest else none

/-- The pair of a line whose first token is `key`: the two scalars that follow the token; `none`
for any other line. -/
def linePair {S : Type} (H : Host S) (key : Str) (line : Str) : Option (S × S) :=
  match extract (cstr line) with
  | none => none
  | some (t, rest) => if t = key then readPair H rest else none

/-- The triples of the lines of `text` whose first token is `key`, in file order, each line
counted once. -/
def poolTriples {S : Type} (H : Host S) (key : Str) (text : Str) : List (S × S × S) :=
  (splitLines text []).filterMap (lineTriple H key)

/-- The pairs of the lines of `text` whose first token is `key`, in file order, each line
counted once. -/
def poolPairs {S : Type} (H : Host S) (key : Str) (text : Str) : List (S × S) :=
  (splitLines text []).filterMap (linePair H key)

/-- Every line of the text is shorter than `maxline` characters. -/
def ShortLines (maxline : Nat) (text : Str) : Prop :=
  ∀ line ∈ splitLines text [], line.length < maxline

/-- Two meshes have the same pools. -/
def SamePools {S : Type} (m1 m2 : SurfaceMesh S) : Prop :=
  m2.positions = m1.positions ∧ m2.normals = m1.normals ∧
    m2.texture_coordinates = m1.texture_coordinates

/-- A text whose first line is a comment sign followed by 999 blanks, and whose second line is
`v 1 2 3`. -/
def longLineText : Str := '#' :: List.replicate 999 ' ' ++ "\nv 1 2 3\n".toList
/-- A file with lines `v`, `vn` and `vt`, the last one without a line break after it. -/
def poolText : String := "v 1 2 3\nvn 0 0 1\n# note\nvt 0.5 0.25\nv 4 5 6"

/-- The mesh that `load` makes of `poolText`. -/
def poolMesh : SurfaceMesh Fixed :=
  { SurfaceMesh.empty Fixed with
    positions := [(1000000, 2000000, 3000000), (4000000, 5000000, 6000000)]
    normals := [(0, 0, 1000000)]
    texture_coordinates := [(500000, 250000)] }

/-- A single token: not empty, without white space and without NUL. -/
def Token (s : Str) : Prop := s ≠ [] ∧ ∀ c ∈ s, isspace c = false ∧ c ≠ Char.ofNat 0

/-- The scalar `x` is written by the host as a single token that reads back as `x` when the
end of the line or white space follows it. -/
def Host.Exact {S : Type} (H : Host S) (x : S) : Prop :=
  Token (H.put x) ∧
    ∀ rest : Str, (∀ c, rest.head? = some c → isspace c = true) →
      H.get (H.put x ++ rest) = some (x, rest)

/-- The value that `saveMaterials` writes after `Ns` for the shininess `s`. -/
def Host.writtenShininess {S : Type} (H : Host S) (s : S) : S :=
  H.div (H.mul s (H.lit 10000 1)) (H.lit 1280 1)

/-- What the round trip through a material file needs of a material: its name is a token, so
is the base name of its texture file when it has one, each of its scalars is written by the
host in a form that reads back, scaling the written shininess back gives the shininess, and
the text written for `alpha` does not start with a minus sign. -/
def Host.RoundTrips {S : Type} (H : Host S) (m : Material S) : Prop :=
  Token m.name
    ∧ (H.Exact m.Ka.1 ∧ H.Exact m.Ka.2.1 ∧ H.Exact m.Ka.2.2)
    ∧ (H.Exact m.Kd.1 ∧ H.Exact m.Kd.2.1 ∧ H.Exact m.Kd.2.2)
    ∧ (H.Exact m.Ks.1 ∧ H.Exact m.Ks.2.1 ∧ H.Exact m.Ks.2.2)
    ∧ H.Exact (H.writtenShininess m.shininess)
    ∧ H.mul (H.writtenShininess m.shininess) (H.div (H.lit 1280 1) (H.lit 10000 1)) = m.shininess
    ∧ H.Exact m.alpha
    ∧ (H.put m.alpha).head? ≠ some '-'
    ∧ (m.hasTexture = true → Token (filenameInPath m.texture_file_name))

/-- A content of the token buffer of `loadMaterials` under which its `switch` does nothing. -/
def Inert (type_of_line : Str) : Prop :=
  type_of_line.headD (Char.ofNat 0) ≠ 'n' ∧ type_of_line.headD (Char.ofNat 0) ≠ 'N'
    ∧ type_of_line.headD (Char.ofNat 0) ≠ 'K' ∧ type_of_line.headD (Char.ofNat 0) ≠ 'm'
    ∧ type_of_line.headD (Char.ofNat 0) ≠ 'd'

/-- The unwritten buffers of `loadMaterials` read either as no directive at all, or as what
the previous iteration left in them. -/
def Garbage.Harmless {S : Type} (garbage : Garbage S) : Prop :=
  ∀ (k : Nat) (type_of_line next : Str),
    Inert (garbage.mtl_type_of_line k type_of_line)
      ∨ (garbage.mtl_type_of_line k type_of_line = type_of_line ∧ garbage.next k next = next)

/-- A line made of a key and of fields, each field after one blank. -/
def joinLine (key : Str) (fields : List Str) : Str :=
  key ++ (fields.map (fun f => ' ' :: f)).flatten

/-- The lines that `saveMaterials` writes for one material. -/
def materialLines {S : Type} (H : Host S) (m : Material S) : List Str :=
  [joinLine "newmtl".toList [m.name],
    joinLine "Ka".toList [H.put m.Ka.1, H.put m.Ka.2.1, H.put m.Ka.2.2],
    joinLine "Kd".toList [H.put m.Kd.1, H.put m.Kd.2.1, H.put m.Kd.2.2],
    joinLine "Ks".toList [H.put m.Ks.1, H.put m.Ks.2.1, H.put m.Ks.2.2],
    joinLine "Ns".toList [H.put (H.writtenShininess m.shininess)],
    joinLine "d".toList [H.put m.alpha]]
    ++ (if m.hasTexture then [joinLine "map_Kd".toList [filenameInPath m.texture_file_name]]
        else [])

/-- The material that `loadMaterials` makes of the lines written for `m`, for a material file
at `filename`: the texture file is looked for next to the material file. -/
def Material.reloaded {S : Type} (filename : Str) (m : Material S) : Material S :=
  { m with
    texture_file_name :=
      if m.hasTexture then dirName filename ++ ['/'] ++ filenameInPath m.texture_file_name
      else [] }

/-- The fields of a line are tokens. -/
def Fields (fields : List Str) : Prop := ∀ f ∈ fields, Token f

/-- A state of `loadMaterials` in which an iteration on a line without token changes nothing
of the material being accumulated: the token buffer holds no directive, or `map_Kd`, or `d`
with the buffer `next` holding the text of the current `alpha`. -/
def Settled {S : Type} (H : Host S) (st : MtlState S) : Prop :=
  Inert st.type_of_line ∨ st.type_of_line.headD (Char.ofNat 0) = 'm'
    ∨ (st.type_of_line.headD (Char.ofNat 0) = 'd' ∧ st.next = H.put st.material_example.alpha
        ∧ H.Exact st.material_example.alpha
        ∧ (H.put st.material_example.alpha).head? ≠ some '-')

/-- The multiple of `u` nearest to `n`, the even one of the two when `n` lies half-way. -/
def roundHalfEven (n u : Nat) : Nat :=
  let q := n / u
  let r := n % u
  if 2 * r < u then q * u
  else if u < 2 * r then (q + 1) * u
  else if q % 2 = 0 then q * u
  else (q + 1) * u

/-- A count of millionths rounded to six significant decimal digits, the default precision of
an output stream: a number with `d` digits before the point keeps `6 - d` digits after it. A
value half-way between two candidates goes to the even one, which is what the C library does
for a number that the floating-point type holds exactly, as it does 507.8125. -/
def sixDigits (n : Nat) : Nat :=
  let d := if n < 1000000 then 0 else (putNat (n / 1000000)).length
  roundHalfEven n (10 ^ d)

/-- The example host with the default precision of an output stream: scalars are written with
six significant digits (in plain notation, also where the stream would use an exponent). -/
def streamHost : Host Fixed :=
  { fixedHost with
    put := fun x =>
      putFixed (if x < 0 then -((sixDigits x.natAbs : Nat) : Int) else ((sixDigits x.natAbs : Nat) : Int)) }

/-- A mesh holding the material that `newmtl m` starts, of shininess 65. -/
def shinyMesh : SurfaceMesh Fixed :=
  { SurfaceMesh.empty Fixed with materials := [freshMaterial "m".toList] }

/-- A mesh holding one material with a negative `alpha`. -/
def negativeAlphaMesh : SurfaceMesh Fixed :=
  { SurfaceMesh.empty Fixed with
    materials := [{ freshMaterial "m".toList with alpha := -500000 }] }

/-- A material with a texture file and one without. -/
def savedMesh : SurfaceMesh Fixed :=
  { SurfaceMesh.empty Fixed with
    materials :=
      [{ name := "wood".toList, Ka := (100000, 200000, 300000), Kd := (500000, 500000, 500000),
         Ks := (0, 0, 1000000), shininess := 65000000, alpha := 500000,
         texture_file_name := "tex/wood.png".toList },
       { name := "glass".toList, Ka := (0, 0, 0), Kd := (1250000, 0, 0), Ks := (0, 0, 0),
         shininess := 128000000, alpha := 250000, texture_file_name := [] }] }

/-! ## The branches of the piecewise kernels

The expressions that the branches of `CubicKernel` and `QuarticKernel` return, as functions of
the scaled radius `q`. -/

/-- The branch `q >= 1` of `CubicKernel::weight` (source lines 136-141). -/
def CubicKernel.weightOuter {K : Type} [LinearOrderedField K] (M_PI : K) (q h : K) : K :=
  let hh := h * h
  let alpha := 3 / (2 * M_PI * hh * h)
  let d := 2 - q
  alpha / 6 * d * d * d

/-- The last branch of `CubicKernel::weight` (source lines 142-148), with the `float` constant
`2.0f/3.0f`. -/
def CubicKernel.weightInner {K : Type} [LinearOrderedField K] (M_PI : K) (q h : K) : K :=
  let hh := h * h
  let alpha := 3 / (2 * M_PI * hh * h)
  let qq := q * q
  let qqq := qq * q
  alpha * (11184811 / 16777216 - qq + 0.5 * qqq)

/-- The branch `q >= 1` of `CubicKernel::gradient` (source lines 159-164). -/
def CubicKernel.gradientOuter {K : Type} [LinearOrderedField K] (M_PI : K) (q h : K) : K :=
  let hh := h * h
  let alpha := 3 / (2 * M_PI * hh * h)
  let d := 2 - q;
  -0.5 * alpha * d * d

/-- The last branch of `CubicKernel::gradient` (source lines 165-170). -/
def CubicKernel.gradientInner {K : Type} [LinearOrderedField K] (M_PI : K) (q h : K) : K :=
  let hh := h * h
  let alpha := 3 / (2 * M_PI * hh * h)
  let qq := q * q
  alpha * (-2 * q + 1.5 * qq)

/-- The branch `q > 1.5` of `QuarticKernel::weight` (source lines 206-211). -/
def QuarticKernel.weightOuter {K : Type} [LinearOrderedField K] (q h : K) : K :=
  let hh := h * h
  let d := 2.5 - q
  let dd := d * d
  427819 / 16777216 * dd * dd / hh

/-- The branch `q > 0.5` of `QuarticKernel::weight` (source lines 212-219). -/
def QuarticKernel.weightMiddle {K : Type} [LinearOrderedField K] (q h : K) : K :=
  let hh := h * h
  let d := 2.5 - q
  let t := 1.5 - q
  let dd := d * d
  let tt := t * t
  427819 / 16777216 * (dd * dd - 5 * tt * tt) / hh

/-- The last branch of `QuarticKernel::weight` (source lines 220-229). -/
def QuarticKernel.weightInner {K : Type} [LinearOrderedField K] (q h : K) : K :=
  let hh := h * h
  let d := 2.5 - q
  let t := 1.5 - q
  let w := 0.5 - q
  let dd := d * d
  let tt := t * t
  let ww := w * w
  427819 / 16777216 * (dd * dd - 5 * tt * tt + 10 * ww * ww) / hh

/-- The branch `q > 1.5` of `QuarticKernel::gradient` (source lines 237-242). -/
def QuarticKernel.gradientOuter {K : Type} [LinearOrderedField K] (q h : K) : K :=
  let hh := h * h
  let d := 2.5 - q;
  -(427819 / 4194304) * d * d * d / hh

/-- The branch `q > 0.5` of `QuarticKernel::gradient` (source lines 243-248). -/
def QuarticKernel.gradientMiddle {K : Type} [LinearOrderedField K] (q h : K) : K :=
  let hh := h * h
  let d := 2.5 - q
  let t := 1.5 - q;
  -(427819 / 4194304) * (d * d * d - 5 * t * t * t) / hh

/-- The last branch of `QuarticKernel::gradient` (source lines 249-255). -/
def QuarticKernel.gradientInner {K : Type} [LinearOrderedField K] (q h : K) : K :=
  let hh := h * h
  let d := 2.5 - q
  let t := 1.5 - q
  let w := 0.5 - q;
  -(427819 / 4194304) * (d * d * d - 5 * t * t * t + 10 * w * w * w) / hh

/-- The reference as written on the wire for a vertex reference: every index one more. -/
def Vertex.wire (v : Vertex) : WireRef :=
  match v.texture_index, v.normal_index with
  | none, none => WireRef.pos (v.position_index + 1)
  | some t, none => WireRef.posTex (v.position_index + 1) (t + 1)
  | some t, some n => WireRef.posTexNor (v.position_index + 1) (t + 1) (n + 1)
  | none, some n => WireRef.posNor (v.position_index + 1) (n + 1)

/-- Every vertex reference of the list but the last has a normal, after which `save` writes a
blank. -/
def Separated : List Vertex → Prop
  | [] => True
  | [_] => True
  | v :: w :: rest => v.hasNormal = true ∧ Separated (w :: rest)

/-- The line that `save` writes for a face, without its line break: what `getline` hands to
the loop of `load`. -/
def savedFaceLine (f : Face) : Str := "f ".toList ++ (f.vertices.map putVertex).flatten

/-- The faces of the group `default` after the loop of `load` has run on the line that `save`
writes for the face `f`, from an empty mesh. -/
def reparsed (garbage : Garbage Fixed) (f : Face) : Except Err (List (List Face)) :=
  (loadLoop fixedHost noFiles garbage "a.obj".toList [savedFaceLine f]
    (initialState (SurfaceMesh.empty Fixed))).map (fun st => st.mesh.groups.map (fun g => g.faces))

/-! ## The MPM driver base (`mpm_base.h`)

The driver owns its weight function and its step method through pointers. A pointer is
embedded as an address (`none` for the null pointer) and the objects pointed to live in a free
store, so that `delete` and `new` are steps on the store. The template arguments
`GridWeightFunctionType` and `MPMStepMethodType` are values of the types `W` and `M`. -/

/-- An object that the driver owns through a pointer: a grid weight function of the type
given, or a step method of the type given with the driver it is bound to (its address). -/
inductive Owned (W M : Type) where
  | gridWeightFunction (type : W)
  | stepMethod (type : M) (mpm_driver : Option Nat)
deriving DecidableEq, Repr

/-- The free store: the object that lives at each address, `none` where there is none. -/
abbrev FreeStore (W M : Type) := Nat → Option (Owned W M)

/-- The statement `delete p`. -/
def FreeStore.delete {W M : Type} (store : FreeStore W M) (p : Nat) : FreeStore W M :=
  fun a => if a = p then none else store a

/-- The statement `if(p) delete p;` on a pointer `p`. -/
def FreeStore.release {W M : Type} (store : FreeStore W M) (p : Option Nat) : FreeStore W M :=
  match p with
  | some a => store.delete a
  | none => store

/-- An object `x` placed at the address `fresh` by a `new` expression. -/
def FreeStore.place {W M : Type} (store : FreeStore W M) (fresh : Nat) (x : Owned W M) :
    FreeStore W M :=
  fun a => if a = fresh then some x else store a

/-- The data members of `MPMBase` (source lines 66-71), with `max_dt_`.
Modelled from the spec: `max_dt_` is a member of `DriverBase`, which is not among the sources
(`max_dt > 0`: hard upper bound on a substep). -/
structure MPMBase (Scalar Vec : Type) where
  weight_function_ : Option Nat
  weight_radius_cell_scale_ : Vec
  step_method_ : Option Nat
  cfl_num_ : Scalar
  sound_speed_ : Scalar
  max_dt_ : Scalar
deriving DecidableEq, Repr

/-- A driver with the free store in which the objects it points to live. -/
structure Machine (Scalar Vec W M : Type) where
  driver : MPMBase Scalar Vec
  store : FreeStore W M

/-- Modelled from the spec: `GridWeightFunctionCreator<T>::createGridWeightFunction()`
(`grid_weight_function_creator.h`, not among the sources), which makes a new weight function of
the type selected; `fresh` is the address that the allocation returns. -/
def createGridWeightFunction {W M : Type} (type : W) (fresh : Nat) (store : FreeStore W M) :
    Nat × FreeStore W M :=
  (fresh, store.place fresh (Owned.gridWeightFunction type))

/-- Modelled from the spec: the constructor `MPMStepMethodType()` (not among the sources), a
step method of the type selected that is bound to no driver yet. -/
def newStepMethod {W M : Type} (type : M) : Owned W M := Owned.stepMethod type none

/-- Modelled from the spec: `MPMStepMethod::setMPMDriver` (not among the sources), which binds
the step method to the driver given. -/
def Owned.setMPMDriver {W M : Type} (x : Owned W M) (driver : Nat) : Owned W M :=
  match x with
  | Owned.stepMethod type _ => Owned.stepMethod type (some driver)
  | Owned.gridWeightFunction type => Owned.gridWeightFunction type

/-- The method `MPMBase::setWeightFunction<GridWeightFunctionType>` (source lines 74-82);
`fresh` is the address that the allocation returns. -/
def MPMBase.setWeightFunction {Scalar Vec W M : Type} (type : W) (radius_cell_scale : Vec)
    (fresh : Nat) (m : Machine Scalar Vec W M) : Machine Scalar Vec W M :=
  let store1 := m.store.release m.driver.weight_function_
  let created := createGridWeightFunction type fresh store1
  { driver :=
      { m.driver with
        weight_function_ := some created.1
        weight_radius_cell_scale_ := radius_cell_scale }
    store := created.2 }

/-- The method `MPMBase::setStepMethod<MPMStepMethodType>` (source lines 84-92) of the driver
at the address `this`; `fresh` is the address that the allocation returns. -/
def MPMBase.setStepMethod {Scalar Vec W M : Type} (type : M) (this fresh : Nat)
    (m : Machine Scalar Vec W M) : Machine Scalar Vec W M :=
  let store1 := m.store.release m.driver.step_method_
  let store2 := store1.place fresh (newStepMethod type)
  let step_method_ := fresh
  let store3 : FreeStore W M :=
    match store2 step_method_ with
    | some x => store2.place step_method_ (x.setMPMDriver this)
    | none => store2
  { driver := { m.driver with step_method_ := some step_method_ }
    store := store3 }

/-- Modelled from the spec: `MPMBase::computeTimeStep` (`mpm_base.cpp`, not among the sources,
which hold its declaration only): returns `min(max_dt, cfl_num · min_cell_edge /
(max_particle_speed + sound_speed))`; if the denominator is 0, returns `max_dt`. The values of
the hooks `minCellEdgeLength()` and `maxParticleVelocityNorm()` of the concrete driver are
arguments. -/
def MPMBase.computeTimeStep {Scalar Vec : Type} [LinearOrderedField Scalar]
    (d : MPMBase Scalar Vec) (minCellEdgeLength maxParticleVelocityNorm : Scalar) : Scalar :=
  let denominator := maxParticleVelocityNorm + d.sound_speed_
  if denominator = 0 then d.max_dt_
  else min d.max_dt_ (d.cfl_num_ * minCellEdgeLength / denominator)

/-- The pointers of the driver point to live objects of their kinds. -/
def Machine.WellFormed {Scalar Vec W M : Type} (m : Machine Scalar Vec W M) : Prop :=
  (∀ p, m.driver.weight_function_ = some p → ∃ type, m.store p = some (Owned.gridWeightFunction type))
    ∧ (∀ p, m.driver.step_method_ = some p →
        ∃ type driver, m.store p = some (Owned.stepMethod type driver))
/-- A driver used to evaluate the setters and the time step: weight function at address 1,
step method at address 2 bound to the driver at address 0, CFL number 0.5, sound speed 0 and
largest time step 1. -/
def exampleMachine : Machine ℚ (List ℚ) String String where
  driver := MPMBase.mk (some 1) [1, 1] (some 2) 0.5 0 1
  store := fun a =>
    if a = 1 then some (Owned.gridWeightFunction "linear")
    else if a = 2 then some (Owned.stepMethod "USL" (some 0))
    else none

/-! ## Definitions used in the round trip through an `.obj` file -/

/-- C4. The face line `f abc 1/x` holds two tokens of none of the four forms, and `load`
returns normally: the tokens are passed over and the face, left without vertex references, is
added to the group `default`. Only a token that contains `//` ends in the fatal error. -/
theorem unparseable_tokens_are_skipped :
    loadText blankGarbage "f abc 1/x\n" (SurfaceMesh.empty Fixed) =
        Except.ok { SurfaceMesh.empty Fixed with groups := [defaultGroup [plainFace []]] } ∧
      loadText staleGarbage "f abc 1/x\n" (SurfaceMesh.empty Fixed) =
        Except.ok { SurfaceMesh.empty Fixed with groups := [defaultGroup [plainFace [], plainFace []]] } ∧
      loadText blankGarbage "f 1//x\n" (SurfaceMesh.empty Fixed) =
        Except.error (Err.fatal "invalid vertx in this face") := by
  decide

/-- C5. On `f 1` followed by `usemtl nosuch`, with no material of that name, `load` returns
normally, and the mesh has gained the group `.0`, added before the material was looked up. -/
theorem unknown_material_is_not_fatal :
    loadText blankGarbage "f 1\nusemtl nosuch\n" (SurfaceMesh.empty Fixed) =
        Except.ok { SurfaceMesh.empty Fixed with
          groups := [defaultGroup [plainFace [0]],
            { name := ".0".toList, material_index := 0, faces := [] }] } ∧
      loadText staleGarbage "f 1\nusemtl nosuch\n" (SurfaceMesh.empty Fixed) =
        Except.ok { SurfaceMesh.empty Fixed with
          groups := [defaultGroup [plainFace [0]],
            { name := ".0".toList, material_index := 0, faces := [] }] } := by
  decide

/-- C6. On `g a`, `g b`, `f 1`, `g a`, `usemtl m` the group current at the `usemtl` line is
`a`, re-entered and without a face, and `load` still adds a group (`b.0`, which gets the
material), leaving the material of `a` alone; on `g a`, `f 1`, `g b`, `g a`, `usemtl m` the
current group `a` holds a face, and no group is added: the material of `a` is overwritten. -/
theorem reentered_group_keeps_old_face_count :
    (loadText blankGarbage "g a\ng b\nf 1\ng a\nusemtl m\n" materialsOnly).map (fun m => m.groups) =
        Except.ok [{ name := "a".toList, material_index := 0, faces := [] },
          { name := "b".toList, material_index := 0, faces := [plainFace [0]] },
          { name := "b.0".toList, material_index := 1, faces := [] }] ∧
      (loadText staleGarbage "g a\ng b\nf 1\ng a\nusemtl m\n" materialsOnly).map (fun m => m.groups) =
        Except.ok [{ name := "a".toList, material_index := 0, faces := [] },
          { name := "b".toList, material_index := 0, faces := [plainFace [0]] },
          { name := "b.0".toList, material_index := 1, faces := [] }] ∧
      (loadText blankGarbage "g a\nf 1\ng b\ng a\nusemtl m\n" materialsOnly).map (fun m => m.groups) =
        Except.ok [{ name := "a".toList, material_index := 1, faces := [plainFace [0]] },
          { name := "b".toList, material_index := 0, faces := [] }] ∧
      (loadText staleGarbage "g a\nf 1\ng b\ng a\nusemtl m\n" materialsOnly).map (fun m => m.groups) =
        Except.ok [{ name := "a".toList, material_index := 1, faces := [plainFace [0]] },
          { name := "b".toList, material_index := 0, faces := [] }] := by
  decide

/-- C7. On `f 1` followed by `usemtl m` the current group is the implicit `default`, which
holds a face, and the group that `load` synthesises is called `.0`, not `default.0`; on
`g a`, `f 1`, `g b`, `f 2`, `g a`, `usemtl m` the current group is `a`, re-entered, and the
clone is called `b.0`. -/
theorem clone_name_ignores_current_group :
    (loadText blankGarbage "f 1\nusemtl m\n" materialsOnly).map (fun m => m.groups) =
        Except.ok [defaultGroup [plainFace [0]],
          { name := ".0".toList, material_index := 1, faces := [] }] ∧
      (loadText staleGarbage "f 1\nusemtl m\n" materialsOnly).map (fun m => m.groups) =
        Except.ok [defaultGroup [plainFace [0]],
          { name := ".0".toList, material_index := 1, faces := [] }] ∧
      (loadText blankGarbage "g a\nf 1\ng b\nf 2\ng a\nusemtl m\n" materialsOnly).map
          (fun m => m.groups) =
        Except.ok [{ name := "a".toList, material_index := 0, faces := [plainFace [0]] },
          { name := "b".toList, material_index := 0, faces := [plainFace [1]] },
          { name := "b.0".toList, material_index := 1, faces := [] }] ∧
      (loadText staleGarbage "g a\nf 1\ng b\nf 2\ng a\nusemtl m\n" materialsOnly).map
          (fun m => m.groups) =
        Except.ok [{ name := "a".toList, material_index := 0, faces := [plainFace [0]] },
          { name := "b".toList, material_index := 0, faces := [plainFace [1]] },
          { name := "b.0".toList, material_index := 1, faces := [] }] := by
  decide

/-- C8. On `g a.0`, `g a`, `f 1`, `usemtl x` loaded into the empty mesh, the clone made by
`usemtl` takes the name `a.0` of a group that exists, and the mesh ends with two groups of that
name. -/
theorem clone_duplicates_group_name :
    (loadText blankGarbage "g a.0\ng a\nf 1\nusemtl x\n" (SurfaceMesh.empty Fixed)).map
          (fun m => m.groups.map (fun g => g.name)) =
        Except.ok ["a.0".toList, "a".toList, "a.0".toList] ∧
      (loadText staleGarbage "g a.0\ng a\nf 1\nusemtl x\n" (SurfaceMesh.empty Fixed)).map
          (fun m => m.groups.map (fun g => g.name)) =
        Except.ok ["a.0".toList, "a".toList, "a.0".toList] := by
  decide

/-- C9. On the single triangle `v 0 0 0`, `v 1 0 0`, `v 0 1 0`, `f 1 2 3`, where the
unwritten `type_of_line` keeps its content, the iteration that `load` runs after the last line
takes it for a second face line: the group `default` ends with two faces, the triangle and a
face without vertex references. Where the buffer reads as empty there is the one face. -/
theorem triangle_gets_second_face :
    loadText staleGarbage "v 0 0 0\nv 1 0 0\nv 0 1 0\nf 1 2 3\n" (SurfaceMesh.empty Fixed) =
        Except.ok { SurfaceMesh.empty Fixed with
          positions := [(0, 0, 0), (1000000, 0, 0), (0, 1000000, 0)]
          groups := [defaultGroup [plainFace [0, 1, 2], plainFace []]] } ∧
      loadText blankGarbage "v 0 0 0\nv 1 0 0\nv 0 1 0\nf 1 2 3\n" (SurfaceMesh.empty Fixed) =
        Except.ok { SurfaceMesh.empty Fixed with
          positions := [(0, 0, 0), (1000000, 0, 0), (0, 1000000, 0)]
          groups := [defaultGroup [plainFace [0, 1, 2]]] } := by
  decide

theorem findChar_some {c : Char} : ∀ (s : Str) (i : Nat), findChar c s = some i →
    i < s.length ∧ c ∉ s.take i ∧ s.drop i = c :: s.drop (i + 1)
  | [], i, h => by simp [findChar] at h
  | x :: xs, i, h => by
    by_cases hx : x = c
    · simp [findChar, hx] at h
      subst h
      simp [hx]
    · simp only [findChar, hx, if_false, Option.map_eq_some'] at h
      obtain ⟨j, hj, rfl⟩ := h
      obtain ⟨h1, h2, h3⟩ := findChar_some xs j hj
      refine ⟨by simpa using h1, ?_, by simpa using h3⟩
      simp only [List.take_succ_cons, List.mem_cons, not_or]
      exact ⟨fun h => hx h.symm, h2⟩

theorem findChar_append {c : Char} : ∀ (pre post : Str), c ∉ pre →
    findChar c (pre ++ c :: post) = some pre.length
  | [], post, _ => by simp [findChar]
  | x :: xs, post, h => by
    simp only [List.mem_cons, not_or] at h
    have hx : ¬ x = c := fun e => h.1 e.symm
    simp [findChar, hx, findChar_append xs post h.2]

theorem obj_suffix_chars : ".obj".toList = ['.', 'o', 'b', 'j'] := rfl

theorem checkSuffix_ok_iff (filename : Str) :
    (∃ i, checkSuffix filename = Except.ok i) ↔
      ∃ stem : Str, '.' ∉ stem ∧ filename = stem ++ ".obj".toList := by
  rw [obj_suffix_chars]
  constructor
  · rintro ⟨i, h⟩
    unfold checkSuffix at h
    rw [obj_suffix_chars] at h
    cases hf : findChar '.' filename with
    | none => simp [hf, PHYSIKA_MESSAGE_ASSERT, Except.bind] at h
    | some j =>
      obtain ⟨h1, h2, h3⟩ := findChar_some filename j hf
      simp only [hf, PHYSIKA_MESSAGE_ASSERT, h1, decide_True, if_true, PHYSIKA_ERROR] at h
      by_cases hs : filename.drop j = ['.', 'o', 'b', 'j']
      · refine ⟨filename.take j, h2, ?_⟩
        rw [← hs, List.take_append_drop]
      · simp [hs] at h
  · rintro ⟨stem, hstem, rfl⟩
    refine ⟨stem.length, ?_⟩
    have hf : findChar '.' (stem ++ ['.', 'o', 'b', 'j']) = some stem.length :=
      findChar_append stem ['o', 'b', 'j'] hstem
    unfold checkSuffix
    rw [obj_suffix_chars]
    simp [hf, PHYSIKA_MESSAGE_ASSERT]

theorem checkSuffix_error (filename : Str)
    (h : ¬ ∃ stem : Str, '.' ∉ stem ∧ filename = stem ++ ".obj".toList) :
    checkSuffix filename = Except.error (Err.fatal "this is not a obj file") := by
  have h2 : ¬ ∃ i, checkSuffix filename = Except.ok i := fun hc => h ((checkSuffix_ok_iff filename).1 hc)
  unfold checkSuffix at h2 ⊢
  cases hf : findChar '.' filename with
  | none => simp [PHYSIKA_MESSAGE_ASSERT, Except.bind]
  | some j =>
    obtain ⟨h1, -, -⟩ := findChar_some filename j hf
    simp only [hf, PHYSIKA_MESSAGE_ASSERT, h1, decide_True, if_true, PHYSIKA_ERROR] at h2 ⊢
    split
    · rfl
    · exact absurd ⟨j, by simp_all⟩ h2

/-- C10 (amended). The filename check of `load` and `save` passes exactly for the names
`stem.obj` whose stem holds no `.`, that is, when the name holds a `.` and reads `.obj` from its
first `.` on. For every other name both calls are fatal, whatever the files are (no file is
opened). So a name ending in `.obj` passes exactly when no `.` comes before that ending. -/
theorem filename_validation (filename : Str) :
    ((∃ i, checkSuffix filename = Except.ok i) ↔
        ∃ stem : Str, '.' ∉ stem ∧ filename = stem ++ ".obj".toList) ∧
      ((¬ ∃ stem : Str, '.' ∉ stem ∧ filename = stem ++ ".obj".toList) →
        ∀ (S : Type) (H : Host S) (files : Files) (garbage : Garbage S) (mesh : SurfaceMesh S),
          load H files garbage filename mesh = Except.error (Err.fatal "this is not a obj file") ∧
          save H files filename mesh = Except.error (Err.fatal "this is not a obj file")) ∧
      (∀ start : Str, filename = start ++ ".obj".toList →
        ((∃ i, checkSuffix filename = Except.ok i) ↔ '.' ∉ start)) := by
  refine ⟨checkSuffix_ok_iff filename, ?_, ?_⟩
  · intro h S H files garbage mesh
    have he := checkSuffix_error filename h
    constructor
    · simp [load, he]
    · simp [save, he]
  · intro start hstart
    rw [checkSuffix_ok_iff]
    constructor
    · rintro ⟨stem, hstem, hs⟩
      have : start = stem := List.append_cancel_right (hstart.symm.trans hs)
      rw [this]; exact hstem
    · intro h
      exact ⟨start, h, hstart⟩

/-- C10. The name `a.b.obj` ends in `.obj` and is rejected: the text from its first `.` on is
`.b.obj`. -/
theorem dotted_name_rejected :
    "a.b.obj".toList = "a.b".toList ++ ".obj".toList ∧
      load fixedHost (oneFile "a.b.obj".toList "f 1\n".toList) blankGarbage "a.b.obj".toList
          (SurfaceMesh.empty Fixed) = Except.error (Err.fatal "this is not a obj file") ∧
      save fixedHost noFiles "a.b.obj".toList roundTripMesh =
        Except.error (Err.fatal "this is not a obj file") := by
  refine ⟨by decide, by decide, by rfl⟩

theorem digitChar_spec : ∀ d, d < 10 → isdigit (digitChar d) = true ∧ (digitChar d).toNat - 48 = d := by
  decide

theorem isdigit_bounds {c : Char} (h : isdigit c = true) : 48 ≤ c.toNat ∧ c.toNat ≤ 57 := by
  simpa [isdigit] using h

theorem isdigit_ne {c : Char} (h : isdigit c = true) :
    c ≠ '/' ∧ c ≠ '-' ∧ c ≠ '+' ∧ c ≠ Char.ofNat 0 := by
  refine ⟨?_, ?_, ?_, ?_⟩ <;> (rintro rfl; revert h; decide)

theorem isdigit_not_space {c : Char} (h : isdigit c = true) : isspace c = false := by
  cases hs : isspace c with
  | false => rfl
  | true =>
    exfalso
    simp only [isspace, Bool.or_eq_true, decide_eq_true_eq] at hs
    rcases hs with ((((rfl | rfl) | rfl) | rfl) | rfl) | rfl <;> revert h <;> decide

theorem digitsRev_spec : ∀ (fuel n : Nat), n < fuel →
    digitsRev fuel n ≠ [] ∧ (∀ d ∈ digitsRev fuel n, d < 10) ∧
      (digitsRev fuel n).foldr (fun d a => 10 * a + d) 0 = n
  | 0, n, h => absurd h (Nat.not_lt_zero n)
  | fuel + 1, n, h => by
    by_cases hn : n < 10
    · simp [digitsRev, hn]
    · have hlt : n / 10 < fuel := by omega
      obtain ⟨-, h2, h3⟩ := digitsRev_spec fuel (n / 10) hlt
      simp only [digitsRev, hn, if_false, List.foldr_cons, h3]
      refine ⟨by simp, ?_, by omega⟩
      intro d hd
      rcases List.mem_cons.1 hd with rfl | hd
      · omega
      · exact h2 d hd

theorem scanDigits_digits : ∀ (ds : List Nat) (acc : Nat) (rest : Str), (∀ d ∈ ds, d < 10) →
    (∀ c, rest.head? = some c → isdigit c = false) →
    scanDigits (ds.map digitChar ++ rest) acc = (ds.foldl (fun a d => 10 * a + d) acc, rest)
  | [], acc, rest, _, hrest => by
    cases rest with
    | nil => simp [scanDigits]
    | cons c cs => simp [scanDigits, hrest c rfl]
  | d :: ds, acc, rest, hds, hrest => by
    have hd := digitChar_spec d (hds d (List.mem_cons_self _ _))
    have ih := scanDigits_digits ds (10 * acc + d) rest
      (fun x hx => hds x (List.mem_cons_of_mem _ hx)) hrest
    simp [scanDigits, hd.1, hd.2, ih]

theorem putNat_allDigits (n : Nat) : ∀ c ∈ putNat n, isdigit c = true := by
  intro c hc
  obtain ⟨-, h2, -⟩ := digitsRev_spec (n + 1) n (Nat.lt_succ_self n)
  simp only [putNat, List.mem_map, List.mem_reverse] at hc
  obtain ⟨d, hd, rfl⟩ := hc
  exact (digitChar_spec d (h2 d hd)).1

theorem putNat_ne_nil (n : Nat) : putNat n ≠ [] := by
  obtain ⟨h1, -, -⟩ := digitsRev_spec (n + 1) n (Nat.lt_succ_self n)
  simpa [putNat] using h1

theorem scanDigits_putNat (n : Nat) (rest : Str)
    (hrest : ∀ c, rest.head? = some c → isdigit c = false) :
    scanDigits (putNat n ++ rest) 0 = (n, rest) := by
  obtain ⟨-, h2, h3⟩ := digitsRev_spec (n + 1) n (Nat.lt_succ_self n)
  have h := scanDigits_digits (digitsRev (n + 1) n).reverse 0 rest
    (fun d hd => h2 d (List.mem_reverse.1 hd)) hrest
  rw [List.foldl_reverse] at h
  simpa [putNat, h3] using h

theorem scanUnsigned_putNat (n : Nat) (rest : Str)
    (hrest : ∀ c, rest.head? = some c → isdigit c = false) :
    scanUnsigned (putNat n ++ rest) = some (n % UINT_RANGE, rest) := by
  have hne := putNat_ne_nil n
  have hall := putNat_allDigits n
  have hscan := scanDigits_putNat n rest hrest
  cases hp : putNat n with
  | nil => exact absurd hp hne
  | cons c cs =>
    rw [hp] at hscan hall
    have hc : isdigit c = true := hall c (List.mem_cons_self _ _)
    have hsp := isdigit_not_space hc
    obtain ⟨-, hm, hpl, -⟩ := isdigit_ne hc
    simp only [List.cons_append] at hscan
    simp [scanUnsigned, List.dropWhile, hsp, hm, hpl, hc, hscan]
theorem isPrefixOf_slash_putNat (n : Nat) (x rest : Str) :
    List.isPrefixOf ('/' :: x) (putNat n ++ rest) = false := by
  have hne := putNat_ne_nil n
  have hall := putNat_allDigits n
  cases hp : putNat n with
  | nil => exact absurd hp hne
  | cons c cs =>
    rw [hp] at hall
    have hc := (isdigit_ne (hall c (List.mem_cons_self _ _))).1
    simp [List.isPrefixOf, Ne.symm hc]

theorem strstr_digits_append : ∀ (d : Str) (t x : Str), (∀ c ∈ d, isdigit c = true) →
    strstr (d ++ t) ('/' :: x) = strstr t ('/' :: x)
  | [], t, x, _ => by simp
  | c :: cs, t, x, h => by
    have hc := (isdigit_ne (h c (List.mem_cons_self _ _))).1
    have ih := strstr_digits_append cs t x (fun y hy => h y (List.mem_cons_of_mem _ hy))
    simp [strstr, List.isPrefixOf, Ne.symm hc, ih]

theorem strstr_putNat (n : Nat) (t x : Str) :
    strstr (putNat n ++ t) ('/' :: x) = strstr t ('/' :: x) :=
  strstr_digits_append (putNat n) t x (putNat_allDigits n)

theorem head_slash (rest : Str) : ∀ c, ('/' :: rest).head? = some c → isdigit c = false := by
  intro c h
  simp at h
  subst h
  decide

theorem head_nil : ∀ c, ([] : Str).head? = some c → isdigit c = false := by
  intro c h
  simp at h

theorem usub1_wire {p : Nat} (h : WireIndex p) : usub1 (p % UINT_RANGE) = p - 1 := by
  obtain ⟨h1, h2⟩ := h
  simp only [usub1, UINT_RANGE] at *
  omega

theorem parse_pos (p : Nat) (hp : WireIndex p) :
    parseVertexToken (putNat p) =
      Except.ok (some { position_index := p - 1, normal_index := none, texture_index := none }) := by
  have e1 : strstr (putNat p) ['/', '/'] = false := by
    have := strstr_putNat p [] ['/']
    simpa [strstr] using this
  have e2 : strstr (putNat p) ['/'] = false := by
    have := strstr_putNat p [] []
    simpa [strstr] using this
  have s1 : scanUnsigned (putNat p) = some (p % UINT_RANGE, []) := by
    have := scanUnsigned_putNat p [] head_nil
    simpa using this
  simp [parseVertexToken, e1, e2, sscanf, FMT_P_T_N, FMT_P, s1, usub1_wire hp, Vertex.ofPosition]

theorem parse_posTex (p t : Nat) (hp : WireIndex p) (ht : WireIndex t) :
    parseVertexToken (putNat p ++ '/' :: putNat t) =
      Except.ok (some { position_index := p - 1, normal_index := none, texture_index := some (t - 1) }) := by
  have e1 : strstr (putNat p ++ '/' :: putNat t) ['/', '/'] = false := by
    rw [strstr_putNat]
    have h1 := isPrefixOf_slash_putNat t [] []
    have h2 := strstr_putNat t [] ['/']
    simp only [List.append_nil] at h1 h2
    simp [strstr, List.isPrefixOf, h1, h2]
  have e2 : strstr (putNat p ++ '/' :: putNat t) ['/'] = true := by
    rw [strstr_putNat]
    simp [strstr, List.isPrefixOf]
  have s1 := scanUnsigned_putNat p ('/' :: putNat t) (head_slash _)
  have s2 : scanUnsigned (putNat t) = some (t % UINT_RANGE, []) := by
    have := scanUnsigned_putNat t [] head_nil
    simpa using this
  simp [parseVertexToken, e1, e2, sscanf, FMT_P_T_N, FMT_P_T, s1, s2, usub1_wire hp, usub1_wire ht,
    Vertex.ofPosition, Vertex.setTextureCoordinateIndex]

theorem parse_posTexNor (p t n : Nat) (hp : WireIndex p) (ht : WireIndex t) (hn : WireIndex n) :
    parseVertexToken (putNat p ++ '/' :: (putNat t ++ '/' :: putNat n)) =
      Except.ok (some (WireRef.posTexNor p t n).vertex) := by
  have e1 : strstr (putNat p ++ '/' :: (putNat t ++ '/' :: putNat n)) ['/', '/'] = false := by
    rw [strstr_putNat]
    have h1 := isPrefixOf_slash_putNat t [] ('/' :: putNat n)
    have h2 := isPrefixOf_slash_putNat n [] []
    have h3 := strstr_putNat n [] ['/']
    simp only [List.append_nil] at h2 h3
    simp [strstr, List.isPrefixOf, h1, h2, h3, strstr_putNat]
  have s1 := scanUnsigned_putNat p ('/' :: (putNat t ++ '/' :: putNat n)) (head_slash _)
  have s2 := scanUnsigned_putNat t ('/' :: putNat n) (head_slash _)
  have s3 : scanUnsigned (putNat n) = some (n % UINT_RANGE, []) := by
    have := scanUnsigned_putNat n [] head_nil
    simpa using this
  simp [parseVertexToken, e1, sscanf, FMT_P_T_N, s1, s2, s3, usub1_wire hp, usub1_wire ht,
    usub1_wire hn, Vertex.ofPosition, Vertex.setTextureCoordinateIndex, Vertex.setNormalIndex,
    WireRef.vertex]

theorem parse_posNor (p n : Nat) (hp : WireIndex p) (hn : WireIndex n) :
    parseVertexToken (putNat p ++ '/' :: '/' :: putNat n) =
      Except.ok (some { position_index := p - 1, normal_index := some (n - 1), texture_index := none }) := by
  have e1 : strstr (putNat p ++ '/' :: '/' :: putNat n) ['/', '/'] = true := by
    rw [strstr_putNat]
    simp [strstr, List.isPrefixOf]
  have s1 := scanUnsigned_putNat p ('/' :: '/' :: putNat n) (head_slash _)
  have s3 : scanUnsigned (putNat n) = some (n % UINT_RANGE, []) := by
    have := scanUnsigned_putNat n [] head_nil
    simpa using this
  simp [parseVertexToken, e1, sscanf, FMT_P_N, s1, s3, usub1_wire hp, usub1_wire hn,
    Vertex.ofPosition, Vertex.setNormalIndex]

theorem parse_wireRef (r : WireRef) (h : r.Valid) :
    parseVertexToken r.token = Except.ok (some r.vertex) := by
  cases r with
  | pos p => exact parse_pos p h
  | posTex p t =>
    have := parse_posTex p t h.1 h.2
    simpa [WireRef.token, WireRef.vertex] using this
  | posTexNor p t n =>
    have := parse_posTexNor p t n h.1 h.2.1 h.2.2
    simpa [WireRef.token, WireRef.vertex] using this
  | posNor p n =>
    have := parse_posNor p n h.1 h.2
    simpa [WireRef.token, WireRef.vertex] using this
theorem token_chars (r : WireRef) : ∀ c ∈ r.token, isdigit c = true ∨ c = '/' := by
  intro c hc
  cases r <;> simp only [WireRef.token, List.mem_append, List.mem_cons, List.mem_singleton,
    List.not_mem_nil, or_false] at hc
  · exact Or.inl (putNat_allDigits _ c hc)
  · rcases hc with (h | h) | h
    · exact Or.inl (putNat_allDigits _ c h)
    · exact Or.inr h
    · exact Or.inl (putNat_allDigits _ c h)
  · rcases hc with (((h | h) | h) | h) | h
    · exact Or.inl (putNat_allDigits _ c h)
    · exact Or.inr h
    · exact Or.inl (putNat_allDigits _ c h)
    · exact Or.inr h
    · exact Or.inl (putNat_allDigits _ c h)
  · rcases hc with (h | h | h) | h
    · exact Or.inl (putNat_allDigits _ c h)
    · exact Or.inr h
    · exact Or.inr h
    · exact Or.inl (putNat_allDigits _ c h)

theorem token_ne_nil (r : WireRef) : r.token ≠ [] := by
  cases r <;> simp [WireRef.token, putNat_ne_nil]

theorem token_char_plain (r : WireRef) : ∀ c ∈ r.token, isspace c = false ∧ c ≠ Char.ofNat 0 := by
  intro c hc
  rcases token_chars r c hc with h | rfl
  · exact ⟨isdigit_not_space h, (isdigit_ne h).2.2.2⟩
  · decide

theorem tokensAux_word : ∀ (w rest cur : Str), (∀ c ∈ w, isspace c = false) →
    tokensAux (w ++ rest) cur = tokensAux rest (cur ++ w)
  | [], rest, cur, _ => by simp
  | c :: cs, rest, cur, h => by
    have hc := h c (List.mem_cons_self _ _)
    have ih := tokensAux_word cs rest (cur ++ [c]) (fun y hy => h y (List.mem_cons_of_mem _ hy))
    simp [tokensAux, hc, ih]

theorem tokensAux_faceTokensText : ∀ (refs : List WireRef),
    tokensAux (faceTokensText refs) [] = refs.map WireRef.token ∧
      ∀ cur : Str, cur ≠ [] → tokensAux (faceTokensText refs) cur = cur :: refs.map WireRef.token
  | [] => by simp [faceTokensText, tokensAux]
  | r :: rs => by
    obtain ⟨-, ih⟩ := tokensAux_faceTokensText rs
    have hw := tokensAux_word r.token (faceTokensText rs) [] (fun c hc => (token_char_plain r c hc).1)
    have hne := token_ne_nil r
    have hsp : isspace ' ' = true := by decide
    have e : faceTokensText (r :: rs) = ' ' :: (r.token ++ faceTokensText rs) := by
      simp [faceTokensText]
    rw [e]
    constructor
    · simp [tokensAux, hsp, hw, ih r.token hne]
    · intro cur hcur
      simp [tokensAux, hsp, hcur, hw, ih r.token hne]

theorem tokens_faceTokensText (refs : List WireRef) :
    tokens (faceTokensText refs) = refs.map WireRef.token :=
  (tokensAux_faceTokensText refs).1

theorem readFace_wireRefs : ∀ (refs : List WireRef) (face : Face),
    (∀ r ∈ refs, r.Valid ∧ r.token.length < 20) →
    readFace (refs.map WireRef.token) face =
      Except.ok { vertices := face.vertices ++ refs.map WireRef.vertex }
  | [], face, _ => by simp [readFace]
  | r :: rs, face, h => by
    obtain ⟨hv, hl⟩ := h r (List.mem_cons_self _ _)
    have ih := readFace_wireRefs rs (face.addVertex r.vertex)
      (fun x hx => h x (List.mem_cons_of_mem _ hx))
    have hl2 : ¬ 20 ≤ r.token.length := by omega
    simp only [List.map_cons, readFace, hl2, if_false, parse_wireRef r hv]
    simpa [Face.addVertex] using ih

theorem faceTokensText_plain (refs : List WireRef) :
    ∀ c ∈ faceTokensText refs, c ≠ Char.ofNat 0 := by
  intro c hc
  simp only [faceTokensText, List.mem_flatten, List.mem_map] at hc
  obtain ⟨l, ⟨r, -, rfl⟩, hc⟩ := hc
  rcases List.mem_cons.1 hc with rfl | hc
  · decide
  · exact (token_char_plain r c hc).2

theorem cstr_eq_self (line : Str) (h : ∀ c ∈ line, c ≠ Char.ofNat 0) : cstr line = line := by
  unfold cstr
  rw [List.takeWhile_eq_self_iff]
  intro c hc
  simpa using h c hc

theorem extract_face_line (refs : List WireRef) :
    extract ('f' :: faceTokensText refs) = some (['f'], faceTokensText refs) := by
  have hf : isspace 'f' = false := by decide
  have hsp : isspace ' ' = true := by decide
  cases refs with
  | nil => simp [extract, faceTokensText, List.dropWhile, List.takeWhile, hf]
  | cons r rs =>
    have e : faceTokensText (r :: rs) = ' ' :: (r.token ++ faceTokensText rs) := by
      simp [faceTokensText]
    rw [e]
    simp [extract, List.dropWhile, List.takeWhile, hf, hsp]

theorem loadLine_face {S : Type} (H : Host S) (files : Files) (garbage : Garbage S)
    (filename : Str) (st : LoadState S) (i : Nat) (refs : List WireRef)
    (hcur : st.current_group = some i)
    (hrefs : ∀ r ∈ refs, r.Valid ∧ r.token.length < 20) :
    loadLine H files garbage filename st ('f' :: faceTokensText refs) =
      Except.ok { st with
        line_num := uadd1 st.line_num
        type_of_line := ['f']
        iteration := st.iteration + 1
        num_face := uadd1 st.num_face
        num_group_faces := uadd1 st.num_group_faces
        mesh := st.mesh.updateGroup i (fun g => g.addFace { vertices := refs.map WireRef.vertex }) } := by
  have hc : cstr ('f' :: faceTokensText refs) = 'f' :: faceTokensText refs := by
    apply cstr_eq_self
    intro c hc
    rcases List.mem_cons.1 hc with rfl | hc
    · decide
    · exact faceTokensText_plain refs c hc
  have hr := readFace_wireRefs refs { vertices := [] } hrefs
  simp only [List.nil_append] at hr
  have h1 : ((['f'] : Str) = "v".toList) = False := eq_false (by decide)
  have h2 : ((['f'] : Str) = "vn".toList) = False := eq_false (by decide)
  have h3 : ((['f'] : Str) = "vt".toList) = False := eq_false (by decide)
  have h4 : ((['f'] : Str) = "g".toList) = False := eq_false (by decide)
  have h5 : ((['f'] : Str) = "f".toList) = True := eq_true (by decide)
  simp only [loadLine, hc, extract_face_line, h1, h2, h3, h4, h5, if_false, if_true, true_or,
    branchF, hcur, tokens_faceTokensText, hr]
theorem indexOfGroup_append_self (name : Str) (g : Group) (hg : g.name = name) :
    ∀ gs : List Group, ∃ j, indexOfGroup name (gs ++ [g]) = some j
  | [] => ⟨0, by simp [indexOfGroup, hg]⟩
  | x :: xs => by
    obtain ⟨j, hj⟩ := indexOfGroup_append_self name g hg xs
    by_cases hx : x.name = name
    · exact ⟨0, by simp [indexOfGroup, hx]⟩
    · exact ⟨j + 1, by simp [indexOfGroup, hx, hj]⟩

theorem loadLine_face_default {S : Type} (H : Host S) (files : Files) (garbage : Garbage S)
    (filename : Str) (st : LoadState S) (refs : List WireRef)
    (hcur : st.current_group = none)
    (hrefs : ∀ r ∈ refs, r.Valid ∧ r.token.length < 20) :
    ∃ j, (st.mesh.addGroup (H.groupNamed "default".toList)).groupPtr "default".toList = some j ∧
      loadLine H files garbage filename st ('f' :: faceTokensText refs) =
        Except.ok { st with
          line_num := uadd1 st.line_num
          type_of_line := ['f']
          iteration := st.iteration + 1
          num_face := uadd1 st.num_face
          num_group_faces := uadd1 st.num_group_faces
          current_group := some j
          mesh := (st.mesh.addGroup (H.groupNamed "default".toList)).updateGroup j
            (fun g => g.addFace { vertices := refs.map WireRef.vertex }) } := by
  obtain ⟨j, hj⟩ := indexOfGroup_append_self "default".toList (H.groupNamed "default".toList) rfl
    st.mesh.groups
  have hj2 : (st.mesh.addGroup (H.groupNamed "default".toList)).groupPtr "default".toList = some j := hj
  refine ⟨j, hj2, ?_⟩
  have hc : cstr ('f' :: faceTokensText refs) = 'f' :: faceTokensText refs := by
    apply cstr_eq_self
    intro c hc
    rcases List.mem_cons.1 hc with rfl | hc
    · decide
    · exact faceTokensText_plain refs c hc
  have hr := readFace_wireRefs refs { vertices := [] } hrefs
  simp only [List.nil_append] at hr
  have h1 : ((['f'] : Str) = "v".toList) = False := eq_false (by decide)
  have h2 : ((['f'] : Str) = "vn".toList) = False := eq_false (by decide)
  have h3 : ((['f'] : Str) = "vt".toList) = False := eq_false (by decide)
  have h4 : ((['f'] : Str) = "g".toList) = False := eq_false (by decide)
  have h5 : ((['f'] : Str) = "f".toList) = True := eq_true (by decide)
  simp only [loadLine, hc, extract_face_line, h1, h2, h3, h4, h5, if_false, if_true, true_or,
    branchF, hcur, tokens_faceTokensText, hr, hj2]

/-- C3 (amended). For wire indices `p`, `t`, `n` that are at least 1 and values of
`unsigned int`, the token parser of the face branch turns `p` into a reference with position
`p - 1` and neither normal nor texture, `p/t` into position `p - 1` with texture `t - 1`,
`p/t/n` into position `p - 1`, texture `t - 1`, normal `n - 1`, and `p//n` into position `p - 1`
with normal `n - 1`; and one iteration of `load` on a line `f` followed by such tokens, each
shorter than 20 characters, adds to the current group (the group `default`, added first, when
there is no current group) one face holding one reference per token, in token order. On
`f 1//1 2/1/1 3 4/2` the pairs (hasNormal, hasTexture) are (T,F), (T,T), (F,F), (F,T). -/
theorem vertex_reference_forms (p t n : Nat) (hp : WireIndex p) (ht : WireIndex t)
    (hn : WireIndex n) :
    parseVertexToken (putNat p) =
        Except.ok (some { position_index := p - 1, normal_index := none, texture_index := none }) ∧
      parseVertexToken (putNat p ++ ['/'] ++ putNat t) =
        Except.ok (some { position_index := p - 1, normal_index := none, texture_index := some (t - 1) }) ∧
      parseVertexToken (putNat p ++ ['/'] ++ putNat t ++ ['/'] ++ putNat n) =
        Except.ok (some { position_index := p - 1, normal_index := some (n - 1), texture_index := some (t - 1) }) ∧
      parseVertexToken (putNat p ++ ['/', '/'] ++ putNat n) =
        Except.ok (some { position_index := p - 1, normal_index := some (n - 1), texture_index := none }) ∧
      (∀ (S : Type) (H : Host S) (files : Files) (garbage : Garbage S) (filename : Str)
          (st : LoadState S) (i : Nat) (refs : List WireRef),
        st.current_group = some i → (∀ r ∈ refs, r.Valid ∧ r.token.length < 20) →
        loadLine H files garbage filename st ('f' :: faceTokensText refs) =
          Except.ok { st with
            line_num := uadd1 st.line_num
            type_of_line := ['f']
            iteration := st.iteration + 1
            num_face := uadd1 st.num_face
            num_group_faces := uadd1 st.num_group_faces
            mesh := st.mesh.updateGroup i
              (fun g => g.addFace { vertices := refs.map WireRef.vertex }) }) ∧
      (∀ (S : Type) (H : Host S) (files : Files) (garbage : Garbage S) (filename : Str)
          (st : LoadState S) (refs : List WireRef),
        st.current_group = none → (∀ r ∈ refs, r.Valid ∧ r.token.length < 20) →
        ∃ j, (st.mesh.addGroup (H.groupNamed "default".toList)).groupPtr "default".toList = some j ∧
          loadLine H files garbage filename st ('f' :: faceTokensText refs) =
            Except.ok { st with
              line_num := uadd1 st.line_num
              type_of_line := ['f']
              iteration := st.iteration + 1
              num_face := uadd1 st.num_face
              num_group_faces := uadd1 st.num_group_faces
              current_group := some j
              mesh := (st.mesh.addGroup (H.groupNamed "default".toList)).updateGroup j
                (fun g => g.addFace { vertices := refs.map WireRef.vertex }) }) ∧
      (loadLine fixedHost noFiles blankGarbage "a.obj".toList (initialState (SurfaceMesh.empty Fixed))
          "f 1//1 2/1/1 3 4/2".toList).map
          (fun st => st.mesh.groups.map (fun g => g.faces.map (fun f =>
            f.vertices.map (fun v => (v.hasNormal, v.hasTexture))))) =
        Except.ok [[[(true, false), (true, true), (false, false), (false, true)]]] := by
  refine ⟨parse_pos p hp, ?_, ?_, ?_, ?_, ?_, by decide⟩
  · simpa using parse_posTex p t hp ht
  · simpa [WireRef.vertex] using parse_posTexNor p t n hp ht hn
  · simpa using parse_posNor p n hp hn
  · intro S H files garbage filename st i refs hcur hrefs
    exact loadLine_face H files garbage filename st i refs hcur hrefs
  · intro S H files garbage filename st refs hcur hrefs
    exact loadLine_face_default H files garbage filename st refs hcur hrefs

/-- C3, at the wire indices 1, 2 and 3. -/
theorem vertex_reference_forms_witness :
    WireIndex 1 ∧ WireIndex 2 ∧ WireIndex 3 ∧
      parseVertexToken (putNat 1) =
        Except.ok (some { position_index := 1 - 1, normal_index := none, texture_index := none }) ∧
      parseVertexToken (putNat 1 ++ ['/'] ++ putNat 2) =
        Except.ok (some { position_index := 1 - 1, normal_index := none, texture_index := some (2 - 1) }) ∧
      parseVertexToken (putNat 1 ++ ['/'] ++ putNat 2 ++ ['/'] ++ putNat 3) =
        Except.ok (some { position_index := 1 - 1, normal_index := some (3 - 1), texture_index := some (2 - 1) }) ∧
      parseVertexToken (putNat 1 ++ ['/', '/'] ++ putNat 3) =
        Except.ok (some { position_index := 1 - 1, normal_index := some (3 - 1), texture_index := none }) :=
  have h1 : WireIndex 1 := ⟨by decide, by decide⟩
  have h2 : WireIndex 2 := ⟨by decide, by decide⟩
  have h3 : WireIndex 3 := ⟨by decide, by decide⟩
  have h := vertex_reference_forms 1 2 3 h1 h2 h3
  ⟨h1, h2, h3, h.1, h.2.1, h.2.2.1, h.2.2.2.1⟩

/-- C3. The token `4294967297` is shorter than 20 characters and its wire index is at least 1,
and the reference parsed from it has position 0, not 4294967296: the index is read into an
`unsigned int`. -/
theorem large_wire_index_wraps :
    "4294967297".toList.length < 20 ∧ putNat 4294967297 = "4294967297".toList ∧
      parseVertexToken "4294967297".toList =
        Except.ok (some { position_index := 0, normal_index := none, texture_index := none }) ∧
      (0 : Nat) ≠ 4294967297 - 1 := by
  decide

theorem groupsWithin_append {np nn nt : Nat} {gs : List Group} (g : Group) (hg : g.faces = [])
    (h : GroupsWithin np nn nt gs) : GroupsWithin np nn nt (gs ++ [g]) := by
  intro x hx f hf v hv
  rcases List.mem_append.1 hx with hx | hx
  · exact h x hx f hf v hv
  · have : x = g := by simpa using hx
    subst this
    rw [hg] at hf
    exact absurd hf (List.not_mem_nil f)

theorem mem_updateAt {α : Type} (f : α → α) : ∀ (i : Nat) (l : List α) (x : α),
    x ∈ updateAt f i l → x ∈ l ∨ ∃ y ∈ l, x = f y
  | _, [], x, h => by simp [updateAt] at h
  | 0, a :: as, x, h => by
    simp only [updateAt, List.mem_cons] at h
    rcases h with h | h
    · exact Or.inr ⟨a, List.mem_cons_self _ _, h⟩
    · exact Or.inl (List.mem_cons_of_mem _ h)
  | i + 1, a :: as, x, h => by
    simp only [updateAt, List.mem_cons] at h
    rcases h with h | h
    · exact Or.inl (h ▸ List.mem_cons_self _ _)
    · rcases mem_updateAt f i as x h with h | ⟨y, hy, hxy⟩
      · exact Or.inl (List.mem_cons_of_mem _ h)
      · exact Or.inr ⟨y, List.mem_cons_of_mem _ hy, hxy⟩

theorem groupsWithin_updateAt {np nn nt : Nat} {gs : List Group} (f : Group → Group) (i : Nat)
    (hf : ∀ g, (∀ fc ∈ g.faces, ∀ v ∈ fc.vertices, v.within np nn nt = true) →
      ∀ fc ∈ (f g).faces, ∀ v ∈ fc.vertices, v.within np nn nt = true)
    (h : GroupsWithin np nn nt gs) : GroupsWithin np nn nt (updateAt f i gs) := by
  intro x hx
  rcases mem_updateAt f i gs x hx with hx | ⟨y, hy, rfl⟩
  · exact h x hx
  · exact hf y (h y hy)

theorem readFace_within {np nn nt : Nat} : ∀ (toks : List Str) (face face1 : Face),
    readFace toks face = Except.ok face1 → toks.all (tokenWithin np nn nt) = true →
    (∀ v ∈ face.vertices, v.within np nn nt = true) →
    ∀ v ∈ face1.vertices, v.within np nn nt = true
  | [], face, face1, h, _, hface => by
    simp only [readFace, Except.ok.injEq] at h
    subst h
    exact hface
  | tok :: toks, face, face1, h, htoks, hface => by
    simp only [List.all_cons, Bool.and_eq_true] at htoks
    obtain ⟨htok, hrest⟩ := htoks
    simp only [readFace] at h
    split at h
    · exact absurd h (by simp)
    · cases hp : parseVertexToken tok with
      | error e => simp [hp] at h
      | ok o =>
        cases o with
        | none =>
          simp only [hp] at h
          exact readFace_within toks face face1 h hrest hface
        | some w =>
          simp only [hp] at h
          have hw : w.within np nn nt = true := by simpa [tokenWithin, hp] using htok
          refine readFace_within toks (face.addVertex w) face1 h hrest ?_
          intro v hv
          simp only [Face.addVertex, List.mem_append, List.mem_singleton] at hv
          rcases hv with hv | rfl
          · exact hface v hv
          · exact hw

theorem sameBody_refl {S : Type} (m : SurfaceMesh S) : SameBody m m := ⟨rfl, rfl, rfl, rfl⟩

theorem sameBody_trans {S : Type} {a b c : SurfaceMesh S} (h1 : SameBody a b) (h2 : SameBody b c) :
    SameBody a c :=
  ⟨h2.1.trans h1.1, h2.2.1.trans h1.2.1, h2.2.2.1.trans h1.2.2.1, h2.2.2.2.trans h1.2.2.2⟩

theorem sameBody_addMaterial {S : Type} (m : SurfaceMesh S) (x : Material S) :
    SameBody m (m.addMaterial x) := ⟨rfl, rfl, rfl, rfl⟩

theorem caseM_mesh {S : Type} (filename : Str) (st : MtlState S) (stream : Stream) :
    (caseM filename st stream).mesh = st.mesh := by
  unfold caseM
  simp only
  split <;> rfl

theorem caseD_mesh {S : Type} (H : Host S) (garbage : Garbage S) (st : MtlState S) (stream : Stream) :
    (caseD H garbage st stream).mesh = st.mesh := rfl

theorem caseN_mesh {S : Type} (H : Host S) (garbage : Garbage S) (st : MtlState S) (stream : Stream) :
    SameBody st.mesh (caseN H garbage st stream).mesh := by
  unfold caseN
  simp only
  split
  · exact sameBody_addMaterial _ _
  · exact sameBody_refl _

theorem caseNs_mesh {S : Type} (H : Host S) (st st2 : MtlState S) (stream : Stream) (c1 : Char)
    (h : caseNs H st stream c1 = Except.ok st2) : st2.mesh = st.mesh := by
  unfold caseNs at h
  split at h
  · split at h
    · simp only [Except.ok.injEq] at h
      subst h
      rfl
    · simp [PHYSIKA_ERROR] at h
  · simp only [Except.ok.injEq] at h
    subst h
    rfl

theorem caseK_mesh {S : Type} (H : Host S) (st st2 : MtlState S) (stream stream2 : Stream) (c1 : Char)
    (h : caseK H st stream c1 = Except.ok (st2, stream2)) : st2.mesh = st.mesh := by
  unfold caseK at h
  split at h
  · split at h
    · simp at h
    · simp only [Except.ok.injEq, Prod.mk.injEq] at h
      rw [← h.1]
    · simp only [Except.ok.injEq, Prod.mk.injEq] at h
      rw [← h.1]
  · split at h
    · split at h
      · simp at h
      · simp only [Except.ok.injEq, Prod.mk.injEq] at h
        rw [← h.1]
      · simp only [Except.ok.injEq, Prod.mk.injEq] at h
        rw [← h.1]
    · split at h
      · split at h
        · simp at h
        · simp only [Except.ok.injEq, Prod.mk.injEq] at h
          rw [← h.1]
        · simp only [Except.ok.injEq, Prod.mk.injEq] at h
          rw [← h.1]
      · simp only [Except.ok.injEq, Prod.mk.injEq] at h
        rw [← h.1]

theorem dispatchMaterial_mesh {S : Type} (H : Host S) (garbage : Garbage S) (filename : Str)
    (st1 st2 : MtlState S) (stream : Stream)
    (h : dispatchMaterial H garbage filename st1 stream = Except.ok st2) :
    SameBody st1.mesh st2.mesh := by
  unfold dispatchMaterial at h
  simp only at h
  split_ifs at h
  · simp only [Except.ok.injEq] at h
    subst h
    exact sameBody_refl _
  · simp only [Except.ok.injEq] at h
    subst h
    exact caseN_mesh H garbage st1 stream
  · rw [caseNs_mesh H st1 st2 stream _ h]
    exact sameBody_refl _
  · split at h
    · simp at h
    · rename_i st3 stream3 hk
      simp only [Except.ok.injEq] at h
      subst h
      rw [caseM_mesh, caseK_mesh H st1 st3 stream stream3 _ hk]
      exact sameBody_refl _
  · simp only [Except.ok.injEq] at h
    subst h
    rw [caseM_mesh]
    exact sameBody_refl _
  · simp only [Except.ok.injEq] at h
    subst h
    rw [caseD_mesh]
    exact sameBody_refl _
  · simp only [Except.ok.injEq] at h
    subst h
    exact sameBody_refl _

theorem loadMaterialsLine_mesh {S : Type} (H : Host S) (garbage : Garbage S) (filename : Str)
    (st st2 : MtlState S) (line : Str)
    (h : loadMaterialsLine H garbage filename st line = Except.ok st2) :
    SameBody st.mesh st2.mesh := by
  unfold loadMaterialsLine at h
  simp only at h
  split at h
  · simp at h
  · rename_i st3 hd
    simp only [Except.ok.injEq] at h
    subst h
    have hm := dispatchMaterial_mesh H garbage filename _ st3 _ hd
    exact hm

theorem loadMaterialsLoop_mesh {S : Type} (H : Host S) (garbage : Garbage S) (filename : Str) :
    ∀ (lines : List Str) (st st2 : MtlState S),
      loadMaterialsLoop H garbage filename lines st = Except.ok st2 → SameBody st.mesh st2.mesh
  | [], st, st2, h => by
    simp only [loadMaterialsLoop, Except.ok.injEq] at h
    subst h
    exact sameBody_refl _
  | line :: rest, st, st2, h => by
    simp only [loadMaterialsLoop] at h
    split at h
    · simp at h
    · rename_i st1 h1
      exact sameBody_trans (loadMaterialsLine_mesh H garbage filename st st1 line h1)
        (loadMaterialsLoop_mesh H garbage filename rest st1 st2 h)

theorem loadMaterials_mesh {S : Type} (H : Host S) (files : Files) (garbage : Garbage S)
    (filename : Str) (mesh mesh2 : SurfaceMesh S)
    (h : loadMaterials H files garbage filename mesh = Except.ok mesh2) : SameBody mesh mesh2 := by
  unfold loadMaterials at h
  split at h
  · simp [PHYSIKA_ERROR] at h
  · split at h
    · simp at h
    · rename_i st hl
      simp only [Except.ok.injEq] at h
      subst h
      exact sameBody_trans (loadMaterialsLoop_mesh H garbage filename _ _ st hl)
        (sameBody_addMaterial _ _)
theorem branchV_mesh {S : Type} (H : Host S) (st st2 : LoadState S) (stream : Str)
    (h : branchV H st stream = Except.ok st2) : st2.mesh.groups = st.mesh.groups := by
  unfold branchV at h
  split at h
  · simp [PHYSIKA_ERROR] at h
  · split at h
    · simp [PHYSIKA_ERROR] at h
    · split at h
      · simp [PHYSIKA_ERROR] at h
      · simp only [Except.ok.injEq] at h
        subst h
        rfl

theorem branchVn_mesh {S : Type} (H : Host S) (st st2 : LoadState S) (stream : Str)
    (h : branchVn H st stream = Except.ok st2) : st2.mesh.groups = st.mesh.groups := by
  unfold branchVn at h
  split at h
  · simp [PHYSIKA_ERROR] at h
  · split at h
    · simp [PHYSIKA_ERROR] at h
    · split at h
      · simp [PHYSIKA_ERROR] at h
      · simp only [Except.ok.injEq] at h
        subst h
        rfl

theorem branchVt_mesh {S : Type} (H : Host S) (st st2 : LoadState S) (stream : Str)
    (h : branchVt H st stream = Except.ok st2) : st2.mesh.groups = st.mesh.groups := by
  unfold branchVt at h
  split at h
  · simp [PHYSIKA_ERROR] at h
  · split at h
    · simp [PHYSIKA_ERROR] at h
    · simp only [Except.ok.injEq] at h
      subst h
      rfl

theorem branchG_within {S : Type} {np nn nt : Nat} (st st2 : LoadState S) (stream : Str)
    (h : branchG st stream = Except.ok st2) (hinv : GroupsWithin np nn nt st.mesh.groups) :
    GroupsWithin np nn nt st2.mesh.groups := by
  unfold branchG at h
  simp only at h
  split at h
  · simp at h
  · split at h
    · simp only [Except.ok.injEq] at h
      subst h
      exact hinv
    · simp only [Except.ok.injEq] at h
      subst h
      exact groupsWithin_append _ rfl hinv

theorem branchF_within {S : Type} {np nn nt : Nat} (H : Host S) (st st2 : LoadState S)
    (stream : Str) (h : branchF H st stream = Except.ok st2)
    (htoks : (tokens stream).all (tokenWithin np nn nt) = true)
    (hinv : GroupsWithin np nn nt st.mesh.groups) : GroupsWithin np nn nt st2.mesh.groups := by
  unfold branchF at h
  simp only at h
  split at h
  · simp at h
  · rename_i face hface
    have hfv := readFace_within (tokens stream) { vertices := [] } face hface htoks
      (fun v hv => absurd hv (List.not_mem_nil v))
    have hupd : ∀ (gs : List Group) (i : Nat), GroupsWithin np nn nt gs →
        GroupsWithin np nn nt (updateAt (fun g => g.addFace face) i gs) := by
      intro gs i hgs
      refine groupsWithin_updateAt _ i ?_ hgs
      intro g hg fc hfc v hv
      simp only [Group.addFace, List.mem_append, List.mem_singleton] at hfc
      rcases hfc with hfc | rfl
      · exact hg fc hfc v hv
      · exact hfv v hv
    cases hcur : st.current_group with
    | none =>
      simp only [hcur] at h
      split at h
      · simp at h
      · simp only [Except.ok.injEq] at h
        subst h
        exact hupd _ _ (groupsWithin_append _ rfl hinv)
    | some j =>
      simp only [hcur, Except.ok.injEq] at h
      subst h
      exact hupd _ _ hinv

theorem branchUsemtl_within {S : Type} {np nn nt : Nat} (H : Host S) (st st2 : LoadState S)
    (stream : Str) (h : branchUsemtl H st stream = Except.ok st2)
    (hinv : GroupsWithin np nn nt st.mesh.groups) : GroupsWithin np nn nt st2.mesh.groups := by
  unfold branchUsemtl at h
  simp only at h
  have hset : ∀ (gs : List Group) (i k : Nat), GroupsWithin np nn nt gs →
      GroupsWithin np nn nt (updateAt (fun g => g.setMaterialIndex k) i gs) := by
    intro gs i k hgs
    exact groupsWithin_updateAt _ i (fun g hg => hg) hgs
  by_cases hfaces : 0 < st.num_group_faces
  · simp only [hfaces, if_true] at h
    split_ifs at h
    · split at h
      · simp at h
      · simp only [Except.ok.injEq] at h
        subst h
        exact hset _ _ _ (groupsWithin_append _ rfl (groupsWithin_append _ rfl hinv))
    · split at h
      · simp at h
      · simp only [Except.ok.injEq] at h
        subst h
        exact hset _ _ _ (groupsWithin_append _ rfl hinv)
    · simp only [PHYSIKA_ASSERT, literalAsCondition, if_true, Except.map, Except.ok.injEq] at h
      subst h
      exact groupsWithin_append _ rfl hinv
  · simp only [hfaces, if_false] at h
    split_ifs at h
    · split at h
      · simp at h
      · simp only [Except.ok.injEq] at h
        subst h
        exact hset _ _ _ (groupsWithin_append _ rfl hinv)
    · split at h
      · simp at h
      · simp only [Except.ok.injEq] at h
        subst h
        exact hset _ _ _ hinv
    · simp only [PHYSIKA_ASSERT, literalAsCondition, if_true, Except.map, Except.ok.injEq] at h
      subst h
      exact hinv

theorem branchMtllib_mesh {S : Type} (H : Host S) (files : Files) (garbage : Garbage S)
    (filename : Str) (st st2 : LoadState S) (stream : Str)
    (h : branchMtllib H files garbage filename st stream = Except.ok st2) :
    st2.mesh.groups = st.mesh.groups := by
  unfold branchMtllib at h
  simp only at h
  split at h
  · simp at h
  · rename_i mesh hm
    simp only [Except.ok.injEq] at h
    subst h
    exact (loadMaterials_mesh H files garbage _ _ mesh hm).1

theorem loadLine_within {S : Type} {np nn nt : Nat} (H : Host S) (files : Files)
    (garbage : Garbage S) (filename : Str) (st st2 : LoadState S) (line : Str)
    (h : loadLine H files garbage filename st line = Except.ok st2)
    (hline : faceLineWithin np nn nt line = true)
    (hinv : GroupsWithin np nn nt st.mesh.groups) : GroupsWithin np nn nt st2.mesh.groups := by
  unfold loadLine at h
  simp only at h
  split_ifs at h with h1 h2 h3 h4 h5 h6 h7 h8
  · rw [branchV_mesh H _ st2 _ h]; exact hinv
  · rw [branchVn_mesh H _ st2 _ h]; exact hinv
  · rw [branchVt_mesh H _ st2 _ h]; exact hinv
  · exact branchG_within _ st2 _ h hinv
  · refine branchF_within H _ st2 _ h ?_ hinv
    cases hr : extract (cstr line) with
    | none => simp [tokens, tokensAux]
    | some tr =>
      obtain ⟨t, rest⟩ := tr
      simp only [hr] at h5
      unfold faceLineWithin at hline
      simp only [hr] at hline
      rw [if_pos h5] at hline
      exact hline
  · simp only [Except.ok.injEq] at h
    subst h
    exact hinv
  · exact branchUsemtl_within H _ st2 _ h hinv
  · rw [branchMtllib_mesh H files garbage filename _ st2 _ h]; exact hinv
  · simp only [Except.ok.injEq] at h
    subst h
    exact hinv

theorem loadLoop_within {S : Type} {np nn nt : Nat} (H : Host S) (files : Files)
    (garbage : Garbage S) (filename : Str) : ∀ (lines : List Str) (st st2 : LoadState S),
      loadLoop H files garbage filename lines st = Except.ok st2 →
      (∀ line ∈ lines, faceLineWithin np nn nt line = true) →
      GroupsWithin np nn nt st.mesh.groups → GroupsWithin np nn nt st2.mesh.groups
  | [], st, st2, h, _, hinv => by
    simp only [loadLoop, Except.ok.injEq] at h
    subst h
    exact hinv
  | line :: rest, st, st2, h, hlines, hinv => by
    simp only [loadLoop] at h
    split at h
    · simp at h
    · rename_i st1 h1
      exact loadLoop_within H files garbage filename rest st1 st2 h
        (fun l hl => hlines l (List.mem_cons_of_mem _ hl))
        (loadLine_within H files garbage filename st st1 line h1
          (hlines line (List.mem_cons_self _ _)) hinv)

theorem wireRef_within {np nn nt : Nat} (w : WireRef) (h : w.InPools np nn nt) :
    w.vertex.within np nn nt = true := by
  cases w <;> simp only [WireRef.InPools] at h <;>
    simp only [WireRef.vertex, Vertex.within, Bool.and_eq_true, decide_eq_true_eq, and_true] <;>
    omega

theorem faceLineWithin_of_respects {np nn nt : Nat} (line : Str)
    (h : FaceLineRespects np nn nt line) : faceLineWithin np nn nt line = true := by
  unfold faceLineWithin
  cases hx : extract (cstr line) with
  | none => rfl
  | some p =>
    obtain ⟨t, rest⟩ := p
    simp only
    split_ifs with hf
    · rw [List.all_eq_true]
      intro tok htok
      obtain ⟨w, rfl, hv, hin⟩ := h t rest hx hf tok htok
      unfold tokenWithin
      rw [parse_wireRef w hv]
      exact wireRef_within w hin
    · rfl

/-- C2 (amended). `load` checks no index, so the ranges hold for the inputs that respect them:
if `load`, started on the empty mesh, returns a mesh, and on every line that the loop reads
with first token `f` or `fo` every further token is a reference `p`, `p/t`, `p/t/n` or `p//n`
whose wire indices are values of `unsigned int` between 1 and the size of their pool in that
mesh, then every vertex reference of every face of every group of the mesh has a position
index below the number of positions and, when present, a normal index below the number of
normals and a texture index below the number of texture coordinates. -/
theorem load_indices_in_range {S : Type} (H : Host S) (files : Files) (garbage : Garbage S)
    (filename text : Str) (mesh : SurfaceMesh S)
    (hfile : files filename = some text)
    (hload : load H files garbage filename (SurfaceMesh.empty S) = Except.ok mesh)
    (hlines : ∀ line ∈ objLines text,
      FaceLineRespects mesh.positions.length mesh.normals.length mesh.texture_coordinates.length
        line) :
    mesh.IndicesInRange := by
  unfold load at hload
  split at hload
  · simp at hload
  · simp only [hfile] at hload
    split at hload
    · simp at hload
    · rename_i st hst
      simp only [Except.ok.injEq] at hload
      subst hload
      refine loadLoop_within H files garbage filename (objLines text) _ st hst
        (fun line hl => faceLineWithin_of_respects line (hlines line hl)) ?_
      intro g hg
      simp [initialState, SurfaceMesh.empty] at hg

theorem triangleText_respects :
    ∀ line ∈ objLines triangleText.toList, FaceLineRespects 3 0 0 line := by
  have hl : objLines triangleText.toList
      = ["v 0 0 0".toList, "v 1 0 0".toList, "v 0 1 0".toList, "f 1 2 3".toList, []] := by
    decide
  intro line hline t rest hx hf tok htok
  rw [hl] at hline
  simp only [List.mem_cons, List.mem_singleton, List.not_mem_nil, or_false] at hline
  have v1 : extract (cstr "v 0 0 0".toList) = some ("v".toList, " 0 0 0".toList) := by decide
  have v2 : extract (cstr "v 1 0 0".toList) = some ("v".toList, " 1 0 0".toList) := by decide
  have v3 : extract (cstr "v 0 1 0".toList) = some ("v".toList, " 0 1 0".toList) := by decide
  have f4 : extract (cstr "f 1 2 3".toList) = some ("f".toList, " 1 2 3".toList) := by decide
  have e5 : extract (cstr ([] : Str)) = none := by decide
  have nv : ¬ ("v".toList = "f".toList ∨ "v".toList = "fo".toList) := by decide
  rcases hline with rfl | rfl | rfl | rfl | rfl
  · rw [v1] at hx
    cases hx
    exact absurd hf nv
  · rw [v2] at hx
    cases hx
    exact absurd hf nv
  · rw [v3] at hx
    cases hx
    exact absurd hf nv
  · rw [f4] at hx
    cases hx
    have ht : tokens " 1 2 3".toList = ["1".toList, "2".toList, "3".toList] := by decide
    rw [ht] at htok
    simp only [List.mem_cons, List.mem_singleton, List.not_mem_nil, or_false] at htok
    rcases htok with rfl | rfl | rfl
    · exact ⟨WireRef.pos 1, by decide, ⟨by decide, by decide⟩, ⟨by decide, by decide⟩⟩
    · exact ⟨WireRef.pos 2, by decide, ⟨by decide, by decide⟩, ⟨by decide, by decide⟩⟩
    · exact ⟨WireRef.pos 3, by decide, ⟨by decide, by decide⟩, ⟨by decide, by decide⟩⟩
  · rw [e5] at hx
    cases hx

/-- C2, on the single triangle: `load` returns the mesh `triangleMesh`, the three wire indices
of the face line are between 1 and 3, the number of its positions, and the mesh has its indices
in range. -/
theorem load_indices_in_range_witness :
    load fixedHost (oneFile "a.obj".toList triangleText.toList) blankGarbage "a.obj".toList
        (SurfaceMesh.empty Fixed) = Except.ok triangleMesh ∧
      (∀ line ∈ objLines triangleText.toList, FaceLineRespects 3 0 0 line) ∧
      triangleMesh.IndicesInRange :=
  ⟨by decide, triangleText_respects,
    load_indices_in_range fixedHost (oneFile "a.obj".toList triangleText.toList) blankGarbage
      "a.obj".toList triangleText.toList triangleMesh (by decide) (by decide)
      triangleText_respects⟩

/-- C2. On the file `f 1`, with no `v` line, `load` returns a mesh whose vertex reference has
position index 0 while the position pool is empty, whatever the unwritten `type_of_line` reads
as after the last line. -/
theorem reference_out_of_range :
    loadText blankGarbage "f 1\n" (SurfaceMesh.empty Fixed) =
        Except.ok { SurfaceMesh.empty Fixed with groups := [defaultGroup [plainFace [0]]] } ∧
      ¬ ({ SurfaceMesh.empty Fixed with groups := [defaultGroup [plainFace [0]]] } :
        SurfaceMesh Fixed).IndicesInRange ∧
      loadText staleGarbage "f 1\n" (SurfaceMesh.empty Fixed) =
        Except.ok { SurfaceMesh.empty Fixed with
          groups := [defaultGroup [plainFace [0], plainFace []]] } ∧
      ¬ ({ SurfaceMesh.empty Fixed with groups := [defaultGroup [plainFace [0], plainFace []]] } :
        SurfaceMesh Fixed).IndicesInRange := by
  decide

theorem tokensAux_after_word (w rest : Str) (hw : ∀ c ∈ w, isspace c = false) (hne : w ≠ [])
    (hrest : ∀ c, rest.head? = some c → isspace c = true) :
    tokensAux (w ++ rest) [] = w :: tokensAux rest [] := by
  rw [tokensAux_word w rest [] hw, List.nil_append]
  cases rest with
  | nil => simp [tokensAux, hne]
  | cons c cs => simp [tokensAux, hrest c rfl, hne]

theorem head_dropWhile_not_space : ∀ (s : Str) (c : Char),
    (s.dropWhile (fun x => !isspace x)).head? = some c → isspace c = true
  | [], c, h => by simp at h
  | x :: xs, c, h => by
    by_cases hx : isspace x = true
    · simp only [List.dropWhile, hx, Bool.not_true, List.head?_cons, Option.some.injEq] at h
      rw [← h]; exact hx
    · have hx2 : isspace x = false := by simpa using hx
      simp only [List.dropWhile, hx2, Bool.not_false] at h
      exact head_dropWhile_not_space xs c h

/-- The loop `while(stream >> token)` modelled by `tokens` takes the tokens one `extract` at a
time. -/
theorem tokens_eq_extract : ∀ buf : Str,
    tokens buf = match extract buf with
      | none => []
      | some (t, r) => t :: tokens r
  | [] => by simp [tokens, tokensAux, extract]
  | c :: cs => by
    by_cases hc : isspace c = true
    · have ih := tokens_eq_extract cs
      have e1 : tokens (c :: cs) = tokens cs := by simp [tokens, tokensAux, hc]
      have e2 : extract (c :: cs) = extract cs := by simp [extract, List.dropWhile, hc]
      rw [e1, e2, ih]
    · have hc2 : isspace c = false := by simpa using hc
      have e2 : extract (c :: cs) =
          some ((c :: cs).takeWhile (fun x => !isspace x), (c :: cs).dropWhile (fun x => !isspace x)) := by
        simp [extract, List.dropWhile, hc2]
      rw [e2]
      simp only
      have hsplit := List.takeWhile_append_dropWhile (fun x => !isspace x) (c :: cs)
      have hw : ∀ x ∈ (c :: cs).takeWhile (fun x => !isspace x), isspace x = false := by
        intro x hx
        have := List.mem_takeWhile_imp hx
        simpa using this
      have hne : (c :: cs).takeWhile (fun x => !isspace x) ≠ [] := by
        simp [List.takeWhile, hc2]
      have := tokensAux_after_word _ ((c :: cs).dropWhile (fun x => !isspace x)) hw hne
        (head_dropWhile_not_space (c :: cs))
      rw [hsplit] at this
      exact this

/-! ## C15: a colour line reaches the texture handler -/

/-- C15, evaluation: in `loadMaterials` the handler of `Ka`/`Kd`/`Ks` has no `break` after its
inner `switch`, so a token that follows the three numbers is taken by the `map_Kd` handler: the
line `Kd 1 2 3 foo` sets the colour and also the texture file name, to `d/foo`, whatever the
uninitialised buffers hold; without the fourth token the texture stays unset. -/
theorem colour_line_sets_texture :
    loadMaterialsText blankGarbage "newmtl m\nKd 1 2 3 foo\n"
        = Except.ok [{ freshMaterial "m".toList with
            Kd := (1000000, 2000000, 3000000), texture_file_name := "d/foo".toList }]
      ∧ loadMaterialsText staleGarbage "newmtl m\nKd 1 2 3 foo\n"
        = Except.ok [{ freshMaterial "m".toList with
            Kd := (1000000, 2000000, 3000000), texture_file_name := "d/foo".toList }]
      ∧ loadMaterialsText blankGarbage "newmtl m\nKd 1 2 3\n"
        = Except.ok [{ freshMaterial "m".toList with Kd := (1000000, 2000000, 3000000) }]
      ∧ loadMaterialsText blankGarbage "newmtl m\nmap_Kd foo\n"
        = Except.ok [{ freshMaterial "m".toList with texture_file_name := "d/foo".toList }] := by
  refine ⟨?_, ?_, ?_, ?_⟩ <;> decide

/-! ## C20: lines that are not directives -/

theorem not_directive (t : Str) (h : t ∉ DIRECTIVES) :
    (t = "v".toList) = False ∧ (t = "vn".toList) = False ∧ (t = "vt".toList) = False
      ∧ (t = "g".toList) = False ∧ (t = "f".toList) = False ∧ (t = "fo".toList) = False
      ∧ (t = "usemtl".toList) = False ∧ (t = "mtllib".toList) = False := by
  simp only [DIRECTIVES, List.mem_cons, List.mem_singleton, not_or, List.not_mem_nil,
    or_false] at h
  obtain ⟨h1, h2, h3, h4, h5, h6, h7, h8⟩ := h
  exact ⟨eq_false h1, eq_false h2, eq_false h3, eq_false h4, eq_false h5, eq_false h6,
    eq_false h7, eq_false h8⟩

/-- C20. A line whose first token is none of `v`, `vn`, `vt`, `g`, `f`, `fo`, `usemtl`,
`mtllib` (so `#`, `#text`, any unknown word) is passed over by `load` without error: only the
line counter and the token buffer change. A line without any token is not: `type_of_line` is
read unwritten, and where it keeps its content an empty line after `f 1` adds a face and one
after `v 0 0 0` is fatal; where the buffer reads as empty such lines are passed over. -/
theorem unknown_directive_ignored :
    (∀ (S : Type) (H : Host S) (files : Files) (garbage : Garbage S) (filename : Str)
        (st : LoadState S) (line t rest : Str),
        extract (cstr line) = some (t, rest) → t ∉ DIRECTIVES →
        loadLine H files garbage filename st line =
          Except.ok { st with
            line_num := uadd1 st.line_num
            type_of_line := t
            iteration := st.iteration + 1 })
      ∧ (loadLines staleGarbage ["f 1", "# note", "#", "s off"] (SurfaceMesh.empty Fixed)).map
          (fun st => (st.mesh, st.num_group_faces))
        = Except.ok ({ SurfaceMesh.empty Fixed with groups := [defaultGroup [plainFace [0]]] }, 1)
      ∧ (loadLines staleGarbage ["f 1", ""] (SurfaceMesh.empty Fixed)).map
          (fun st => (st.mesh, st.num_group_faces))
        = Except.ok ({ SurfaceMesh.empty Fixed with
            groups := [defaultGroup [plainFace [0], plainFace []]] }, 2)
      ∧ (loadLines staleGarbage ["v 0 0 0", ""] (SurfaceMesh.empty Fixed)).map
          (fun st => st.mesh) = Except.error (Err.fatal "stream>>x")
      ∧ (loadLines blankGarbage ["f 1", ""] (SurfaceMesh.empty Fixed)).map
          (fun st => (st.mesh, st.num_group_faces))
        = Except.ok ({ SurfaceMesh.empty Fixed with groups := [defaultGroup [plainFace [0]]] }, 1) := by
  refine ⟨?_, by decide, by decide, by decide, by decide⟩
  intro S H files garbage filename st line t rest hx ht
  obtain ⟨h1, h2, h3, h4, h5, h6, h7, h8⟩ := not_directive t ht
  simp only [loadLine, hx, h1, h2, h3, h4, h5, h6, h7, h8, if_false, or_self, ite_self]

/-! ## C12: the text of a vertex reference -/

theorem uadd1_fits {x : Nat} (h : x + 1 < UINT_RANGE) : uadd1 x = x + 1 := by
  simp only [uadd1]
  exact Nat.mod_eq_of_lt h

theorem putVertex_fits (v : Vertex) (h : v.Fits) : putVertex v = emissionRule v := by
  obtain ⟨p, n, t⟩ := v
  obtain ⟨hp, ht, hn⟩ := h
  simp only at hp ht hn
  cases t with
  | none =>
    cases n with
    | none => simp [putVertex, emissionRule, Vertex.hasTexture, Vertex.hasNormal, uadd1_fits hp]
    | some n =>
      simp [putVertex, emissionRule, Vertex.hasTexture, Vertex.hasNormal, uadd1_fits hp,
        uadd1_fits (hn n rfl)]
  | some t =>
    cases n with
    | none =>
      simp [putVertex, emissionRule, Vertex.hasTexture, Vertex.hasNormal, uadd1_fits hp,
        uadd1_fits (ht t rfl)]
    | some n =>
      simp [putVertex, emissionRule, Vertex.hasTexture, Vertex.hasNormal, uadd1_fits hp,
        uadd1_fits (ht t rfl), uadd1_fits (hn n rfl)]

/-- C12, as claimed. A vertex reference whose position index is the largest `unsigned int`, as
`load` makes of the wire index `0`, is written by `save` as `0`: the sum with one is computed in
`unsigned int`. The rule of the claim gives `4294967296`. -/
theorem largest_index_written_as_zero :
    putVertex { position_index := 4294967295, normal_index := none, texture_index := none }
        = "0".toList
      ∧ emissionRule { position_index := 4294967295, normal_index := none, texture_index := none }
        = "4294967296".toList
      ∧ parseVertexToken "0".toList
        = Except.ok (some (⟨4294967295, none, none⟩ : Vertex)) := by
  refine ⟨?_, ?_, ?_⟩ <;> decide

/-- C12, amended. For a vertex reference whose indices plus one are values of `unsigned int`,
`save` writes the text of the emission rule; the four shapes are `P`, `P/T`, `P//N ` and
`P/T/N ` with the decimal 1-based values; and a face line is `f `, the texts of its vertex
references in order, and a line break. -/
theorem save_vertex_emission :
    (∀ v : Vertex, v.Fits → putVertex v = emissionRule v)
      ∧ (∀ p t n : Nat, p + 1 < UINT_RANGE → t + 1 < UINT_RANGE → n + 1 < UINT_RANGE →
          putVertex { position_index := p, normal_index := none, texture_index := none }
              = putNat (p + 1)
            ∧ putVertex { position_index := p, normal_index := none, texture_index := some t }
              = putNat (p + 1) ++ ['/'] ++ putNat (t + 1)
            ∧ putVertex { position_index := p, normal_index := some n, texture_index := none }
              = putNat (p + 1) ++ ['/', '/'] ++ putNat (n + 1) ++ [' ']
            ∧ putVertex { position_index := p, normal_index := some n, texture_index := some t }
              = putNat (p + 1) ++ ['/'] ++ putNat (t + 1) ++ ['/'] ++ putNat (n + 1) ++ [' '])
      ∧ (∀ f : Face, (∀ v ∈ f.vertices, v.Fits) →
          putFace f = ['f', ' '] ++ (f.vertices.map emissionRule).flatten ++ ['\n'])
      ∧ putFace { vertices := [(WireRef.pos 1).vertex, (WireRef.posTex 2 1).vertex,
            (WireRef.posNor 3 1).vertex, (WireRef.posTexNor 4 2 1).vertex] }
          = "f 12/13//1 4/2/1 \n".toList := by
  refine ⟨putVertex_fits, ?_, ?_, by decide⟩
  · intro p t n hp ht hn
    simp [putVertex, Vertex.hasTexture, Vertex.hasNormal, uadd1_fits hp, uadd1_fits ht,
      uadd1_fits hn]
  · intro f hf
    have hmap : f.vertices.map putVertex = f.vertices.map emissionRule :=
      List.map_congr_left (fun v hv => putVertex_fits v (hf v hv))
    simp [putFace, hmap]

/-! ## C16: compact support of the kernels -/

/-- C16. For `h > 0` and every `r` (so for `r ≥ 0`), with `q = r / h`, the weight is zero outside the support:
`q² > 1` for Standard, `q > 1` for Smooth, Spiky, Laplacian and Quadratic, `q > 2` for Cubic and
`2.5 * r / h > 2.5` for Quartic. -/
theorem kernel_compact_support (PI r h : ℝ) (hh : 0 < h) :
    ((r / h) ^ 2 > 1 → StandardKernel.weight PI r h = 0)
      ∧ (r / h > 1 → SmoothKernel.weight r h = 0 ∧ SpikyKernel.weight PI r h = 0
          ∧ LaplacianKernel.weight PI r h = 0 ∧ QuadraticKernel.weight PI r h = 0)
      ∧ (r / h > 2 → CubicKernel.weight PI r h = 0)
      ∧ (2.5 * r / h > 2.5 → QuarticKernel.weight r h = 0) := by
  refine ⟨?_, ?_, ?_, ?_⟩
  · intro hq
    have hqq : r * r / (h * h) > 1 := by
      have e : r * r / (h * h) = (r / h) ^ 2 := by
        field_simp
        ring
      rw [e]
      exact hq
    simp only [StandardKernel.weight, if_pos hqq]
  · intro hq
    refine ⟨?_, ?_, ?_, ?_⟩
    · simp only [SmoothKernel.weight, if_pos hq]
    · simp only [SpikyKernel.weight, if_pos hq]
    · simp only [LaplacianKernel.weight, if_pos hq]
    · simp only [QuadraticKernel.weight, if_pos hq]
  · intro hq
    simp only [CubicKernel.weight, if_pos hq]
  · intro hq
    simp only [QuarticKernel.weight, if_pos hq]

/-- C16, instance: at `h = 1`, `r = 3` every kernel with a cut-off is zero. -/
theorem kernel_compact_support_witness :
    (0 : ℝ) < 1
      ∧ (((3 : ℝ) / 1) ^ 2 > 1 → StandardKernel.weight Real.pi 3 1 = 0)
      ∧ ((3 : ℝ) / 1 > 1 → SmoothKernel.weight (3 : ℝ) 1 = 0 ∧ SpikyKernel.weight Real.pi 3 1 = 0
          ∧ LaplacianKernel.weight Real.pi 3 1 = 0 ∧ QuadraticKernel.weight Real.pi 3 1 = 0)
      ∧ ((3 : ℝ) / 1 > 2 → CubicKernel.weight Real.pi 3 1 = 0)
      ∧ (2.5 * (3 : ℝ) / 1 > 2.5 → QuarticKernel.weight (3 : ℝ) 1 = 0) :=
  ⟨by norm_num, kernel_compact_support Real.pi 3 1 (by norm_num)⟩

/-! ## C17: the kernels are non-negative -/

theorem standard_weight_nonneg (PI r h : ℝ) (hPI : 0 < PI) (hh : 0 < h) :
    0 ≤ StandardKernel.weight PI r h := by
  simp only [StandardKernel.weight]
  split_ifs with hq
  · exact le_refl 0
  · have hd : 0 ≤ 1 - r * r / (h * h) := by linarith
    have hc : 0 ≤ 315 / (64 * PI * (h * h) * h) := by positivity
    exact mul_nonneg (mul_nonneg (mul_nonneg hc hd) hd) hd

theorem smooth_weight_nonneg (r h : ℝ) (hh : 0 < h) (hr : 0 ≤ r) :
    0 ≤ SmoothKernel.weight r h := by
  simp only [SmoothKernel.weight]
  have hq : 0 ≤ r / h := div_nonneg hr hh.le
  split_ifs with h1
  · exact le_refl 0
  · nlinarith

theorem spiky_weight_nonneg (PI r h : ℝ) (hPI : 0 < PI) (hh : 0 < h) :
    0 ≤ SpikyKernel.weight PI r h := by
  simp only [SpikyKernel.weight]
  split_ifs with hq
  · exact le_refl 0
  · have hd : 0 ≤ 1 - r / h := by linarith
    have hc : 0 ≤ 15 / (PI * (h * h) * h) := by positivity
    exact mul_nonneg (mul_nonneg (mul_nonneg hc hd) hd) hd

theorem laplacian_weight_nonneg (PI r h : ℝ) (hPI : 0 < PI) (hh : 0 < h) :
    0 ≤ LaplacianKernel.weight PI r h := by
  simp only [LaplacianKernel.weight]
  split_ifs with hq
  · exact le_refl 0
  · have hd : 0 ≤ 1 - r / h := by linarith
    have hc : 0 ≤ 45 / (13 * PI * (h * h) * h) := by positivity
    exact mul_nonneg hc hd

/-- The inner piece of the cubic kernel is at least `1/6` on `0 ≤ q ≤ 1`. -/
theorem cubic_inner_ge (q : ℝ) (h0 : 0 ≤ q) (h1 : q ≤ 1) :
    1 / 6 ≤ 11184811 / 16777216 - q * q + 0.5 * (q * q * q) := by
  have e : 11184811 / 16777216 - q * q + 0.5 * (q * q * q) - 1 / 6
      = (1 - q) * (1 + q * (1 - q)) / 2 + 1 / 50331648 := by
    norm_num
    ring
  have hp : 0 ≤ (1 - q) * (1 + q * (1 - q)) / 2 := by
    have : 0 ≤ q * (1 - q) := mul_nonneg h0 (by linarith)
    have : 0 ≤ (1 - q) * (1 + q * (1 - q)) := mul_nonneg (by linarith) (by linarith)
    linarith
  linarith

theorem cubic_weight_nonneg (PI r h : ℝ) (hPI : 0 < PI) (hh : 0 < h) (hr : 0 ≤ r) :
    0 ≤ CubicKernel.weight PI r h := by
  simp only [CubicKernel.weight]
  have hq : 0 ≤ r / h := div_nonneg hr hh.le
  have hc : 0 ≤ 3 / (2 * PI * (h * h) * h) := by positivity
  split_ifs with h2 h1
  · exact le_refl 0
  · have hd : 0 ≤ 2 - r / h := by linarith
    exact mul_nonneg (mul_nonneg (mul_nonneg (div_nonneg hc (by norm_num)) hd) hd) hd
  · have := cubic_inner_ge (r / h) hq (by linarith)
    exact mul_nonneg hc (by linarith)

theorem quadratic_weight_nonneg (PI r h : ℝ) (hPI : 0 < PI) :
    0 ≤ QuadraticKernel.weight PI r h := by
  simp only [QuadraticKernel.weight]
  split_ifs with hq
  · exact le_refl 0
  · have hc : 0 ≤ 15 / (2 * PI) := by positivity
    rw [mul_assoc]
    exact mul_nonneg hc (mul_self_nonneg _)

/-- The middle polynomial of the quartic kernel is non-negative on `0.5 ≤ q ≤ 1.5`. -/
theorem quartic_middle_nonneg (q : ℝ) (h1 : 0.5 ≤ q) (h2 : q ≤ 1.5) :
    0 ≤ (2.5 - q) ^ 4 - 5 * (1.5 - q) ^ 4 := by
  have ht0 : 0 ≤ 1.5 - q := by linarith
  have ht1 : 1.5 - q ≤ 1 := by norm_num at h1 ⊢; linarith
  have e : (2.5 - q) = 1 + (1.5 - q) := by norm_num; ring
  rw [e]
  generalize 1.5 - q = t at ht0 ht1
  have h3 : (2 * t) ^ 2 ≤ (1 + t) ^ 2 := pow_le_pow_left₀ (by linarith) (by linarith) 2
  have h4 : ((2 * t) ^ 2) ^ 2 ≤ ((1 + t) ^ 2) ^ 2 := pow_le_pow_left₀ (by positivity) h3 2
  have h5 : 0 ≤ t ^ 4 := by positivity
  nlinarith

/-- The inner polynomial of the quartic kernel is non-negative on `0 ≤ q ≤ 0.5`. -/
theorem quartic_inner_nonneg (q : ℝ) (h1 : 0 ≤ q) (h2 : q ≤ 0.5) :
    0 ≤ (2.5 - q) ^ 4 - 5 * (1.5 - q) ^ 4 + 10 * (0.5 - q) ^ 4 := by
  have hw0 : 0 ≤ 0.5 - q := by linarith
  have hw1 : 0.5 - q ≤ 1 / 2 := by norm_num at h1 ⊢; linarith
  have e1 : (2.5 - q) = 2 + (0.5 - q) := by norm_num; ring
  have e2 : (1.5 - q) = 1 + (0.5 - q) := by norm_num; ring
  rw [e1, e2]
  generalize 0.5 - q = w at hw0 hw1
  have e : (2 + w) ^ 4 - 5 * (1 + w) ^ 4 + 10 * w ^ 4
      = 11 + 12 * w - 6 * w ^ 2 - 12 * w ^ 3 + 6 * w ^ 4 := by ring
  rw [e]
  have hw2 : w ^ 2 ≤ 1 / 4 := by nlinarith
  have hw3 : w ^ 3 ≤ 1 / 8 := by nlinarith [mul_nonneg hw0 hw0, mul_nonneg (mul_nonneg hw0 hw0) hw0]
  have hw4 : 0 ≤ w ^ 4 := by positivity
  nlinarith

theorem quartic_weight_nonneg (r h : ℝ) (hh : 0 < h) (hr : 0 ≤ r) :
    0 ≤ QuarticKernel.weight r h := by
  simp only [QuarticKernel.weight]
  have hq : 0 ≤ 2.5 * r / h := div_nonneg (mul_nonneg (by norm_num) hr) hh.le
  have hhh : 0 < h * h := mul_pos hh hh
  split_ifs with h1 h2 h3
  · exact le_refl 0
  · exact div_nonneg (mul_nonneg (mul_nonneg (by norm_num) (mul_self_nonneg _))
      (mul_self_nonneg _)) hhh.le
  · have hm := quartic_middle_nonneg (2.5 * r / h) h3.le (not_lt.1 h2)
    refine div_nonneg (mul_nonneg (by norm_num) ?_) hhh.le
    have e : (2.5 - 2.5 * r / h) * (2.5 - 2.5 * r / h) * ((2.5 - 2.5 * r / h) * (2.5 - 2.5 * r / h))
        - 5 * ((1.5 - 2.5 * r / h) * (1.5 - 2.5 * r / h))
          * ((1.5 - 2.5 * r / h) * (1.5 - 2.5 * r / h))
        = (2.5 - 2.5 * r / h) ^ 4 - 5 * (1.5 - 2.5 * r / h) ^ 4 := by ring
    rw [e]
    exact hm
  · have hm := quartic_inner_nonneg (2.5 * r / h) hq (not_lt.1 h3)
    refine div_nonneg (mul_nonneg (by norm_num) ?_) hhh.le
    have e : (2.5 - 2.5 * r / h) * (2.5 - 2.5 * r / h) * ((2.5 - 2.5 * r / h) * (2.5 - 2.5 * r / h))
        - 5 * ((1.5 - 2.5 * r / h) * (1.5 - 2.5 * r / h))
          * ((1.5 - 2.5 * r / h) * (1.5 - 2.5 * r / h))
        + 10 * ((0.5 - 2.5 * r / h) * (0.5 - 2.5 * r / h))
          * ((0.5 - 2.5 * r / h) * (0.5 - 2.5 * r / h))
        = (2.5 - 2.5 * r / h) ^ 4 - 5 * (1.5 - 2.5 * r / h) ^ 4
          + 10 * (0.5 - 2.5 * r / h) ^ 4 := by ring
    rw [e]
    exact hm

theorem gauss_weight_eq (r h : ℝ) :
    GaussKernel.weight (fun x y : ℝ => x ^ y) (Real.exp 1) r h = Real.exp (-(r / h)) := by
  simp only [GaussKernel.weight]
  exact Real.exp_one_rpow _

theorem gauss_gradient_eq (r h : ℝ) :
    GaussKernel.gradient (fun x y : ℝ => x ^ y) (Real.exp 1) r h = -Real.exp (-(r / h)) := by
  simp only [GaussKernel.gradient]
  rw [Real.exp_one_rpow]

/-- C17. For `h > 0` and `r ≥ 0` the weight of each of the eight kernels is non-negative,
inside the support as outside it, for any positive value of the constant π; `pow(M_E, x)` is
the real exponential. For Quartic the two polynomials are non-negative on their pieces:
`(2.5-q)^4 - 5(1.5-q)^4` on `0.5 < q ≤ 1.5` and `(2.5-q)^4 - 5(1.5-q)^4 + 10(0.5-q)^4` on
`0 ≤ q ≤ 0.5`, with `q = 2.5 * r / h`; their factor is the `float` literal `0.0255f`, which
is 427819 / 2^24. -/
theorem kernel_non_negative (PI r h : ℝ) (hPI : 0 < PI) (hh : 0 < h) (hr : 0 ≤ r) :
    0 ≤ StandardKernel.weight PI r h
      ∧ 0 ≤ SmoothKernel.weight r h
      ∧ 0 ≤ SpikyKernel.weight PI r h
      ∧ 0 ≤ LaplacianKernel.weight PI r h
      ∧ 0 ≤ CubicKernel.weight PI r h
      ∧ 0 ≤ QuadraticKernel.weight PI r h
      ∧ 0 ≤ QuarticKernel.weight r h
      ∧ 0 ≤ GaussKernel.weight (fun x y : ℝ => x ^ y) (Real.exp 1) r h
      ∧ (0.5 < 2.5 * r / h → 2.5 * r / h ≤ 1.5 →
          0 ≤ (2.5 - 2.5 * r / h) ^ 4 - 5 * (1.5 - 2.5 * r / h) ^ 4
            ∧ QuarticKernel.weight r h
              = 427819 / 16777216 * ((2.5 - 2.5 * r / h) ^ 4 - 5 * (1.5 - 2.5 * r / h) ^ 4) / (h * h))
      ∧ (2.5 * r / h ≤ 0.5 →
          0 ≤ (2.5 - 2.5 * r / h) ^ 4 - 5 * (1.5 - 2.5 * r / h) ^ 4
              + 10 * (0.5 - 2.5 * r / h) ^ 4
            ∧ QuarticKernel.weight r h
              = 427819 / 16777216 * ((2.5 - 2.5 * r / h) ^ 4 - 5 * (1.5 - 2.5 * r / h) ^ 4
                  + 10 * (0.5 - 2.5 * r / h) ^ 4) / (h * h)) := by
  have hq : 0 ≤ 2.5 * r / h := div_nonneg (mul_nonneg (by norm_num) hr) hh.le
  refine ⟨standard_weight_nonneg PI r h hPI hh, smooth_weight_nonneg r h hh hr,
    spiky_weight_nonneg PI r h hPI hh, laplacian_weight_nonneg PI r h hPI hh,
    cubic_weight_nonneg PI r h hPI hh hr, quadratic_weight_nonneg PI r h hPI,
    quartic_weight_nonneg r h hh hr, ?_, ?_, ?_⟩
  · rw [gauss_weight_eq]
    exact (Real.exp_pos _).le
  · intro h1 h2
    refine ⟨quartic_middle_nonneg _ h1.le h2, ?_⟩
    have n1 : ¬ 2.5 * r / h > 2.5 := by
      intro h3
      norm_num at h2 h3
      linarith
    have n2 : ¬ 2.5 * r / h > 1.5 := not_lt.2 h2
    simp only [QuarticKernel.weight, if_neg n1, if_neg n2, if_pos h1]
    ring
  · intro h1
    refine ⟨quartic_inner_nonneg _ hq h1, ?_⟩
    have n1 : ¬ 2.5 * r / h > 2.5 := by
      intro h3
      norm_num at h1 h3
      linarith
    have n2 : ¬ 2.5 * r / h > 1.5 := by
      intro h3
      norm_num at h1 h3
      linarith
    have n3 : ¬ 2.5 * r / h > 0.5 := not_lt.2 h1
    simp only [QuarticKernel.weight, if_neg n1, if_neg n2, if_neg n3]
    ring

/-- C17, instance: at `h = 2`, `r = 1` and π. -/
theorem kernel_non_negative_witness :
    (0 : ℝ) < Real.pi ∧ (0 : ℝ) < 2 ∧ (0 : ℝ) ≤ 1
      ∧ 0 ≤ StandardKernel.weight Real.pi 1 2
      ∧ 0 ≤ SmoothKernel.weight (1 : ℝ) 2
      ∧ 0 ≤ SpikyKernel.weight Real.pi 1 2
      ∧ 0 ≤ LaplacianKernel.weight Real.pi 1 2
      ∧ 0 ≤ CubicKernel.weight Real.pi 1 2
      ∧ 0 ≤ QuadraticKernel.weight Real.pi 1 2
      ∧ 0 ≤ QuarticKernel.weight (1 : ℝ) 2
      ∧ 0 ≤ GaussKernel.weight (fun x y : ℝ => x ^ y) (Real.exp 1) 1 2 :=
  have h := kernel_non_negative Real.pi 1 2 Real.pi_pos (by norm_num) (by norm_num)
  ⟨Real.pi_pos, by norm_num, by norm_num, h.1, h.2.1, h.2.2.1, h.2.2.2.1, h.2.2.2.2.1,
    h.2.2.2.2.2.1, h.2.2.2.2.2.2.1, h.2.2.2.2.2.2.2.1⟩

/-! ## C18: monotone decay -/

theorem cube_le_cube {a b : ℝ} (ha : 0 ≤ a) (hab : a ≤ b) : a * a * a ≤ b * b * b := by
  have hb : 0 ≤ b := le_trans ha hab
  have h2 : a * a ≤ b * b := mul_le_mul hab hab ha hb
  exact mul_le_mul h2 hab ha (mul_nonneg hb hb)

theorem standard_weight_antitone (PI h r1 r2 : ℝ) (hPI : 0 < PI) (hh : 0 < h) (h1 : 0 ≤ r1)
    (h12 : r1 ≤ r2) : StandardKernel.weight PI r2 h ≤ StandardKernel.weight PI r1 h := by
  have hhh : 0 < h * h := mul_pos hh hh
  have hqq : r1 * r1 / (h * h) ≤ r2 * r2 / (h * h) :=
    div_le_div_of_nonneg_right (mul_le_mul h12 h12 h1 (le_trans h1 h12)) hhh.le
  by_cases hq2 : r2 * r2 / (h * h) > 1
  · have e : StandardKernel.weight PI r2 h = 0 := by
      simp only [StandardKernel.weight, if_pos hq2]
    rw [e]
    exact standard_weight_nonneg PI r1 h hPI hh
  · have hq1 : ¬ r1 * r1 / (h * h) > 1 := fun hc => hq2 (lt_of_lt_of_le hc hqq)
    simp only [StandardKernel.weight, if_neg hq1, if_neg hq2]
    have hc : 0 ≤ 315 / (64 * PI * (h * h) * h) := by positivity
    have hd := cube_le_cube (a := 1 - r2 * r2 / (h * h)) (b := 1 - r1 * r1 / (h * h))
      (by linarith [not_lt.1 hq2]) (by linarith)
    calc 315 / (64 * PI * (h * h) * h) * (1 - r2 * r2 / (h * h)) * (1 - r2 * r2 / (h * h))
          * (1 - r2 * r2 / (h * h))
        = 315 / (64 * PI * (h * h) * h) * ((1 - r2 * r2 / (h * h)) * (1 - r2 * r2 / (h * h))
          * (1 - r2 * r2 / (h * h))) := by ring
      _ ≤ 315 / (64 * PI * (h * h) * h) * ((1 - r1 * r1 / (h * h)) * (1 - r1 * r1 / (h * h))
          * (1 - r1 * r1 / (h * h))) := mul_le_mul_of_nonneg_left hd hc
      _ = _ := by ring

theorem spiky_weight_antitone (PI h r1 r2 : ℝ) (hPI : 0 < PI) (hh : 0 < h)
    (h12 : r1 ≤ r2) : SpikyKernel.weight PI r2 h ≤ SpikyKernel.weight PI r1 h := by
  have hq : r1 / h ≤ r2 / h := div_le_div_of_nonneg_right h12 hh.le
  by_cases hq2 : r2 / h > 1
  · have e : SpikyKernel.weight PI r2 h = 0 := by
      simp only [SpikyKernel.weight, if_pos hq2]
    rw [e]
    exact spiky_weight_nonneg PI r1 h hPI hh
  · have hq1 : ¬ r1 / h > 1 := fun hc => hq2 (lt_of_lt_of_le hc hq)
    simp only [SpikyKernel.weight, if_neg hq1, if_neg hq2]
    have hc : 0 ≤ 15 / (PI * (h * h) * h) := by positivity
    have hd := cube_le_cube (a := 1 - r2 / h) (b := 1 - r1 / h)
      (by linarith [not_lt.1 hq2]) (by linarith)
    calc 15 / (PI * (h * h) * h) * (1 - r2 / h) * (1 - r2 / h) * (1 - r2 / h)
        = 15 / (PI * (h * h) * h) * ((1 - r2 / h) * (1 - r2 / h) * (1 - r2 / h)) := by ring
      _ ≤ 15 / (PI * (h * h) * h) * ((1 - r1 / h) * (1 - r1 / h) * (1 - r1 / h)) :=
        mul_le_mul_of_nonneg_left hd hc
      _ = _ := by ring

/-- The inner piece of the cubic kernel does not increase on `0 ≤ q ≤ 1`. -/
theorem cubic_inner_antitone (a b : ℝ) (ha : 0 ≤ a) (hab : a ≤ b) (hb : b ≤ 1) :
    11184811 / 16777216 - b * b + 0.5 * (b * b * b) ≤ 11184811 / 16777216 - a * a + 0.5 * (a * a * a) := by
  have e : (11184811 / 16777216 - a * a + 0.5 * (a * a * a)) - (11184811 / 16777216 - b * b + 0.5 * (b * b * b))
      = (b - a) * ((a + b) - (a * a + a * b + b * b) / 2) := by
    norm_num
    ring
  have hb0 : 0 ≤ b := le_trans ha hab
  have h1 : a * a ≤ a := by nlinarith
  have h2 : b * b ≤ b := by nlinarith
  have h3 : a * b ≤ a := by nlinarith
  have hp : 0 ≤ (b - a) * ((a + b) - (a * a + a * b + b * b) / 2) :=
    mul_nonneg (by linarith) (by linarith)
  linarith

theorem cubic_weight_antitone (PI h r1 r2 : ℝ) (hPI : 0 < PI) (hh : 0 < h) (h1 : 0 ≤ r1)
    (h12 : r1 ≤ r2) : CubicKernel.weight PI r2 h ≤ CubicKernel.weight PI r1 h := by
  have hq : r1 / h ≤ r2 / h := div_le_div_of_nonneg_right h12 hh.le
  have hq1 : 0 ≤ r1 / h := div_nonneg h1 hh.le
  have hc : 0 ≤ 3 / (2 * PI * (h * h) * h) := by positivity
  by_cases c2 : r2 / h > 2
  · have e : CubicKernel.weight PI r2 h = 0 := by
      simp only [CubicKernel.weight, if_pos c2]
    rw [e]
    exact cubic_weight_nonneg PI r1 h hPI hh h1
  · have c1 : ¬ r1 / h > 2 := fun hc => c2 (lt_of_lt_of_le hc hq)
    by_cases d2 : r2 / h ≥ 1
    · by_cases d1 : r1 / h ≥ 1
      · simp only [CubicKernel.weight, if_neg c1, if_neg c2, if_pos d1, if_pos d2]
        have hd := cube_le_cube (a := 2 - r2 / h) (b := 2 - r1 / h)
          (by linarith [not_lt.1 c2]) (by linarith)
        calc 3 / (2 * PI * (h * h) * h) / 6 * (2 - r2 / h) * (2 - r2 / h) * (2 - r2 / h)
            = 3 / (2 * PI * (h * h) * h) / 6 * ((2 - r2 / h) * (2 - r2 / h) * (2 - r2 / h)) := by
              ring
          _ ≤ 3 / (2 * PI * (h * h) * h) / 6 * ((2 - r1 / h) * (2 - r1 / h) * (2 - r1 / h)) :=
            mul_le_mul_of_nonneg_left hd (div_nonneg hc (by norm_num))
          _ = _ := by ring
      · simp only [CubicKernel.weight, if_neg c1, if_neg c2, if_neg d1, if_pos d2]
        have hin := cubic_inner_ge (r1 / h) hq1 (le_of_lt (not_le.1 d1))
        have hd := cube_le_cube (a := 2 - r2 / h) (b := 1)
          (by linarith [not_lt.1 c2]) (by linarith)
        calc 3 / (2 * PI * (h * h) * h) / 6 * (2 - r2 / h) * (2 - r2 / h) * (2 - r2 / h)
            = 3 / (2 * PI * (h * h) * h) * (((2 - r2 / h) * (2 - r2 / h) * (2 - r2 / h)) / 6) := by
              ring
          _ ≤ 3 / (2 * PI * (h * h) * h)
                * (11184811 / 16777216 - r1 / h * (r1 / h) + 0.5 * (r1 / h * (r1 / h) * (r1 / h))) :=
            mul_le_mul_of_nonneg_left (by linarith) hc
    · have d1 : ¬ r1 / h ≥ 1 := fun hc => d2 (le_trans hc hq)
      simp only [CubicKernel.weight, if_neg c1, if_neg c2, if_neg d1, if_neg d2]
      exact mul_le_mul_of_nonneg_left
        (cubic_inner_antitone (r1 / h) (r2 / h) hq1 hq (le_of_lt (not_le.1 d2))) hc

/-- C18. For `h > 0` and `0 ≤ r1 ≤ r2` the Cubic, Spiky and Standard weights do not increase:
`weight(r2,h) ≤ weight(r1,h)`, inside the support and beyond it, within each piece of Cubic and
across its boundary `q = 1`, for any positive value of the constant π. -/
theorem kernel_monotone_decay (PI h r1 r2 : ℝ) (hPI : 0 < PI) (hh : 0 < h) (h1 : 0 ≤ r1)
    (h12 : r1 ≤ r2) :
    CubicKernel.weight PI r2 h ≤ CubicKernel.weight PI r1 h
      ∧ SpikyKernel.weight PI r2 h ≤ SpikyKernel.weight PI r1 h
      ∧ StandardKernel.weight PI r2 h ≤ StandardKernel.weight PI r1 h :=
  ⟨cubic_weight_antitone PI h r1 r2 hPI hh h1 h12, spiky_weight_antitone PI h r1 r2 hPI hh h12,
    standard_weight_antitone PI h r1 r2 hPI hh h1 h12⟩

/-- C18, instance: `h = 1`, `r1 = 1/2` and `r2 = 3/2`, on either side of the boundary `q = 1`
of Cubic. -/
theorem kernel_monotone_decay_witness :
    (0 : ℝ) < Real.pi ∧ (0 : ℝ) < 1 ∧ (0 : ℝ) ≤ 1 / 2 ∧ (1 / 2 : ℝ) ≤ 3 / 2
      ∧ CubicKernel.weight Real.pi (3 / 2) 1 ≤ CubicKernel.weight Real.pi (1 / 2) 1
      ∧ SpikyKernel.weight Real.pi (3 / 2) 1 ≤ SpikyKernel.weight Real.pi (1 / 2) 1
      ∧ StandardKernel.weight Real.pi (3 / 2) 1 ≤ StandardKernel.weight Real.pi (1 / 2) 1 :=
  ⟨Real.pi_pos, by norm_num, by norm_num, by norm_num,
    kernel_monotone_decay Real.pi 1 (1 / 2) (3 / 2) Real.pi_pos (by norm_num) (by norm_num)
      (by norm_num)⟩

/-! ## C19: the gradients and the derivatives of the weights -/

/-- A function that agrees with `g` on a neighbourhood of `r` has the derivative of `g` at
`r`. -/
theorem hasDerivAt_of_agree {f g : ℝ → ℝ} {g' r : ℝ} {s : Set ℝ} (hs : IsOpen s) (hr : r ∈ s)
    (heq : ∀ x ∈ s, f x = g x) (hg : HasDerivAt g g' r) : HasDerivAt f g' r :=
  hg.congr_of_eventuallyEq (Filter.eventually_of_mem (hs.mem_nhds hr) heq)

theorem hasDerivAt_zero_of_agree {f : ℝ → ℝ} {r : ℝ} {s : Set ℝ} (hs : IsOpen s) (hr : r ∈ s)
    (heq : ∀ x ∈ s, f x = 0) : HasDerivAt f 0 r :=
  hasDerivAt_of_agree hs hr heq (hasDerivAt_const r (0 : ℝ))

theorem isOpen_between {f : ℝ → ℝ} (hf : Continuous f) (a b : ℝ) :
    IsOpen {x | a < f x ∧ f x < b} :=
  (isOpen_lt continuous_const hf).inter (isOpen_lt hf continuous_const)

/-- The derivative of `x ↦ a - c * x / h`. -/
theorem hasDerivAt_scaled (a c h r : ℝ) :
    HasDerivAt (fun x : ℝ => a - c * x / h) (-(c / h)) r := by
  have h1 : HasDerivAt (fun x : ℝ => c * x / h) (c / h) r := by
    have := ((hasDerivAt_id r).const_mul c).div_const h
    simpa using this
  exact h1.const_sub a

theorem hasDerivAt_ratio (a h r : ℝ) : HasDerivAt (fun x : ℝ => a - x / h) (-(1 / h)) r := by
  have h1 := hasDerivAt_scaled a 1 h r
  simpa using h1

theorem spiky_hasDerivAt (PI r h : ℝ) (hq : r / h ≠ 1) :
    HasDerivAt (fun x => SpikyKernel.weight PI x h) (SpikyKernel.gradient PI r h / h) r := by
  rcases lt_or_gt_of_ne hq with hlt | hgt
  · have hd := hasDerivAt_ratio 1 h r
    have h3 := (((hd.mul hd).mul hd).const_mul (15 / (PI * (h * h) * h)))
    refine hasDerivAt_of_agree (s := {x | x / h < 1}) (isOpen_lt (by fun_prop) (by fun_prop)) hlt
      (fun x hx => ?_) (h3.congr_deriv ?_)
    · have hx1 : ¬ x / h > 1 := not_lt.2 (le_of_lt hx)
      simp only [SpikyKernel.weight, if_neg hx1]
      ring
    · have hx1 : ¬ r / h > 1 := not_lt.2 (le_of_lt hlt)
      simp only [SpikyKernel.gradient, if_neg hx1]
      ring
  · have e : SpikyKernel.gradient PI r h / h = 0 := by
      simp only [SpikyKernel.gradient, if_pos hgt, zero_div]
    rw [e]
    refine hasDerivAt_zero_of_agree (s := {x | 1 < x / h}) (isOpen_lt (by fun_prop) (by fun_prop))
      hgt (fun x hx => ?_)
    simp only [SpikyKernel.weight, if_pos (show x / h > 1 from hx)]

theorem quadratic_hasDerivAt (PI r h : ℝ) (hq : r / h ≠ 1) :
    HasDerivAt (fun x => QuadraticKernel.weight PI x h) (QuadraticKernel.gradient PI r h / h)
      r := by
  rcases lt_or_gt_of_ne hq with hlt | hgt
  · have hd := hasDerivAt_ratio 1 h r
    have h3 := ((hd.mul hd).const_mul (15 / (2 * PI)))
    refine hasDerivAt_of_agree (s := {x | x / h < 1}) (isOpen_lt (by fun_prop) (by fun_prop)) hlt
      (fun x hx => ?_) (h3.congr_deriv ?_)
    · have hx1 : ¬ x / h > 1 := not_lt.2 (le_of_lt hx)
      simp only [QuadraticKernel.weight, if_neg hx1]
      ring
    · have hx1 : ¬ r / h > 1 := not_lt.2 (le_of_lt hlt)
      simp only [QuadraticKernel.gradient, if_neg hx1]
      ring
  · have e : QuadraticKernel.gradient PI r h / h = 0 := by
      simp only [QuadraticKernel.gradient, if_pos hgt, zero_div]
    rw [e]
    refine hasDerivAt_zero_of_agree (s := {x | 1 < x / h}) (isOpen_lt (by fun_prop) (by fun_prop))
      hgt (fun x hx => ?_)
    simp only [QuadraticKernel.weight, if_pos (show x / h > 1 from hx)]

theorem cubic_hasDerivAt (PI r h : ℝ) (h1 : r / h ≠ 1) (h2 : r / h ≠ 2) :
    HasDerivAt (fun x => CubicKernel.weight PI x h) (CubicKernel.gradient PI r h / h) r := by
  rcases lt_or_gt_of_ne h2 with lt2 | gt2
  · rcases lt_or_gt_of_ne h1 with lt1 | gt1
    · have hq := hasDerivAt_ratio 0 h r
      have hd := ((((hq.mul hq).const_sub (11184811 / 16777216)).add
        (((hq.mul hq).mul hq).const_mul (-0.5))).const_mul (3 / (2 * PI * (h * h) * h)))
      refine hasDerivAt_of_agree (s := {x | x / h < 1}) (isOpen_lt (by fun_prop) (by fun_prop))
        lt1 (fun x hx => ?_) (hd.congr_deriv ?_)
      · have n2 : ¬ x / h > 2 := by
          intro hc
          have : x / h < 1 := hx
          linarith
        have n1 : ¬ x / h ≥ 1 := not_le.2 hx
        simp only [CubicKernel.weight, if_neg n2, if_neg n1]
        ring
      · have n2 : ¬ r / h > 2 := not_lt.2 lt2.le
        have n1 : ¬ r / h ≥ 1 := not_le.2 lt1
        simp only [CubicKernel.gradient, if_neg n2, if_neg n1]
        norm_num
        ring
    · have hq := hasDerivAt_ratio 2 h r
      have hd := (((hq.mul hq).mul hq).const_mul (3 / (2 * PI * (h * h) * h) / 6))
      refine hasDerivAt_of_agree (s := {x | 1 < x / h ∧ x / h < 2})
        (isOpen_between (by fun_prop) 1 2) ⟨gt1, lt2⟩ (fun x hx => ?_) (hd.congr_deriv ?_)
      · have n2 : ¬ x / h > 2 := not_lt.2 hx.2.le
        have p1 : x / h ≥ 1 := hx.1.le
        simp only [CubicKernel.weight, if_neg n2, if_pos p1]
        ring
      · have n2 : ¬ r / h > 2 := not_lt.2 lt2.le
        have p1 : r / h ≥ 1 := le_of_lt gt1
        simp only [CubicKernel.gradient, if_neg n2, if_pos p1]
        norm_num
        ring
  · have e : CubicKernel.gradient PI r h / h = 0 := by
      simp only [CubicKernel.gradient, if_pos gt2, zero_div]
    rw [e]
    refine hasDerivAt_zero_of_agree (s := {x | 2 < x / h}) (isOpen_lt (by fun_prop) (by fun_prop))
      gt2 (fun x hx => ?_)
    simp only [CubicKernel.weight, if_pos (show x / h > 2 from hx)]

theorem gauss_hasDerivAt (r h : ℝ) :
    HasDerivAt (fun x => GaussKernel.weight (fun x y : ℝ => x ^ y) (Real.exp 1) x h)
      (GaussKernel.gradient (fun x y : ℝ => x ^ y) (Real.exp 1) r h / h) r := by
  have hq := hasDerivAt_ratio 0 h r
  have he := (Real.hasDerivAt_exp (0 - r / h)).comp r hq
  have hf : (fun x => GaussKernel.weight (fun x y : ℝ => x ^ y) (Real.exp 1) x h)
      = Real.exp ∘ (fun x => 0 - x / h) := by
    funext x
    rw [gauss_weight_eq]
    simp
  rw [hf, gauss_gradient_eq]
  refine he.congr_deriv ?_
  simp only [zero_sub]
  ring

theorem quartic_hasDerivAt (r h : ℝ) (h1 : 2.5 * r / h ≠ 0.5) (h2 : 2.5 * r / h ≠ 1.5)
    (h3 : 2.5 * r / h ≠ 2.5) :
    HasDerivAt (fun x => QuarticKernel.weight x h) (2.5 * QuarticKernel.gradient r h / h) r := by
  have hd := hasDerivAt_scaled 2.5 2.5 h r
  have ht := hasDerivAt_scaled 1.5 2.5 h r
  have hw := hasDerivAt_scaled 0.5 2.5 h r
  have hd4 := (hd.mul hd).mul (hd.mul hd)
  have ht4 := ((ht.mul ht).const_mul 5).mul (ht.mul ht)
  have hw4 := ((hw.mul hw).const_mul 10).mul (hw.mul hw)
  rcases lt_or_gt_of_ne h3 with lt3 | gt3
  · rcases lt_or_gt_of_ne h2 with lt2 | gt2
    · rcases lt_or_gt_of_ne h1 with lt1 | gt1
      · have hg := (((hd4.sub ht4).add hw4).const_mul (427819 / 16777216)).div_const (h * h)
        refine hasDerivAt_of_agree (s := {x | 2.5 * x / h < 0.5})
          (isOpen_lt (by fun_prop) (by fun_prop)) lt1 (fun x hx => ?_) (hg.congr_deriv ?_)
        · have hx0 : 2.5 * x / h < 0.5 := hx
          have n3 : ¬ 2.5 * x / h > 2.5 := by
            norm_num at hx0 ⊢
            linarith
          have n2 : ¬ 2.5 * x / h > 1.5 := by
            norm_num at hx0 ⊢
            linarith
          have n1 : ¬ 2.5 * x / h > 0.5 := not_lt.2 hx0.le
          simp only [QuarticKernel.weight, if_neg n3, if_neg n2, if_neg n1]
        · have n3 : ¬ 2.5 * r / h > 2.5 := not_lt.2 lt3.le
          have n2 : ¬ 2.5 * r / h > 1.5 := not_lt.2 lt2.le
          have n1 : ¬ 2.5 * r / h > 0.5 := not_lt.2 lt1.le
          simp only [QuarticKernel.gradient, if_neg n3, if_neg n2, if_neg n1]
          norm_num
          ring
      · have hg := ((hd4.sub ht4).const_mul (427819 / 16777216)).div_const (h * h)
        refine hasDerivAt_of_agree (s := {x | 0.5 < 2.5 * x / h ∧ 2.5 * x / h < 1.5})
          (isOpen_between (by fun_prop) 0.5 1.5) ⟨gt1, lt2⟩ (fun x hx => ?_)
          (hg.congr_deriv ?_)
        · obtain ⟨hx1, hx2⟩ := hx
          have n3 : ¬ 2.5 * x / h > 2.5 := by
            norm_num at hx2 ⊢
            linarith
          have n2 : ¬ 2.5 * x / h > 1.5 := not_lt.2 hx2.le
          simp only [QuarticKernel.weight, if_neg n3, if_neg n2, if_pos hx1]
        · have n3 : ¬ 2.5 * r / h > 2.5 := not_lt.2 lt3.le
          have n2 : ¬ 2.5 * r / h > 1.5 := not_lt.2 lt2.le
          simp only [QuarticKernel.gradient, if_neg n3, if_neg n2, if_pos gt1]
          norm_num
          ring
    · have hg := (hd4.const_mul (427819 / 16777216)).div_const (h * h)
      refine hasDerivAt_of_agree (s := {x | 1.5 < 2.5 * x / h ∧ 2.5 * x / h < 2.5})
        (isOpen_between (by fun_prop) 1.5 2.5) ⟨gt2, lt3⟩ (fun x hx => ?_)
        (hg.congr_deriv ?_)
      · obtain ⟨hx1, hx2⟩ := hx
        have n3 : ¬ 2.5 * x / h > 2.5 := not_lt.2 hx2.le
        simp only [QuarticKernel.weight, if_neg n3, if_pos hx1]
        ring
      · have n3 : ¬ 2.5 * r / h > 2.5 := not_lt.2 lt3.le
        simp only [QuarticKernel.gradient, if_neg n3, if_pos gt2]
        norm_num
        ring
  · have e : 2.5 * QuarticKernel.gradient r h / h = 0 := by
      simp only [QuarticKernel.gradient, if_pos gt3, mul_zero, zero_div]
    rw [e]
    refine hasDerivAt_zero_of_agree (s := {x | 2.5 < 2.5 * x / h})
      (isOpen_lt (by fun_prop) (by fun_prop)) gt3 (fun x hx => ?_)
    simp only [QuarticKernel.weight, if_pos (show 2.5 * x / h > 2.5 from hx)]

theorem smooth_hasDerivAt_inside (r h : ℝ) (hq : r / h < 1) :
    HasDerivAt (fun x => SmoothKernel.weight x h) (-(2 * r / (h * h))) r := by
  have hd := hasDerivAt_ratio 0 h r
  have hg := (hd.mul hd).const_sub 1
  refine hasDerivAt_of_agree (s := {x | x / h < 1}) (isOpen_lt (by fun_prop) (by fun_prop)) hq
    (fun x hx => ?_) (hg.congr_deriv ?_)
  · have hx1 : ¬ x / h > 1 := not_lt.2 (le_of_lt hx)
    simp only [SmoothKernel.weight, if_neg hx1]
    ring
  · ring

theorem laplacian_hasDerivAt_inside (PI r h : ℝ) (hq : r / h < 1) :
    HasDerivAt (fun x => LaplacianKernel.weight PI x h) (-(45 / (13 * PI * (h * h) * h) / h))
      r := by
  have hd := hasDerivAt_ratio 1 h r
  have hg := hd.const_mul (45 / (13 * PI * (h * h) * h))
  refine hasDerivAt_of_agree (s := {x | x / h < 1}) (isOpen_lt (by fun_prop) (by fun_prop)) hq
    (fun x hx => ?_) (hg.congr_deriv ?_)
  · have hx1 : ¬ x / h > 1 := not_lt.2 (le_of_lt hx)
    simp only [LaplacianKernel.weight, if_neg hx1]
  · ring

theorem smooth_hasDerivAt_outside (r h : ℝ) (hq : r / h > 1) :
    HasDerivAt (fun x => SmoothKernel.weight x h) (SmoothKernel.gradient r h) r := by
  have e : SmoothKernel.gradient r h = 0 := by
    simp only [SmoothKernel.gradient, hq, true_or, if_true]
  rw [e]
  refine hasDerivAt_zero_of_agree (s := {x | 1 < x / h}) (isOpen_lt (by fun_prop) (by fun_prop))
    hq (fun x hx => ?_)
  simp only [SmoothKernel.weight, if_pos (show x / h > 1 from hx)]

theorem laplacian_hasDerivAt_outside (PI r h : ℝ) (hq : r / h > 1) :
    HasDerivAt (fun x => LaplacianKernel.weight PI x h) (LaplacianKernel.gradient r h) r := by
  refine hasDerivAt_zero_of_agree (s := {x | 1 < x / h}) (isOpen_lt (by fun_prop) (by fun_prop))
    hq (fun x hx => ?_)
  simp only [LaplacianKernel.weight, if_pos (show x / h > 1 from hx)]

theorem standard_hasDerivAt_outside (PI r h : ℝ) (hq : r * r / (h * h) > 1) :
    HasDerivAt (fun x => StandardKernel.weight PI x h) (StandardKernel.gradient r h) r := by
  refine hasDerivAt_zero_of_agree (s := {x | 1 < x * x / (h * h)})
    (isOpen_lt (by fun_prop) (by fun_prop)) hq (fun x hx => ?_)
  simp only [StandardKernel.weight, if_pos (show x * x / (h * h) > 1 from hx)]

/-- C19, as claimed. The gradient of Smooth is `-(1 - q²)`, which is not the derivative
`-2r/h²` of its weight `1 - q²`: at `r = 1/2`, `h = 1` the derivative is `-1` and the gradient
`-3/4`. Laplacian has no gradient of its own, so its gradient is zero where its weight has the
derivative `-45/(13π)`. The gradient of Spiky is the derivative in `q = r / h`: at `h = 2` it is
twice the derivative in `r`. -/
theorem gradient_differs_from_derivative :
    (HasDerivAt (fun x => SmoothKernel.weight x (1 : ℝ)) (-1) (1 / 2)
        ∧ SmoothKernel.gradient (1 / 2 : ℝ) 1 = -(3 / 4)
        ∧ ¬ HasDerivAt (fun x => SmoothKernel.weight x (1 : ℝ))
            (SmoothKernel.gradient (1 / 2 : ℝ) 1) (1 / 2))
      ∧ (HasDerivAt (fun x => LaplacianKernel.weight Real.pi x 1) (-(45 / (13 * Real.pi))) (1 / 2)
        ∧ LaplacianKernel.gradient (1 / 2 : ℝ) 1 = 0
        ∧ ¬ HasDerivAt (fun x => LaplacianKernel.weight Real.pi x 1)
            (LaplacianKernel.gradient (1 / 2 : ℝ) 1) (1 / 2))
      ∧ (HasDerivAt (fun x => SpikyKernel.weight Real.pi x 2)
            (SpikyKernel.gradient Real.pi 1 2 / 2) 1
        ∧ SpikyKernel.gradient Real.pi 1 2 = -(45 / (32 * Real.pi))
        ∧ ¬ HasDerivAt (fun x => SpikyKernel.weight Real.pi x 2)
            (SpikyKernel.gradient Real.pi 1 2) 1) := by
  have hpi := Real.pi_pos
  have hs : HasDerivAt (fun x => SmoothKernel.weight x (1 : ℝ)) (-1) (1 / 2) := by
    have h := smooth_hasDerivAt_inside (1 / 2) 1 (by norm_num)
    refine h.congr_deriv ?_
    norm_num
  have gs : SmoothKernel.gradient (1 / 2 : ℝ) 1 = -(3 / 4) := by
    norm_num [SmoothKernel.gradient]
  have hl : HasDerivAt (fun x => LaplacianKernel.weight Real.pi x 1) (-(45 / (13 * Real.pi)))
      (1 / 2) := by
    have h := laplacian_hasDerivAt_inside Real.pi (1 / 2) 1 (by norm_num)
    refine h.congr_deriv ?_
    norm_num
  have gl : LaplacianKernel.gradient (1 / 2 : ℝ) 1 = 0 := rfl
  have hp := spiky_hasDerivAt Real.pi 1 2 (by norm_num)
  have gp : SpikyKernel.gradient Real.pi 1 2 = -(45 / (32 * Real.pi)) := by
    have n : ¬ (1 : ℝ) / 2 > 1 := by norm_num
    simp only [SpikyKernel.gradient, if_neg n]
    field_simp
    ring
  refine ⟨⟨hs, gs, ?_⟩, ⟨hl, gl, ?_⟩, ⟨hp, gp, ?_⟩⟩
  · intro hc
    have := hc.unique hs
    rw [gs] at this
    norm_num at this
  · intro hc
    have := hc.unique hl
    rw [gl] at this
    have hpos : 0 < 45 / (13 * Real.pi) := by positivity
    linarith
  · intro hc
    have := hc.unique hp
    rw [gp] at this
    have hpos : 0 < 45 / (32 * Real.pi) := by positivity
    linarith

/-- C19, amended. The gradients of Spiky, Cubic, Quadratic, Gauss and Quartic are derivatives
in the scaled radius: at every `r` in the interior of a piece, the derivative in `r` of
`r ↦ weight(r,h)` is `gradient(r,h) / h` for Spiky, Cubic, Quadratic and Gauss and
`2.5 * gradient(r,h) / h` for Quartic. For Smooth, Laplacian and Standard the gradient is the
derivative in `r` outside the support, where both are zero. -/
theorem gradient_is_scaled_derivative (PI r h : ℝ) :
    (r / h ≠ 1 →
        HasDerivAt (fun x => SpikyKernel.weight PI x h) (SpikyKernel.gradient PI r h / h) r)
      ∧ (r / h ≠ 1 → r / h ≠ 2 →
        HasDerivAt (fun x => CubicKernel.weight PI x h) (CubicKernel.gradient PI r h / h) r)
      ∧ (r / h ≠ 1 →
        HasDerivAt (fun x => QuadraticKernel.weight PI x h)
          (QuadraticKernel.gradient PI r h / h) r)
      ∧ HasDerivAt (fun x => GaussKernel.weight (fun x y : ℝ => x ^ y) (Real.exp 1) x h)
          (GaussKernel.gradient (fun x y : ℝ => x ^ y) (Real.exp 1) r h / h) r
      ∧ (2.5 * r / h ≠ 0.5 → 2.5 * r / h ≠ 1.5 → 2.5 * r / h ≠ 2.5 →
        HasDerivAt (fun x => QuarticKernel.weight x h) (2.5 * QuarticKernel.gradient r h / h) r)
      ∧ (r / h > 1 →
        HasDerivAt (fun x => SmoothKernel.weight x h) (SmoothKernel.gradient r h) r)
      ∧ (r / h > 1 →
        HasDerivAt (fun x => LaplacianKernel.weight PI x h) (LaplacianKernel.gradient r h) r)
      ∧ (r * r / (h * h) > 1 →
        HasDerivAt (fun x => StandardKernel.weight PI x h) (StandardKernel.gradient r h) r) :=
  ⟨spiky_hasDerivAt PI r h, cubic_hasDerivAt PI r h, quadratic_hasDerivAt PI r h,
    gauss_hasDerivAt r h, quartic_hasDerivAt r h, smooth_hasDerivAt_outside r h,
    laplacian_hasDerivAt_outside PI r h, standard_hasDerivAt_outside PI r h⟩

/-! ## C11: the pools follow the file -/

theorem branchV_ok {S : Type} (H : Host S) (st st2 : LoadState S) (stream : Str)
    (h : branchV H st stream = Except.ok st2) :
    ∃ p, readTriple H stream = some p ∧ st2.mesh = st.mesh.addVertexPosition p := by
  unfold branchV at h
  unfold readTriple
  split at h
  · simp [PHYSIKA_ERROR] at h
  · rename_i x s1 h1
    split at h
    · simp [PHYSIKA_ERROR] at h
    · rename_i y s2 h2
      split at h
      · simp [PHYSIKA_ERROR] at h
      · rename_i z s3 h3
        simp only [Except.ok.injEq] at h
        subst h
        exact ⟨(x, y, z), by simp only [h1, h2, h3], rfl⟩

theorem branchVn_ok {S : Type} (H : Host S) (st st2 : LoadState S) (stream : Str)
    (h : branchVn H st stream = Except.ok st2) :
    ∃ p, readTriple H stream = some p ∧ st2.mesh = st.mesh.addVertexNormal p := by
  unfold branchVn at h
  unfold readTriple
  split at h
  · simp [PHYSIKA_ERROR] at h
  · rename_i x s1 h1
    split at h
    · simp [PHYSIKA_ERROR] at h
    · rename_i y s2 h2
      split at h
      · simp [PHYSIKA_ERROR] at h
      · rename_i z s3 h3
        simp only [Except.ok.injEq] at h
        subst h
        exact ⟨(x, y, z), by simp only [h1, h2, h3], rfl⟩

theorem branchVt_ok {S : Type} (H : Host S) (st st2 : LoadState S) (stream : Str)
    (h : branchVt H st stream = Except.ok st2) :
    ∃ p, readPair H stream = some p ∧ st2.mesh = st.mesh.addVertexTextureCoordinate p := by
  unfold branchVt at h
  unfold readPair
  split at h
  · simp [PHYSIKA_ERROR] at h
  · rename_i x s1 h1
    split at h
    · simp [PHYSIKA_ERROR] at h
    · rename_i y s2 h2
      simp only [Except.ok.injEq] at h
      subst h
      exact ⟨(x, y), by simp only [h1, h2], rfl⟩

theorem readTriple_nil {S : Type} (H : Host S) : readTriple H [] = none := by
  simp [readTriple, Host.readScalar]

theorem readPair_nil {S : Type} (H : Host S) : readPair H [] = none := by
  simp [readPair, Host.readScalar]

theorem samePools_refl {S : Type} (m : SurfaceMesh S) : SamePools m m := ⟨rfl, rfl, rfl⟩

theorem branchG_pools {S : Type} (st st2 : LoadState S) (stream : Str)
    (h : branchG st stream = Except.ok st2) : SamePools st.mesh st2.mesh := by
  unfold branchG at h
  simp only at h
  split at h
  · simp at h
  · split at h
    · simp only [Except.ok.injEq] at h
      subst h
      exact samePools_refl _
    · simp only [Except.ok.injEq] at h
      subst h
      exact ⟨rfl, rfl, rfl⟩

theorem branchF_pools {S : Type} (H : Host S) (st st2 : LoadState S) (stream : Str)
    (h : branchF H st stream = Except.ok st2) : SamePools st.mesh st2.mesh := by
  unfold branchF at h
  simp only at h
  split at h
  · simp at h
  · split at h
    · simp at h
    · simp only [Except.ok.injEq] at h
      subst h
      cases hc : st.current_group <;> exact ⟨rfl, rfl, rfl⟩

theorem branchUsemtl_pools {S : Type} (H : Host S) (st st2 : LoadState S) (stream : Str)
    (h : branchUsemtl H st stream = Except.ok st2) : SamePools st.mesh st2.mesh := by
  unfold branchUsemtl at h
  simp only at h
  by_cases hf : 0 < st.num_group_faces
  · simp only [hf, if_true] at h
    split_ifs at h with h1 h2
    · split at h
      · simp at h
      · simp only [Except.ok.injEq] at h
        subst h
        exact ⟨rfl, rfl, rfl⟩
    · split at h
      · simp at h
      · simp only [Except.ok.injEq] at h
        subst h
        exact ⟨rfl, rfl, rfl⟩
    · simp only [PHYSIKA_ASSERT, literalAsCondition, if_true, Except.map, Except.ok.injEq] at h
      subst h
      exact ⟨rfl, rfl, rfl⟩
  · simp only [hf, if_false] at h
    split_ifs at h with h1 h2
    · split at h
      · simp at h
      · simp only [Except.ok.injEq] at h
        subst h
        exact ⟨rfl, rfl, rfl⟩
    · split at h
      · simp at h
      · simp only [Except.ok.injEq] at h
        subst h
        exact ⟨rfl, rfl, rfl⟩
    · simp only [PHYSIKA_ASSERT, literalAsCondition, if_true, Except.map, Except.ok.injEq] at h
      subst h
      exact ⟨rfl, rfl, rfl⟩

theorem branchMtllib_pools {S : Type} (H : Host S) (files : Files) (garbage : Garbage S)
    (filename : Str) (st st2 : LoadState S) (stream : Str)
    (h : branchMtllib H files garbage filename st stream = Except.ok st2) :
    SamePools st.mesh st2.mesh := by
  unfold branchMtllib at h
  simp only at h
  split at h
  · simp at h
  · rename_i mesh hm
    simp only [Except.ok.injEq] at h
    subst h
    exact (loadMaterials_mesh H files garbage _ _ mesh hm).2

theorem lineTriple_none_of_ne {S : Type} (H : Host S) (key : Str) (line t rest : Str)
    (hx : extract (cstr line) = some (t, rest)) (hne : t ≠ key) : lineTriple H key line = none := by
  simp only [lineTriple, hx, if_neg hne]

theorem linePair_none_of_ne {S : Type} (H : Host S) (key : Str) (line t rest : Str)
    (hx : extract (cstr line) = some (t, rest)) (hne : t ≠ key) : linePair H key line = none := by
  simp only [linePair, hx, if_neg hne]

/-- One iteration of the loop of `load` appends to each pool what the line read holds for it,
whatever the unwritten token buffer reads as: on a line without token the branches `v`, `vn`
and `vt` find nothing to read and are fatal. -/
theorem loadLine_pools {S : Type} (H : Host S) (files : Files) (garbage : Garbage S)
    (filename : Str) (st st2 : LoadState S) (line : Str)
    (h : loadLine H files garbage filename st line = Except.ok st2) :
    st2.mesh.positions = st.mesh.positions ++ (lineTriple H "v".toList line).toList
      ∧ st2.mesh.normals = st.mesh.normals ++ (lineTriple H "vn".toList line).toList
      ∧ st2.mesh.texture_coordinates
          = st.mesh.texture_coordinates ++ (linePair H "vt".toList line).toList := by
  have same : ∀ m : SurfaceMesh S, SamePools st.mesh m →
      lineTriple H "v".toList line = none → lineTriple H "vn".toList line = none →
      linePair H "vt".toList line = none →
      m.positions = st.mesh.positions ++ (lineTriple H "v".toList line).toList
        ∧ m.normals = st.mesh.normals ++ (lineTriple H "vn".toList line).toList
        ∧ m.texture_coordinates
            = st.mesh.texture_coordinates ++ (linePair H "vt".toList line).toList := by
    intro m hm e1 e2 e3
    rw [e1, e2, e3]
    simpa using hm
  unfold loadLine at h
  cases hx : extract (cstr line) with
  | none =>
    have e1 : lineTriple H "v".toList line = none := by simp only [lineTriple, hx]
    have e2 : lineTriple H "vn".toList line = none := by simp only [lineTriple, hx]
    have e3 : linePair H "vt".toList line = none := by simp only [linePair, hx]
    simp only [hx] at h
    split_ifs at h with h1 h2 h3 h4 h5 h6 h7 h8
    · obtain ⟨p, hp, -⟩ := branchV_ok H _ st2 _ h
      rw [readTriple_nil] at hp
      exact absurd hp (by simp)
    · obtain ⟨p, hp, -⟩ := branchVn_ok H _ st2 _ h
      rw [readTriple_nil] at hp
      exact absurd hp (by simp)
    · obtain ⟨p, hp, -⟩ := branchVt_ok H _ st2 _ h
      rw [readPair_nil] at hp
      exact absurd hp (by simp)
    · have hm := branchG_pools _ st2 _ h
      exact same _ hm e1 e2 e3
    · have hm := branchF_pools H _ st2 _ h
      exact same _ hm e1 e2 e3
    · simp only [Except.ok.injEq] at h
      subst h
      exact same _ (samePools_refl _) e1 e2 e3
    · have hm := branchUsemtl_pools H _ st2 _ h
      exact same _ hm e1 e2 e3
    · have hm := branchMtllib_pools H files garbage filename _ st2 _ h
      exact same _ hm e1 e2 e3
    · simp only [Except.ok.injEq] at h
      subst h
      exact same _ (samePools_refl _) e1 e2 e3
  | some tr =>
    obtain ⟨t, rest⟩ := tr
    simp only [hx] at h
    have nv : ∀ key : Str, t ≠ key → lineTriple H key line = none :=
      fun key hne => lineTriple_none_of_ne H key line t rest hx hne
    have np : ∀ key : Str, t ≠ key → linePair H key line = none :=
      fun key hne => linePair_none_of_ne H key line t rest hx hne
    split_ifs at h with h1 h2 h3 h4 h5 h6 h7 h8
    · obtain ⟨p, hp, hm⟩ := branchV_ok H _ st2 _ h
      have e1 : lineTriple H "v".toList line = some p := by
        simp only [lineTriple, hx, if_pos h1, hp]
      rw [e1, nv "vn".toList (by rw [h1]; decide), np "vt".toList (by rw [h1]; decide), hm]
      simp [SurfaceMesh.addVertexPosition]
    · obtain ⟨p, hp, hm⟩ := branchVn_ok H _ st2 _ h
      have e1 : lineTriple H "vn".toList line = some p := by
        simp only [lineTriple, hx, if_pos h2, hp]
      rw [e1, nv "v".toList h1, np "vt".toList (by rw [h2]; decide), hm]
      simp [SurfaceMesh.addVertexNormal]
    · obtain ⟨p, hp, hm⟩ := branchVt_ok H _ st2 _ h
      have e1 : linePair H "vt".toList line = some p := by
        simp only [linePair, hx, if_pos h3, hp]
      rw [e1, nv "v".toList h1, nv "vn".toList h2, hm]
      simp [SurfaceMesh.addVertexTextureCoordinate]
    · have hm := branchG_pools _ st2 _ h
      exact same _ hm (nv _ h1) (nv _ h2) (np _ h3)
    · have hm := branchF_pools H _ st2 _ h
      exact same _ hm (nv _ h1) (nv _ h2) (np _ h3)
    · simp only [Except.ok.injEq] at h
      subst h
      exact same _ (samePools_refl _) (nv _ h1) (nv _ h2) (np _ h3)
    · have hm := branchUsemtl_pools H _ st2 _ h
      exact same _ hm (nv _ h1) (nv _ h2) (np _ h3)
    · have hm := branchMtllib_pools H files garbage filename _ st2 _ h
      exact same _ hm (nv _ h1) (nv _ h2)
        (np _ h3)
    · simp only [Except.ok.injEq] at h
      subst h
      exact same _ (samePools_refl _) (nv _ h1) (nv _ h2) (np _ h3)

theorem filterMap_cons_toList {α β : Type} (f : α → Option β) (x : α) (xs : List α) :
    (f x).toList ++ xs.filterMap f = (x :: xs).filterMap f := by
  cases h : f x <;> simp [List.filterMap_cons, h]

theorem loadLoop_pools {S : Type} (H : Host S) (files : Files) (garbage : Garbage S)
    (filename : Str) : ∀ (lines : List Str) (st st2 : LoadState S),
      loadLoop H files garbage filename lines st = Except.ok st2 →
      st2.mesh.positions = st.mesh.positions ++ lines.filterMap (lineTriple H "v".toList)
        ∧ st2.mesh.normals = st.mesh.normals ++ lines.filterMap (lineTriple H "vn".toList)
        ∧ st2.mesh.texture_coordinates
            = st.mesh.texture_coordinates ++ lines.filterMap (linePair H "vt".toList)
  | [], st, st2, h => by
    simp only [loadLoop, Except.ok.injEq] at h
    subst h
    simp
  | line :: rest, st, st2, h => by
    simp only [loadLoop] at h
    split at h
    · simp at h
    · rename_i st1 h1
      obtain ⟨a1, a2, a3⟩ := loadLine_pools H files garbage filename st st1 line h1
      obtain ⟨b1, b2, b3⟩ := loadLoop_pools H files garbage filename rest st1 st2 h
      rw [b1, b2, b3, a1, a2, a3]
      simp only [List.append_assoc, filterMap_cons_toList, and_self]

theorem splitLines_head : ∀ (text cur : Str),
    ∃ l ls, splitLines text cur = l :: ls ∧ cur.length ≤ l.length
  | [], cur => ⟨cur, [], rfl, le_refl _⟩
  | c :: cs, cur => by
    by_cases hc : c = '\n'
    · exact ⟨cur, splitLines cs [], by simp [splitLines, hc], le_refl _⟩
    · obtain ⟨l, ls, e, hl⟩ := splitLines_head cs (cur ++ [c])
      refine ⟨l, ls, by simp [splitLines, hc, e], ?_⟩
      simp only [List.length_append, List.length_singleton] at hl
      omega

/-- When no line reaches `maxline` characters `getline` hands the lines of the text to the loop
one after the other, followed at most by one empty line. -/
theorem getlines_short (maxline : Nat) : ∀ (text cur : Str),
    (∀ line ∈ splitLines text cur, line.length < maxline) →
    ∃ extra, (extra = [] ∨ extra = [[]]) ∧ getlines maxline text cur = splitLines text cur ++ extra
  | [], cur, _ => by
    by_cases hc : cur = []
    · exact ⟨[], Or.inl rfl, by simp [getlines, splitLines, hc]⟩
    · exact ⟨[[]], Or.inr rfl, by simp [getlines, splitLines, hc]⟩
  | c :: cs, cur, h => by
    by_cases hc : c = '\n'
    · have h2 : ∀ line ∈ splitLines cs [], line.length < maxline := by
        intro line hl
        apply h
        simp [splitLines, hc, hl]
      obtain ⟨extra, he, e⟩ := getlines_short maxline cs [] h2
      exact ⟨extra, he, by simp [getlines, splitLines, hc, e]⟩
    · have h2 : ∀ line ∈ splitLines cs (cur ++ [c]), line.length < maxline := by
        intro line hl
        apply h
        simp [splitLines, hc, hl]
      obtain ⟨l, ls, el, hl⟩ := splitLines_head cs (cur ++ [c])
      have hlen : l.length < maxline := h2 l (by rw [el]; exact List.mem_cons_self _ _)
      simp only [List.length_append, List.length_singleton] at hl
      have hne : ¬ cur.length + 1 = maxline := by omega
      obtain ⟨extra, he, e⟩ := getlines_short maxline cs (cur ++ [c]) h2
      exact ⟨extra, he, by simp [getlines, splitLines, hc, hne, e]⟩

theorem lineTriple_nil {S : Type} (H : Host S) (key : Str) : lineTriple H key [] = none := rfl

theorem linePair_nil {S : Type} (H : Host S) (key : Str) : linePair H key [] = none := rfl

theorem filterMap_extra {α : Type} (f : Str → Option α) (hf : f [] = none) (lines extra : List Str)
    (he : extra = [] ∨ extra = [[]]) : (lines ++ extra).filterMap f = lines.filterMap f := by
  rcases he with rfl | rfl
  · simp
  · simp [List.filterMap_append, hf]

theorem getlines_blanks (maxline : Nat) (rest : Str) : ∀ (k : Nat) (cur : Str),
    cur.length + k + 1 = maxline →
    getlines maxline (List.replicate (k + 1) ' ' ++ rest) cur = [cur ++ List.replicate k ' ']
  | 0, cur, h => by
    have hn : ¬ (' ' = '\n') := by decide
    simp [getlines, List.replicate, hn, h]
  | k + 1, cur, h => by
    have hn : ¬ (' ' = '\n') := by decide
    have hne : ¬ cur.length + 1 = maxline := by omega
    have ih := getlines_blanks maxline rest k (cur ++ [' '])
      (by simp only [List.length_append, List.length_singleton]; omega)
    rw [List.replicate_succ, List.cons_append, getlines, if_neg hn, if_neg hne, ih]
    simp [List.replicate_succ]

theorem splitLines_blanks (rest : Str) : ∀ (k : Nat) (cur : Str),
    splitLines (List.replicate k ' ' ++ '\n' :: rest) cur
      = (cur ++ List.replicate k ' ') :: splitLines rest []
  | 0, cur => by simp [splitLines]
  | k + 1, cur => by
    have hn : ¬ (' ' = '\n') := by decide
    rw [List.replicate_succ, List.cons_append, splitLines, if_neg hn, splitLines_blanks rest k]
    simp [List.replicate_succ]

theorem extract_comment_blanks (k : Nat) :
    extract (cstr ('#' :: List.replicate k ' ')) = some (['#'], List.replicate k ' ') := by
  have hc : cstr ('#' :: List.replicate k ' ') = '#' :: List.replicate k ' ' := by
    apply cstr_eq_self
    intro c hc
    rcases List.mem_cons.1 hc with rfl | hc
    · decide
    · rw [(List.mem_replicate.1 hc).2]
      decide
  have h1 : isspace '#' = false := by decide
  rw [hc]
  cases k with
  | zero => simp [extract, List.dropWhile, List.takeWhile, h1]
  | succ k =>
    have h2 : isspace ' ' = true := by decide
    simp [extract, List.dropWhile, List.takeWhile, h1, h2, List.replicate_succ]

theorem loadLine_not_directive {S : Type} (H : Host S) (files : Files) (garbage : Garbage S)
    (filename : Str) (st : LoadState S) (line t rest : Str)
    (hx : extract (cstr line) = some (t, rest)) (ht : t ∉ DIRECTIVES) :
    loadLine H files garbage filename st line =
      Except.ok { st with
        line_num := uadd1 st.line_num
        type_of_line := t
        iteration := st.iteration + 1 } := by
  obtain ⟨h1, h2, h3, h4, h5, h6, h7, h8⟩ := not_directive t ht
  simp only [loadLine, hx, h1, h2, h3, h4, h5, h6, h7, h8, if_false, or_self, ite_self]

theorem load_long_line (garbage : Garbage Fixed) (k : Nat) (rest : Str) (hk : k + 2 = 1000) :
    load fixedHost (oneFile "a.obj".toList ('#' :: (List.replicate (k + 1) ' ' ++ rest))) garbage
      "a.obj".toList (SurfaceMesh.empty Fixed) = Except.ok (SurfaceMesh.empty Fixed) := by
  have hd : ['#'] ∉ DIRECTIVES := by decide
  have hs : checkSuffix "a.obj".toList = Except.ok 1 := by decide
  have hf : oneFile "a.obj".toList ('#' :: (List.replicate (k + 1) ' ' ++ rest)) "a.obj".toList
      = some ('#' :: (List.replicate (k + 1) ' ' ++ rest)) := by
    simp only [oneFile, if_true]
  have hg : objLines ('#' :: (List.replicate (k + 1) ' ' ++ rest))
      = ['#' :: List.replicate k ' '] := by
    have hn : ¬ ('#' = '\n') := by decide
    have h0 : ¬ (([] : Str).length + 1 = 1000) := by decide
    have hb := getlines_blanks 1000 rest k ['#']
      (by simp only [List.length_singleton]; omega)
    rw [objLines, getlines, if_neg hn, if_neg h0, List.nil_append, hb]
    rfl
  have hl := loadLine_not_directive fixedHost
    (oneFile "a.obj".toList ('#' :: (List.replicate (k + 1) ' ' ++ rest))) garbage
    "a.obj".toList (initialState (SurfaceMesh.empty Fixed)) _ _ _ (extract_comment_blanks k) hd
  rw [load, hs]
  simp only [hf, hg, loadLoop, hl]
  rfl

theorem poolTriples_long_line (k : Nat) :
    poolTriples fixedHost "v".toList ('#' :: (List.replicate k ' ' ++ "\nv 1 2 3\n".toList))
      = [(1000000, 2000000, 3000000)] := by
  have hsplit : splitLines ('#' :: (List.replicate k ' ' ++ "\nv 1 2 3\n".toList)) []
      = ['#' :: List.replicate k ' ', "v 1 2 3".toList, []] := by
    have hn : ¬ ('#' = '\n') := by decide
    have hb := splitLines_blanks "v 1 2 3\n".toList k ['#']
    have ht : splitLines "v 1 2 3\n".toList [] = ["v 1 2 3".toList, []] := by decide
    rw [ht] at hb
    rw [splitLines, if_neg hn, List.nil_append]
    exact hb
  have h1 : lineTriple fixedHost "v".toList ('#' :: List.replicate k ' ') = none :=
    lineTriple_none_of_ne fixedHost _ _ _ _ (extract_comment_blanks k) (by decide)
  have h2 : lineTriple fixedHost "v".toList "v 1 2 3".toList
      = some (1000000, 2000000, 3000000) := by decide
  have h3 : lineTriple fixedHost "v".toList [] = none := rfl
  rw [poolTriples, hsplit]
  simp only [List.filterMap_cons, h1, h2, h3, List.filterMap_nil]

/-- C11, as claimed. The first line of `longLineText`, a comment sign and 999 blanks, does not
fit the line buffer of `load`, which holds 1000 characters: the loop runs on its first 999
characters and ends, here without fatal error. The `v` line that follows is not read, so the
position pool stays empty where the file has the triple `(1, 2, 3)`. -/
theorem long_line_ends_the_loop :
    (∀ garbage : Garbage Fixed,
        load fixedHost (oneFile "a.obj".toList longLineText) garbage "a.obj".toList
          (SurfaceMesh.empty Fixed) = Except.ok (SurfaceMesh.empty Fixed))
      ∧ poolTriples fixedHost "v".toList longLineText = [(1000000, 2000000, 3000000)] :=
  ⟨fun garbage => load_long_line garbage 998 "\nv 1 2 3\n".toList rfl,
    poolTriples_long_line 999⟩

/-- C11, amended. For a file whose lines are all shorter than 1000 characters and that `load`
processes into an empty mesh without error, the position pool is the list of the triples of the
lines whose first token is `v`, in file order, the normal pool that of the `vn` lines and the
texture-coordinate pool the list of the pairs of the `vt` lines; every line of the file counts
once, the last one with or without a line break after it, whatever the unwritten token buffer
reads as. -/
theorem pool_order {S : Type} (H : Host S) (files : Files) (garbage : Garbage S)
    (filename text : Str) (mesh : SurfaceMesh S) (hfile : files filename = some text)
    (hshort : ShortLines 1000 text)
    (h : load H files garbage filename (SurfaceMesh.empty S) = Except.ok mesh) :
    mesh.positions = poolTriples H "v".toList text
      ∧ mesh.normals = poolTriples H "vn".toList text
      ∧ mesh.texture_coordinates = poolPairs H "vt".toList text := by
  unfold load at h
  split at h
  · simp at h
  · rw [hfile] at h
    simp only at h
    split at h
    · simp at h
    · rename_i st hl
      simp only [Except.ok.injEq] at h
      subst h
      obtain ⟨extra, he, e⟩ := getlines_short 1000 text [] hshort
      obtain ⟨a1, a2, a3⟩ := loadLoop_pools H files garbage filename _ _ st hl
      rw [objLines, e] at a1 a2 a3
      rw [filterMap_extra _ (lineTriple_nil H _) _ _ he] at a1 a2
      rw [filterMap_extra _ (linePair_nil H _) _ _ he] at a3
      simp only [initialState, SurfaceMesh.empty, List.nil_append] at a1 a2 a3
      exact ⟨a1, a2, a3⟩

/-- C11, instance: a file with two `v` lines, a `vn` line, a comment and a `vt` line, whose
last line has no line break after it. -/
theorem pool_order_witness :
    load fixedHost (oneFile "a.obj".toList poolText.toList) blankGarbage "a.obj".toList
        (SurfaceMesh.empty Fixed) = Except.ok poolMesh
      ∧ ShortLines 1000 poolText.toList
      ∧ poolMesh.positions = poolTriples fixedHost "v".toList poolText.toList
      ∧ poolMesh.normals = poolTriples fixedHost "vn".toList poolText.toList
      ∧ poolMesh.texture_coordinates = poolPairs fixedHost "vt".toList poolText.toList
      ∧ poolTriples fixedHost "v".toList poolText.toList
          = [(1000000, 2000000, 3000000), (4000000, 5000000, 6000000)] :=
  have h := pool_order fixedHost (oneFile "a.obj".toList poolText.toList) blankGarbage
    "a.obj".toList poolText.toList poolMesh (by decide) (by unfold ShortLines; decide) (by decide)
  ⟨by decide, by unfold ShortLines; decide, h.1, h.2.1, h.2.2, by decide⟩

/-! ## C14: one material per `newmtl` -/

theorem putMaterial_lines {S : Type} (H : Host S) (m : Material S) :
    putMaterial H m = ((materialLines H m).map (fun l => l ++ ['\n'])).flatten := by
  cases ht : m.hasTexture <;>
    simp [putMaterial, putColour, materialLines, joinLine, Host.writtenShininess, ht]

theorem splitLines_line (rest : Str) : ∀ (l cur : Str), '\n' ∉ l →
    splitLines (l ++ '\n' :: rest) cur = (cur ++ l) :: splitLines rest []
  | [], cur, _ => by simp [splitLines]
  | c :: cs, cur, h => by
    have hc : ¬ c = '\n' := fun e => h (by simp [e])
    have hcs : '\n' ∉ cs := fun e => h (List.mem_cons_of_mem _ e)
    rw [List.cons_append, splitLines, if_neg hc, splitLines_line rest cs _ hcs]
    simp

theorem splitLines_lines (rest : Str) : ∀ (ls : List Str), (∀ l ∈ ls, '\n' ∉ l) →
    splitLines ((ls.map (fun l => l ++ ['\n'])).flatten ++ rest) [] = ls ++ splitLines rest []
  | [], _ => by simp
  | l :: ls, h => by
    have h1 : '\n' ∉ l := h l (List.mem_cons_self _ _)
    have h2 : ∀ x ∈ ls, '\n' ∉ x := fun x hx => h x (List.mem_cons_of_mem _ hx)
    have e : ((l :: ls).map (fun l => l ++ ['\n'])).flatten ++ rest
        = l ++ '\n' :: ((ls.map (fun l => l ++ ['\n'])).flatten ++ rest) := by simp
    rw [e, splitLines_line _ l [] h1, splitLines_lines rest ls h2]
    simp

theorem token_plain {s : Str} (h : Token s) : ∀ c ∈ s, c ≠ '\n' ∧ c ≠ Char.ofNat 0 := by
  intro c hc
  obtain ⟨h1, h2⟩ := h.2 c hc
  refine ⟨?_, h2⟩
  intro e
  rw [e] at h1
  exact absurd h1 (by decide)

theorem fields_tail_head (fields : List Str) :
    ∀ c, ((fields.map (fun f => ' ' :: f)).flatten).head? = some c → isspace c = true := by
  intro c hc
  cases fields with
  | nil => simp at hc
  | cons f fs =>
    simp only [List.map_cons, List.flatten_cons, List.cons_append, List.head?_cons,
      Option.some.injEq] at hc
    rw [← hc]
    decide

theorem joinLine_plain (key : Str) (fields : List Str)
    (hkey : ∀ c ∈ key, c ≠ '\n' ∧ c ≠ Char.ofNat 0) (hf : Fields fields) :
    ∀ c ∈ joinLine key fields, c ≠ '\n' ∧ c ≠ Char.ofNat 0 := by
  intro c hc
  simp only [joinLine, List.mem_append, List.mem_flatten, List.mem_map] at hc
  rcases hc with hc | ⟨l, ⟨f, hfm, rfl⟩, hc⟩
  · exact hkey c hc
  · rcases List.mem_cons.1 hc with rfl | hc
    · exact ⟨by decide, by decide⟩
    · exact token_plain (hf f hfm) c hc

theorem extract_token (tok rest : Str) (h : Token tok)
    (hrest : ∀ c, rest.head? = some c → isspace c = true) :
    extract (tok ++ rest) = some (tok, rest) := by
  obtain ⟨hne, hall⟩ := h
  have htake : ∀ (t : Str), (∀ c ∈ t, isspace c = false) →
      (t ++ rest).takeWhile (fun x => !isspace x) = t
        ∧ (t ++ rest).dropWhile (fun x => !isspace x) = rest := by
    intro t
    induction t with
    | nil =>
      intro _
      cases rest with
      | nil => simp
      | cons r rs =>
        have hr : isspace r = true := hrest r rfl
        simp [List.takeWhile, List.dropWhile, hr]
    | cons x xs ih =>
      intro hx
      have hx1 : isspace x = false := hx x (List.mem_cons_self _ _)
      obtain ⟨i1, i2⟩ := ih (fun c hc => hx c (List.mem_cons_of_mem _ hc))
      simp [List.takeWhile, List.dropWhile, hx1, i1, i2]
  cases tok with
  | nil => exact absurd rfl hne
  | cons x xs =>
    have hx1 : isspace x = false := (hall x (List.mem_cons_self _ _)).1
    obtain ⟨i1, i2⟩ := htake (x :: xs) (fun c hc => (hall c hc).1)
    have hd : ((x :: xs) ++ rest).dropWhile isspace = (x :: xs) ++ rest := by
      simp [List.dropWhile, hx1]
    unfold extract
    rw [hd]
    simp only [List.cons_append] at i1 i2 ⊢
    rw [i1, i2]

theorem extract_blank (s : Str) : extract (' ' :: s) = extract s := by
  have h : isspace ' ' = true := by decide
  simp [extract, List.dropWhile, h]

/-- The first extraction from a line written as a key and fields. -/
theorem token_joinLine (key : Str) (fields : List Str) (hkey : Token key) (hf : Fields fields) :
    (Stream.ofLine (joinLine key fields)).token
      = (some key, { buf := (fields.map (fun f => ' ' :: f)).flatten, fail := false }) := by
  have hc : cstr (joinLine key fields) = joinLine key fields :=
    cstr_eq_self _ (fun c hc => (joinLine_plain key fields (token_plain hkey) hf c hc).2)
  rw [Stream.ofLine, hc]
  simp only [Stream.token, joinLine, extract_token key _ hkey (fields_tail_head fields)]
  simp

/-- The extraction of a token from the fields left on a line. -/
theorem token_field (f : Str) (fields : List Str) (hf : Token f) :
    Stream.token { buf := (((f :: fields).map (fun f => ' ' :: f)).flatten), fail := false }
      = (some f, { buf := (fields.map (fun f => ' ' :: f)).flatten, fail := false }) := by
  simp only [Stream.token, List.map_cons, List.flatten_cons, List.cons_append, extract_blank,
    extract_token f _ hf (fields_tail_head fields)]
  simp

theorem token_end : Stream.token { buf := [], fail := false } = (none, { buf := [], fail := true }) := by
  simp [Stream.token, extract]

theorem scalar_of_dropWhile {S : Type} (H : Host S) (buf : Str) (c : Char) (cs : Str) (x : S)
    (r : Str) (hd : buf.dropWhile isspace = c :: cs) (hg : H.get (c :: cs) = some (x, r)) :
    Stream.scalar H { buf := buf, fail := false }
      = (ScalarRead.value x, { buf := r, fail := false }) := by
  unfold Stream.scalar
  simp only [Bool.false_eq_true, if_false]
  rw [hd]
  simp only
  rw [hg]

/-- The extraction of a scalar from the fields left on a line. -/
theorem scalar_field {S : Type} (H : Host S) (x : S) (fields : List Str) (hx : H.Exact x) :
    Stream.scalar H { buf := (((H.put x :: fields).map (fun f => ' ' :: f)).flatten), fail := false }
      = (ScalarRead.value x, { buf := (fields.map (fun f => ' ' :: f)).flatten, fail := false }) := by
  obtain ⟨⟨hne, hall⟩, hget⟩ := hx
  have hsp : isspace ' ' = true := by decide
  cases hp : H.put x with
  | nil => exact absurd hp hne
  | cons c cs =>
    have hc : isspace c = false := (hall c (by rw [hp]; exact List.mem_cons_self _ _)).1
    have hg := hget _ (fields_tail_head fields)
    rw [hp] at hg
    simp only [List.cons_append] at hg
    refine scalar_of_dropWhile H _ c (cs ++ (fields.map (fun f => ' ' :: f)).flatten) x _ ?_ hg
    simp [List.dropWhile, hsp, hc]

theorem fields_one {f : Str} (h : Token f) : Fields [f] := by
  intro x hx
  rw [List.mem_singleton.1 hx]
  exact h

theorem fields_three {a b c : Str} (ha : Token a) (hb : Token b) (hc : Token c) :
    Fields [a, b, c] := by
  intro x hx
  simp only [List.mem_cons, List.mem_singleton, List.not_mem_nil, or_false] at hx
  rcases hx with rfl | rfl | rfl
  · exact ha
  · exact hb
  · exact hc

theorem readK_fields {S : Type} (H : Host S) (a b c : S) (message : String) (ha : H.Exact a)
    (hb : H.Exact b) (hc : H.Exact c) :
    readK H (Stream.mk (([H.put a, H.put b, H.put c].map (fun f => ' ' :: f)).flatten) false)
        message
      = Except.ok (some ((a, b, c), Stream.mk [] false)) := by
  have h1 := scalar_field H a [H.put b, H.put c] ha
  have h2 := scalar_field H b [H.put c] hb
  have h3 := scalar_field H c [] hc
  unfold readK
  rw [h1]
  simp only
  rw [h2]
  simp only
  rw [h3]
  simp

theorem caseM_end {S : Type} (filename : Str) (st : MtlState S) (fail : Bool) :
    caseM filename st { buf := [], fail := fail } = st := by
  cases fail <;> simp [caseM, Stream.token, extract]

theorem loadMaterialsLine_joinLine {S : Type} (H : Host S) (garbage : Garbage S)
    (filename : Str) (st : MtlState S) (key : Str) (fields : List Str) (hkey : Token key)
    (hf : Fields fields) :
    loadMaterialsLine H garbage filename st (joinLine key fields)
      = match dispatchMaterial H garbage filename { st with type_of_line := key }
          (Stream.mk ((fields.map (fun f => ' ' :: f)).flatten) false) with
        | Except.error e => Except.error e
        | Except.ok st2 => Except.ok { st2 with iteration := st2.iteration + 1 } := by
  unfold loadMaterialsLine
  rw [token_joinLine key fields hkey hf]
  rfl

/-- A line `newmtl name` commits the material accumulated, if any, and starts a new one. -/
theorem line_newmtl {S : Type} (H : Host S) (garbage : Garbage S) (filename : Str)
    (st : MtlState S) (name : Str) (hname : Token name) :
    ∃ st2, loadMaterialsLine H garbage filename st (joinLine "newmtl".toList [name])
        = Except.ok st2
      ∧ st2.mesh = (if 0 < st.num_mtl then st.mesh.addMaterial st.material_example else st.mesh)
      ∧ st2.num_mtl = uadd1 st.num_mtl
      ∧ st2.material_example =
          { name := name
            Ka := (H.lit 1 1, H.lit 1 1, H.lit 1 1)
            Kd := (H.lit 5 1, H.lit 5 1, H.lit 5 1)
            Ks := (H.lit 0 1, H.lit 0 1, H.lit 0 1)
            shininess := H.lit 65 0
            alpha := H.lit 1 0
            texture_file_name := [] } := by
  have hk : Token "newmtl".toList := ⟨by decide, by decide⟩
  have hn := token_field name [] hname
  have e1 : ("newmtl".toList).headD (Char.ofNat 0) = 'n' := by decide
  have e2 : ¬ ('n' = '#') := by decide
  rw [loadMaterialsLine_joinLine H garbage filename st _ _ hk (fields_one hname)]
  simp only [dispatchMaterial, e1, e2, if_false, if_true]
  refine ⟨_, rfl, rfl, rfl, ?_⟩
  simp only [caseN]
  rw [hn]
  simp

/-- A colour line sets the colour of its key and nothing else. -/
theorem line_colour {S : Type} (H : Host S) (garbage : Garbage S) (filename : Str)
    (st : MtlState S) (a b c : S) (ha : H.Exact a) (hb : H.Exact b) (hc : H.Exact c) :
    (∃ st2, loadMaterialsLine H garbage filename st
          (joinLine "Ka".toList [H.put a, H.put b, H.put c]) = Except.ok st2
        ∧ st2.mesh = st.mesh ∧ st2.num_mtl = st.num_mtl
        ∧ st2.material_example = { st.material_example with Ka := (a, b, c) })
      ∧ (∃ st2, loadMaterialsLine H garbage filename st
          (joinLine "Kd".toList [H.put a, H.put b, H.put c]) = Except.ok st2
        ∧ st2.mesh = st.mesh ∧ st2.num_mtl = st.num_mtl
        ∧ st2.material_example = { st.material_example with Kd := (a, b, c) })
      ∧ (∃ st2, loadMaterialsLine H garbage filename st
          (joinLine "Ks".toList [H.put a, H.put b, H.put c]) = Except.ok st2
        ∧ st2.mesh = st.mesh ∧ st2.num_mtl = st.num_mtl
        ∧ st2.material_example = { st.material_example with Ks := (a, b, c) }) := by
  have hf := fields_three ha.1 hb.1 hc.1
  have e2 : ¬ ('K' = '#') := by decide
  have e3 : ¬ ('K' = 'n') := by decide
  have e4 : ¬ ('K' = 'N') := by decide
  have e6 : ¬ ('a' = 'd') := by decide
  have e7 : ¬ ('a' = 's') := by decide
  have e8 : ¬ ('s' = 'd') := by decide
  have hr := fun message => readK_fields H a b c message ha hb hc
  refine ⟨?_, ?_, ?_⟩
  · have hk : Token "Ka".toList := ⟨by decide, by decide⟩
    have e1 : ("Ka".toList).headD (Char.ofNat 0) = 'K' := by decide
    have e5 : (("Ka".toList).drop 1).headD (Char.ofNat 0) = 'a' := by decide
    rw [loadMaterialsLine_joinLine H garbage filename st _ _ hk hf]
    simp only [dispatchMaterial, e1, e2, e3, e4, e5, if_false, if_true, caseK, e6, e7, hr,
      caseM_end]
    exact ⟨_, rfl, rfl, rfl, rfl⟩
  · have hk : Token "Kd".toList := ⟨by decide, by decide⟩
    have e1 : ("Kd".toList).headD (Char.ofNat 0) = 'K' := by decide
    have e5 : (("Kd".toList).drop 1).headD (Char.ofNat 0) = 'd' := by decide
    rw [loadMaterialsLine_joinLine H garbage filename st _ _ hk hf]
    simp only [dispatchMaterial, e1, e2, e3, e4, e5, if_false, if_true, caseK, hr, caseM_end]
    exact ⟨_, rfl, rfl, rfl, rfl⟩
  · have hk : Token "Ks".toList := ⟨by decide, by decide⟩
    have e1 : ("Ks".toList).headD (Char.ofNat 0) = 'K' := by decide
    have e5 : (("Ks".toList).drop 1).headD (Char.ofNat 0) = 's' := by decide
    rw [loadMaterialsLine_joinLine H garbage filename st _ _ hk hf]
    simp only [dispatchMaterial, e1, e2, e3, e4, e5, if_false, if_true, caseK, e8, hr,
      caseM_end]
    exact ⟨_, rfl, rfl, rfl, rfl⟩

/-- A line `Ns x` sets the shininess to `x` scaled by `128/1000`. -/
theorem line_Ns {S : Type} (H : Host S) (garbage : Garbage S) (filename : Str)
    (st : MtlState S) (x : S) (hx : H.Exact x) :
    ∃ st2, loadMaterialsLine H garbage filename st (joinLine "Ns".toList [H.put x])
        = Except.ok st2
      ∧ st2.mesh = st.mesh ∧ st2.num_mtl = st.num_mtl
      ∧ st2.material_example =
          { st.material_example with
            shininess := H.mul x (H.div (H.lit 1280 1) (H.lit 10000 1)) } := by
  have hk : Token "Ns".toList := ⟨by decide, by decide⟩
  have e1 : ("Ns".toList).headD (Char.ofNat 0) = 'N' := by decide
  have e2 : ¬ ('N' = '#') := by decide
  have e3 : ¬ ('N' = 'n') := by decide
  have e5 : (("Ns".toList).drop 1).headD (Char.ofNat 0) = 's' := by decide
  have hs := scalar_field H x [] hx
  rw [loadMaterialsLine_joinLine H garbage filename st _ _ hk (fields_one hx.1)]
  simp only [dispatchMaterial, e1, e2, e3, e5, if_false, if_true, caseNs]
  rw [hs]
  exact ⟨_, rfl, rfl, rfl, rfl⟩

theorem headD_ne_of_head {s : Str} {c : Char} (h : s.head? ≠ some c) (hc : c ≠ Char.ofNat 0) :
    ¬ s.headD (Char.ofNat 0) = c := by
  cases s with
  | nil => exact fun e => hc e.symm
  | cons x xs =>
    intro e
    apply h
    simp only [List.headD_cons] at e
    simp [e]

theorem scalar_whole {S : Type} (H : Host S) (x : S) (hx : H.Exact x) :
    Stream.scalar H (Stream.mk ([] ++ H.put x) false)
      = (ScalarRead.value x, Stream.mk [] false) := by
  obtain ⟨⟨hne, hall⟩, hget⟩ := hx
  cases hp : H.put x with
  | nil => exact absurd hp hne
  | cons c cs =>
    have hc : isspace c = false := (hall c (by rw [hp]; exact List.mem_cons_self _ _)).1
    have hg := hget [] (by simp)
    rw [hp, List.append_nil] at hg
    refine scalar_of_dropWhile H _ c cs x [] ?_ hg
    simp [List.dropWhile, hc]

/-- A line `d alpha` sets `alpha` when the text of `alpha` does not start with a minus sign;
the buffer `next` keeps that text. -/
theorem line_d {S : Type} (H : Host S) (garbage : Garbage S) (filename : Str)
    (st : MtlState S) (x : S) (hx : H.Exact x) (hminus : (H.put x).head? ≠ some '-') :
    ∃ st2, loadMaterialsLine H garbage filename st (joinLine "d".toList [H.put x])
        = Except.ok st2
      ∧ st2.mesh = st.mesh ∧ st2.num_mtl = st.num_mtl
      ∧ st2.material_example = { st.material_example with alpha := x }
      ∧ st2.type_of_line = "d".toList ∧ st2.next = H.put x := by
  have hk : Token "d".toList := ⟨by decide, by decide⟩
  have e1 : ("d".toList).headD (Char.ofNat 0) = 'd' := by decide
  have e2 : ¬ ('d' = '#') := by decide
  have e3 : ¬ ('d' = 'n') := by decide
  have e4 : ¬ ('d' = 'N') := by decide
  have e5 : ¬ ('d' = 'K') := by decide
  have e6 : ¬ ('d' = 'm') := by decide
  have ht := token_field (H.put x) [] hx.1
  have hh := headD_ne_of_head hminus (by decide)
  have hs := scalar_whole H x hx
  rw [loadMaterialsLine_joinLine H garbage filename st _ _ hk (fields_one hx.1)]
  simp only [dispatchMaterial, e1, e2, e3, e4, e5, e6, if_false, if_true]
  refine ⟨_, rfl, rfl, rfl, ?_, rfl, ?_⟩
  · simp only [caseD]
    rw [ht]
    simp only [Option.getD_some, hh, if_false, List.map_nil, List.flatten_nil]
    rw [hs]
  · simp only [caseD]
    rw [ht]
    simp

/-- A line `map_Kd base` sets the texture file name to `base` in the directory of the material
file. -/
theorem line_map {S : Type} (H : Host S) (garbage : Garbage S) (filename : Str)
    (st : MtlState S) (base : Str) (hbase : Token base) :
    ∃ st2, loadMaterialsLine H garbage filename st (joinLine "map_Kd".toList [base])
        = Except.ok st2
      ∧ st2.mesh = st.mesh ∧ st2.num_mtl = st.num_mtl
      ∧ st2.material_example =
          { st.material_example with texture_file_name := dirName filename ++ ['/'] ++ base }
      ∧ st2.type_of_line = "map_Kd".toList := by
  have hk : Token "map_Kd".toList := ⟨by decide, by decide⟩
  have e1 : ("map_Kd".toList).headD (Char.ofNat 0) = 'm' := by decide
  have e2 : ¬ ('m' = '#') := by decide
  have e3 : ¬ ('m' = 'n') := by decide
  have e4 : ¬ ('m' = 'N') := by decide
  have e5 : ¬ ('m' = 'K') := by decide
  have ht := token_field base [] hbase
  have hl : base.length ≠ 0 := fun e => hbase.1 (List.length_eq_zero.1 e)
  rw [loadMaterialsLine_joinLine H garbage filename st _ _ hk (fields_one hbase)]
  simp only [dispatchMaterial, e1, e2, e3, e4, e5, if_false, if_true]
  have hm : caseM filename { st with type_of_line := "map_Kd".toList }
      (Stream.mk (([base].map (fun f => ' ' :: f)).flatten) false)
      = { st with
          type_of_line := "map_Kd".toList
          material_example :=
            { st.material_example with
              texture_file_name := dirName filename ++ ['/'] ++ base } } := by
    unfold caseM
    rw [ht]
    simp only [Option.getD_some, ne_eq, hl, not_false_eq_true, if_true]
  rw [hm]
  exact ⟨_, rfl, rfl, rfl, rfl, rfl⟩

theorem dispatch_inert {S : Type} (H : Host S) (garbage : Garbage S) (filename : Str)
    (st1 : MtlState S) (stream : Stream) (h : Inert st1.type_of_line) :
    dispatchMaterial H garbage filename st1 stream = Except.ok st1 := by
  obtain ⟨h1, h2, h3, h4, h5⟩ := h
  simp only [dispatchMaterial, h1, h2, h3, h4, h5, if_false, ite_self]

theorem dispatch_map_end {S : Type} (H : Host S) (garbage : Garbage S) (filename : Str)
    (st1 : MtlState S) (h : st1.type_of_line.headD (Char.ofNat 0) = 'm') :
    dispatchMaterial H garbage filename st1 (Stream.mk [] true) = Except.ok st1 := by
  have e2 : ¬ ('m' = '#') := by decide
  have e3 : ¬ ('m' = 'n') := by decide
  have e4 : ¬ ('m' = 'N') := by decide
  have e5 : ¬ ('m' = 'K') := by decide
  simp only [dispatchMaterial, h, e2, e3, e4, e5, if_false, if_true, caseM_end]

theorem dispatch_d_end {S : Type} (H : Host S) (garbage : Garbage S) (filename : Str)
    (st1 : MtlState S) (h : st1.type_of_line.headD (Char.ofNat 0) = 'd')
    (hnext : garbage.next st1.iteration st1.next = H.put st1.material_example.alpha)
    (hx : H.Exact st1.material_example.alpha)
    (hminus : (H.put st1.material_example.alpha).head? ≠ some '-') :
    ∃ st2, dispatchMaterial H garbage filename st1 (Stream.mk [] true) = Except.ok st2
      ∧ st2.mesh = st1.mesh ∧ st2.num_mtl = st1.num_mtl
      ∧ st2.material_example = st1.material_example
      ∧ st2.type_of_line = st1.type_of_line
      ∧ st2.next = H.put st1.material_example.alpha := by
  have e2 : ¬ ('d' = '#') := by decide
  have e3 : ¬ ('d' = 'n') := by decide
  have e4 : ¬ ('d' = 'N') := by decide
  have e5 : ¬ ('d' = 'K') := by decide
  have e6 : ¬ ('d' = 'm') := by decide
  have hh := headD_ne_of_head hminus (by decide)
  have hs := scalar_whole H _ hx
  simp only [dispatchMaterial, h, e2, e3, e4, e5, e6, if_false, if_true]
  refine ⟨_, rfl, rfl, rfl, ?_, rfl, ?_⟩
  · simp only [caseD, Stream.token, if_true, Option.getD_none, hnext, hh, if_false]
    rw [hs]
  · simp only [caseD, Stream.token, if_true, Option.getD_none, hnext]

/-- An iteration on a line without token leaves the material being accumulated as it is, in a
settled state and with harmless buffers. -/
theorem line_empty {S : Type} (H : Host S) (garbage : Garbage S) (filename : Str)
    (st : MtlState S) (hs : Settled H st) (hg : garbage.Harmless) :
    ∃ st2, loadMaterialsLine H garbage filename st [] = Except.ok st2
      ∧ st2.mesh = st.mesh ∧ st2.num_mtl = st.num_mtl
      ∧ st2.material_example = st.material_example ∧ Settled H st2 := by
  have ht : (Stream.ofLine []).token = (none, Stream.mk [] true) := by
    simp [Stream.ofLine, Stream.token, cstr, extract]
  unfold loadMaterialsLine
  rw [ht]
  simp only [Option.getD_none]
  have inert : ∀ t : Str, Inert t →
      ∃ st2, (match dispatchMaterial H garbage filename { st with type_of_line := t }
            (Stream.mk [] true) with
          | Except.error e => Except.error e
          | Except.ok st2 => Except.ok { st2 with iteration := st2.iteration + 1 })
          = Except.ok st2
        ∧ st2.mesh = st.mesh ∧ st2.num_mtl = st.num_mtl
        ∧ st2.material_example = st.material_example ∧ Settled H st2 := by
    intro t hin
    rw [dispatch_inert H garbage filename { st with type_of_line := t } _ hin]
    exact ⟨_, rfl, rfl, rfl, rfl, Or.inl hin⟩
  rcases hg st.iteration st.type_of_line st.next with hin | ⟨hkeep, hnext⟩
  · exact inert _ hin
  · rw [hkeep]
    rcases hs with hin | hm | ⟨hd, hn, hx, hminus⟩
    · exact inert _ hin
    · rw [dispatch_map_end H garbage filename { st with type_of_line := st.type_of_line } hm]
      exact ⟨_, rfl, rfl, rfl, rfl, Or.inr (Or.inl hm)⟩
    · obtain ⟨st2, h1, h2, h3, h4, h5, h6⟩ := dispatch_d_end H garbage filename
        { st with type_of_line := st.type_of_line } hd (by rw [hnext]; exact hn) hx hminus
      rw [h1]
      refine ⟨_, rfl, h2, h3, h4, Or.inr (Or.inr ⟨?_, ?_, ?_, ?_⟩)⟩
      · simp only [h5]
        exact hd
      · simp only [h6, h4]
      · simp only [h4]
        exact hx
      · simp only [h4]
        exact hminus

theorem loadMaterialsLoop_empty {S : Type} (H : Host S) (garbage : Garbage S) (filename : Str)
    (hg : garbage.Harmless) : ∀ (lines : List Str) (st : MtlState S),
      (∀ l ∈ lines, l = []) → Settled H st →
      ∃ st2, loadMaterialsLoop H garbage filename lines st = Except.ok st2
        ∧ st2.mesh = st.mesh ∧ st2.num_mtl = st.num_mtl
        ∧ st2.material_example = st.material_example
  | [], st, _, _ => ⟨st, rfl, rfl, rfl, rfl⟩
  | l :: ls, st, hl, hs => by
    have e : l = [] := hl l (List.mem_cons_self _ _)
    subst e
    obtain ⟨st1, h1, h2, h3, h4, h5⟩ := line_empty H garbage filename st hs hg
    obtain ⟨st2, k1, k2, k3, k4⟩ := loadMaterialsLoop_empty H garbage filename hg ls st1
      (fun x hx => hl x (List.mem_cons_of_mem _ hx)) h5
    refine ⟨st2, ?_, k2.trans h2, k3.trans h3, k4.trans h4⟩
    simp only [loadMaterialsLoop, h1]
    exact k1

theorem loadMaterialsLoop_append {S : Type} (H : Host S) (garbage : Garbage S) (filename : Str) :
    ∀ (l1 l2 : List Str) (st st1 : MtlState S),
      loadMaterialsLoop H garbage filename l1 st = Except.ok st1 →
      loadMaterialsLoop H garbage filename (l1 ++ l2) st
        = loadMaterialsLoop H garbage filename l2 st1
  | [], l2, st, st1, h => by
    simp only [loadMaterialsLoop, Except.ok.injEq] at h
    subst h
    rfl
  | l :: ls, l2, st, st1, h => by
    simp only [loadMaterialsLoop, List.cons_append] at h ⊢
    split at h
    · simp at h
    · rename_i st0 h0
      exact loadMaterialsLoop_append H garbage filename ls l2 st0 st1 h

/-- The lines written for one material commit the material accumulated before, if any, and
leave the material read back in `material_example`. -/
theorem loadMaterialsLoop_block {S : Type} (H : Host S) (garbage : Garbage S) (filename : Str)
    (st : MtlState S) (m : Material S) (hm : H.RoundTrips m) :
    ∃ st2, loadMaterialsLoop H garbage filename (materialLines H m) st = Except.ok st2
      ∧ st2.mesh = (if 0 < st.num_mtl then st.mesh.addMaterial st.material_example else st.mesh)
      ∧ st2.num_mtl = uadd1 st.num_mtl
      ∧ st2.material_example = m.reloaded filename
      ∧ Settled H st2 := by
  obtain ⟨hname, ⟨ka1, ka2, ka3⟩, ⟨kd1, kd2, kd3⟩, ⟨ks1, ks2, ks3⟩, hns, hback, halpha, hminus,
    htex⟩ := hm
  obtain ⟨s1, r1, a1, b1, c1⟩ := line_newmtl H garbage filename st m.name hname
  obtain ⟨s2, r2, a2, b2, c2⟩ := (line_colour H garbage filename s1 _ _ _ ka1 ka2 ka3).1
  obtain ⟨s3, r3, a3, b3, c3⟩ := (line_colour H garbage filename s2 _ _ _ kd1 kd2 kd3).2.1
  obtain ⟨s4, r4, a4, b4, c4⟩ := (line_colour H garbage filename s3 _ _ _ ks1 ks2 ks3).2.2
  obtain ⟨s5, r5, a5, b5, c5⟩ := line_Ns H garbage filename s4 _ hns
  obtain ⟨s6, r6, a6, b6, c6, d6, e6⟩ := line_d H garbage filename s5 _ halpha hminus
  have hmesh : s6.mesh
      = (if 0 < st.num_mtl then st.mesh.addMaterial st.material_example else st.mesh) := by
    rw [a6, a5, a4, a3, a2, a1]
  have hnum : s6.num_mtl = uadd1 st.num_mtl := by rw [b6, b5, b4, b3, b2, b1]
  have hmat : s6.material_example = { m with texture_file_name := [] } := by
    rw [c6, c5, c4, c3, c2, c1, hback]
  cases ht : m.hasTexture with
  | false =>
    refine ⟨s6, ?_, hmesh, hnum, ?_, Or.inr (Or.inr ⟨?_, ?_, ?_, ?_⟩)⟩
    · simp only [materialLines, ht, Bool.false_eq_true, if_false, List.append_nil,
        loadMaterialsLoop, r1, r2, r3, r4, r5, r6]
    · rw [hmat]
      simp only [Material.reloaded, ht, Bool.false_eq_true, if_false]
    · rw [d6]
      decide
    · rw [e6, hmat]
    · rw [hmat]
      exact halpha
    · rw [hmat]
      exact hminus
  | true =>
    obtain ⟨s7, r7, a7, b7, c7, d7⟩ := line_map H garbage filename s6 _ (htex ht)
    refine ⟨s7, ?_, by rw [a7, hmesh], by rw [b7, hnum], ?_, Or.inr (Or.inl ?_)⟩
    · simp only [materialLines, ht, if_true, List.cons_append, List.nil_append,
        loadMaterialsLoop, r1, r2, r3, r4, r5, r6, r7]
    · rw [c7, hmat]
      simp only [Material.reloaded, ht, if_true]
    · rw [d7]
      decide

theorem loadMaterialsLoop_materials {S : Type} (H : Host S) (garbage : Garbage S)
    (filename : Str) : ∀ (ms : List (Material S)) (st : MtlState S),
      ms ≠ [] → (∀ m ∈ ms, H.RoundTrips m) → st.num_mtl + ms.length < UINT_RANGE →
      ∃ st2, loadMaterialsLoop H garbage filename (ms.flatMap (materialLines H)) st
          = Except.ok st2
        ∧ st2.mesh.addMaterial st2.material_example
          = { st.mesh with
              materials := st.mesh.materials
                ++ (if 0 < st.num_mtl then [st.material_example] else [])
                ++ ms.map (Material.reloaded filename) }
        ∧ Settled H st2
  | [], _, hne, _, _ => absurd rfl hne
  | [m], st, _, hm, _ => by
    obtain ⟨st2, r, a, _, c, d⟩ := loadMaterialsLoop_block H garbage filename st m
      (hm m (List.mem_cons_self _ _))
    refine ⟨st2, ?_, ?_, d⟩
    · simp only [List.flatMap_cons, List.flatMap_nil, List.append_nil]
      exact r
    · rw [a, c]
      by_cases hp : 0 < st.num_mtl
      · simp [hp, SurfaceMesh.addMaterial]
      · simp [hp, SurfaceMesh.addMaterial]
  | m :: m2 :: rest, st, _, hm, hlen => by
    obtain ⟨s1, r, a, b, c, _⟩ := loadMaterialsLoop_block H garbage filename st m
      (hm m (List.mem_cons_self _ _))
    simp only [List.length_cons] at hlen
    have hu : uadd1 st.num_mtl = st.num_mtl + 1 := by
      simp only [uadd1]
      exact Nat.mod_eq_of_lt (by omega)
    rw [hu] at b
    obtain ⟨st2, r2, a2, d2⟩ := loadMaterialsLoop_materials H garbage filename (m2 :: rest) s1
      (by simp) (fun x hx => hm x (List.mem_cons_of_mem _ hx))
      (by simp only [List.length_cons]; omega)
    refine ⟨st2, ?_, ?_, d2⟩
    · rw [List.flatMap_cons, loadMaterialsLoop_append H garbage filename _ _ st s1 r]
      exact r2
    · rw [a2, a, b, c]
      by_cases hp : 0 < st.num_mtl
      · simp [hp, SurfaceMesh.addMaterial]
      · simp [hp, SurfaceMesh.addMaterial]

theorem materialLines_plain {S : Type} (H : Host S) (m : Material S) (hm : H.RoundTrips m) :
    ∀ l ∈ materialLines H m, '\n' ∉ l := by
  obtain ⟨hname, ⟨ka1, ka2, ka3⟩, ⟨kd1, kd2, kd3⟩, ⟨ks1, ks2, ks3⟩, hns, -, halpha, -, htex⟩ := hm
  have key : ∀ (k : Str) (fields : List Str), (∀ c ∈ k, c ≠ '\n' ∧ c ≠ Char.ofNat 0) →
      Fields fields → '\n' ∉ joinLine k fields :=
    fun k fields hk hf hmem => (joinLine_plain k fields hk hf _ hmem).1 rfl
  intro l hl
  simp only [materialLines, List.mem_append, List.mem_cons, List.mem_singleton,
    List.not_mem_nil, or_false] at hl
  rcases hl with (rfl | rfl | rfl | rfl | rfl | rfl) | hl
  · exact key _ _ (by decide) (fields_one hname)
  · exact key _ _ (by decide) (fields_three ka1.1 ka2.1 ka3.1)
  · exact key _ _ (by decide) (fields_three kd1.1 kd2.1 kd3.1)
  · exact key _ _ (by decide) (fields_three ks1.1 ks2.1 ks3.1)
  · exact key _ _ (by decide) (fields_one hns.1)
  · exact key _ _ (by decide) (fields_one halpha.1)
  · cases ht : m.hasTexture with
    | false => simp [ht] at hl
    | true =>
      simp only [ht, if_true, List.mem_singleton] at hl
      rw [hl]
      exact key _ _ (by decide) (fields_one (htex ht))

theorem saveMaterials_lines {S : Type} (H : Host S) (mesh : SurfaceMesh S) :
    saveMaterials H mesh
      = (((mesh.materials.flatMap (materialLines H)).map (fun l => l ++ ['\n'])).flatten) := by
  unfold saveMaterials
  induction mesh.materials with
  | nil => rfl
  | cons m ms ih =>
    simp only [List.map_cons, List.flatten_cons, List.flatMap_cons, List.map_append,
      List.flatten_append, ih, putMaterial_lines]

theorem splitLines_saveMaterials {S : Type} (H : Host S) (mesh : SurfaceMesh S)
    (hm : ∀ m ∈ mesh.materials, H.RoundTrips m) :
    splitLines (saveMaterials H mesh) [] = mesh.materials.flatMap (materialLines H) ++ [[]] := by
  have h := splitLines_lines [] (mesh.materials.flatMap (materialLines H)) (by
    intro l hl
    obtain ⟨m, hmem, hl2⟩ := List.mem_flatMap.1 hl
    exact materialLines_plain H m (hm m hmem) l hl2)
  rw [List.append_nil] at h
  rw [saveMaterials_lines, h]
  rfl

theorem filenameInPath_no_slash (path : Str) : '/' ∉ filenameInPath path := by
  intro h
  simp only [filenameInPath, List.mem_reverse] at h
  have := List.mem_takeWhile_imp h
  simp at this

theorem filenameInPath_append (dir base : Str) (h : '/' ∉ base) :
    filenameInPath (dir ++ ['/'] ++ base) = base := by
  have hall : ∀ a ∈ base.reverse, (fun c : Char => c != '/') a = true := by
    intro a ha
    have hne : a ≠ '/' := fun e => h (by rw [← e]; exact List.mem_reverse.1 ha)
    simpa using hne
  simp only [filenameInPath, List.reverse_append, List.reverse_cons, List.reverse_nil,
    List.nil_append, List.append_assoc, List.singleton_append]
  rw [List.takeWhile_append_of_pos hall]
  simp [List.takeWhile]

theorem reloaded_fields {S : Type} (filename : Str) (m : Material S) :
    (m.reloaded filename).name = m.name ∧ (m.reloaded filename).Ka = m.Ka
      ∧ (m.reloaded filename).Kd = m.Kd ∧ (m.reloaded filename).Ks = m.Ks
      ∧ (m.reloaded filename).alpha = m.alpha ∧ (m.reloaded filename).shininess = m.shininess
      ∧ (m.reloaded filename).hasTexture = m.hasTexture
      ∧ (m.hasTexture = true →
          filenameInPath (m.reloaded filename).texture_file_name
            = filenameInPath m.texture_file_name) := by
  refine ⟨rfl, rfl, rfl, rfl, rfl, rfl, ?_, ?_⟩
  · cases ht : m.hasTexture with
    | false =>
      have e : (m.reloaded filename).texture_file_name = [] := by
        simp only [Material.reloaded, ht, Bool.false_eq_true, if_false]
      simp [Material.hasTexture, e]
    | true =>
      have e : (m.reloaded filename).texture_file_name
          = dirName filename ++ ['/'] ++ filenameInPath m.texture_file_name := by
        simp only [Material.reloaded, ht, if_true]
      simp [Material.hasTexture, e]
  · intro ht
    simp only [Material.reloaded, ht, if_true]
    exact filenameInPath_append _ _ (filenameInPath_no_slash _)

/-- The materials that `saveMaterials` writes are read back by `loadMaterials`, each as its
reloaded form, and appended to those of the mesh given. -/
theorem loadMaterials_saveMaterials {S : Type} (H : Host S) (files : Files) (garbage : Garbage S)
    (filename : Str) (mesh target : SurfaceMesh S) (hne : mesh.materials ≠ [])
    (hm : ∀ m ∈ mesh.materials, H.RoundTrips m)
    (hshort : ShortLines 1024 (saveMaterials H mesh))
    (hcount : mesh.materials.length < UINT_RANGE) (hg : garbage.Harmless)
    (hfile : files filename = some (saveMaterials H mesh)) :
    loadMaterials H files garbage filename target
        = Except.ok { target with
            materials := target.materials ++ mesh.materials.map (Material.reloaded filename) } := by
  obtain ⟨extra, he, hlines⟩ := getlines_short 1024 (saveMaterials H mesh) [] hshort
  rw [splitLines_saveMaterials H mesh hm, List.append_assoc] at hlines
  obtain ⟨st2, r2, a2, d2⟩ := loadMaterialsLoop_materials H garbage filename mesh.materials
    { mesh := target
      num_mtl := 0
      material_example := H.default_material
      type_of_line := []
      mtl_name := []
      next := []
      alpha := H.lit 0 0
      iteration := 0 } hne hm (by simpa using hcount)
  have htail : ∀ l ∈ [[]] ++ extra, l = ([] : Str) := by
    intro l hl
    rcases he with rfl | rfl
    · simpa using hl
    · simpa using hl
  obtain ⟨st3, r3, a3, _, c3⟩ := loadMaterialsLoop_empty H garbage filename hg _ st2 htail d2
  unfold loadMaterials
  rw [hfile]
  simp only
  rw [hlines, loadMaterialsLoop_append H garbage filename _ _ _ st2 r2, r3]
  simp only
  rw [a3, c3, a2]
  simp

/-- C13, amended. Take a non-empty list of fewer than 2^32 materials, each with a token as name
and as base name of its texture file, with scalars that the host writes in a form that reads
back, a shininess that scaling by 1000/128 and back by 128/1000 gives again, and an `alpha`
whose text does not start with a minus sign; let the lines that `saveMaterials` writes be
shorter than 1024 characters and the unwritten buffers harmless (on a line without token
`type_of_line` reads as no directive, or it and `next` read as the previous iteration left
them). Then `loadMaterials` reads
that text without error and appends as many materials in the same order, each with the same
name, `Ka`, `Kd`, `Ks`, `alpha` and shininess, without texture when the original has none and
else with the texture file of the same base name in the directory of the material file. -/
theorem material_round_trip {S : Type} (H : Host S) (files : Files) (garbage : Garbage S)
    (filename : Str) (mesh target : SurfaceMesh S) (hne : mesh.materials ≠ [])
    (hm : ∀ m ∈ mesh.materials, H.RoundTrips m)
    (hshort : ShortLines 1024 (saveMaterials H mesh))
    (hcount : mesh.materials.length < UINT_RANGE) (hg : garbage.Harmless)
    (hfile : files filename = some (saveMaterials H mesh)) :
    loadMaterials H files garbage filename target
        = Except.ok { target with
            materials := target.materials ++ mesh.materials.map (Material.reloaded filename) }
      ∧ ∀ m ∈ mesh.materials,
          (m.reloaded filename).name = m.name ∧ (m.reloaded filename).Ka = m.Ka
            ∧ (m.reloaded filename).Kd = m.Kd ∧ (m.reloaded filename).Ks = m.Ks
            ∧ (m.reloaded filename).alpha = m.alpha
            ∧ (m.reloaded filename).shininess = m.shininess
            ∧ (m.reloaded filename).hasTexture = m.hasTexture
            ∧ (m.hasTexture = true →
                filenameInPath (m.reloaded filename).texture_file_name
                  = filenameInPath m.texture_file_name) :=
  ⟨loadMaterials_saveMaterials H files garbage filename mesh target hne hm hshort hcount hg hfile,
    fun m _ => reloaded_fields filename m⟩

theorem isspace_not_digit {c : Char} (h : isspace c = true) : isdigit c = false := by
  cases hd : isdigit c with
  | false => rfl
  | true =>
    have := isdigit_not_space hd
    rw [h] at this
    exact absurd this (by decide)

theorem fractionDigits_lt : ∀ (k m : Nat), m < 10 ^ k → ∀ d ∈ fractionDigits k m, d < 10
  | 0, _, _, d, hd => by simp [fractionDigits] at hd
  | k + 1, m, hm, d, hd => by
    by_cases h0 : m = 0
    · simp [fractionDigits, h0] at hd
    · simp only [fractionDigits, h0, if_false, List.mem_cons] at hd
      rcases hd with rfl | hd
      · rw [Nat.div_lt_iff_lt_mul (by positivity)]
        calc m < 10 ^ (k + 1) := hm
          _ = 10 * 10 ^ k := by ring
      · exact fractionDigits_lt k (m % 10 ^ k) (Nat.mod_lt _ (by positivity)) d hd

theorem scanFraction_fractionDigits (rest : Str)
    (hrest : ∀ c, rest.head? = some c → isdigit c = false) :
    ∀ (k m num : Nat), k ≤ 6 → m < 10 ^ k →
      scanFraction ((fractionDigits k m).map digitChar ++ rest) num (6 - k)
        = (num * 10 ^ k + m, rest)
  | 0, m, num, _, hm => by
    have hm0 : m = 0 := by simpa using hm
    subst hm0
    cases rest with
    | nil => simp [fractionDigits, scanFraction]
    | cons c cs => simp [fractionDigits, scanFraction, hrest c rfl]
  | k + 1, m, num, hk, hm => by
    by_cases h0 : m = 0
    · subst h0
      have e : 6 - (6 - (k + 1)) = k + 1 := by omega
      cases rest with
      | nil =>
        simp only [fractionDigits, if_true, List.map_nil, List.nil_append, scanFraction, e,
          Nat.add_zero]
      | cons c cs =>
        simp only [fractionDigits, if_true, List.map_nil, List.nil_append, scanFraction,
          hrest c rfl, Bool.false_eq_true, if_false, e, Nat.add_zero]
    · have hd : m / 10 ^ k < 10 := by
        rw [Nat.div_lt_iff_lt_mul (by positivity)]
        calc m < 10 ^ (k + 1) := hm
          _ = 10 * 10 ^ k := by ring
      obtain ⟨d1, d2⟩ := digitChar_spec _ hd
      have hlt : 6 - (k + 1) < 6 := by omega
      have e : 6 - (k + 1) + 1 = 6 - k := by omega
      have ih := scanFraction_fractionDigits rest hrest k (m % 10 ^ k) (10 * num + m / 10 ^ k)
        (by omega) (Nat.mod_lt _ (by positivity))
      simp only [fractionDigits, h0, if_false, List.map_cons, List.cons_append, scanFraction, d1,
        if_true, hlt, d2, e, ih, Prod.mk.injEq, and_true]
      have hdm := Nat.div_add_mod m (10 ^ k)
      have hp : 10 ^ (k + 1) = 10 * 10 ^ k := by ring
      rw [hp]
      nlinarith [hdm]

theorem fractionDigits_eq_nil (m : Nat) : fractionDigits 6 m = [] ↔ m = 0 := by
  constructor
  · intro h
    by_contra h0
    simp [fractionDigits, h0] at h
  · intro h
    simp [fractionDigits, h]

/-- The digits with their fraction, as `putFixed` writes them, read back by `getFixed`. -/
theorem getFixed_digits (n : Nat) (rest : Str) (neg : Bool)
    (hrest : ∀ c, rest.head? = some c → isspace c = true) :
    getFixed ((if neg then ['-'] else []) ++ putNat (n / 1000000)
        ++ (if fractionDigits 6 (n % 1000000) = [] then []
            else ['.'] ++ (fractionDigits 6 (n % 1000000)).map digitChar) ++ rest)
      = some ((if neg then -1 else 1) * (n : Int), rest) := by
  have hm : n % 1000000 < 10 ^ 6 := Nat.mod_lt _ (by norm_num)
  have hrd : ∀ c, rest.head? = some c → isdigit c = false :=
    fun c hc => isspace_not_digit (hrest c hc)
  have hsplit : n / 1000000 * 1000000 + n % 1000000 = n := Nat.div_add_mod' n 1000000
  -- the value read after the sign
  have hbody : ∀ (c : Char) (cs : Str), putNat (n / 1000000) = c :: cs →
      isdigit c = true ∧
      ((fractionDigits 6 (n % 1000000) ≠ [] ∧
          (scanDigits (c :: (cs ++ ('.' :: ((fractionDigits 6 (n % 1000000)).map digitChar
            ++ rest)))) 0)
            = (n / 1000000, '.' :: ((fractionDigits 6 (n % 1000000)).map digitChar ++ rest)) ∧
          scanFraction ((fractionDigits 6 (n % 1000000)).map digitChar ++ rest) 0 0
            = (n % 1000000, rest))
        ∨ (fractionDigits 6 (n % 1000000) = [] ∧ n % 1000000 = 0 ∧
          scanDigits (c :: (cs ++ rest)) 0 = (n / 1000000, rest))) := by
    intro c cs hp
    have hc : isdigit c = true := putNat_allDigits _ c (by rw [hp]; exact List.mem_cons_self _ _)
    refine ⟨hc, ?_⟩
    by_cases hf : fractionDigits 6 (n % 1000000) = []
    · right
      refine ⟨hf, (fractionDigits_eq_nil _).1 hf, ?_⟩
      have := scanDigits_putNat (n / 1000000) rest hrd
      rw [hp] at this
      exact this
    · left
      refine ⟨hf, ?_, ?_⟩
      · have := scanDigits_putNat (n / 1000000)
          ('.' :: ((fractionDigits 6 (n % 1000000)).map digitChar ++ rest))
          (by intro c hc; simp only [List.head?_cons, Option.some.injEq] at hc; rw [← hc]; decide)
        rw [hp] at this
        exact this
      · have := scanFraction_fractionDigits rest hrd 6 (n % 1000000) 0 (le_refl _) hm
        simpa using this
  cases hp : putNat (n / 1000000) with
  | nil => exact absurd hp (putNat_ne_nil _)
  | cons c cs =>
    obtain ⟨hc, hcase⟩ := hbody c cs hp
    obtain ⟨n1, n2, n3, -⟩ := isdigit_ne hc
    have hrest_dot : ∀ ds, rest ≠ '.' :: ds := by
      intro ds e
      have := hrest '.' (by rw [e]; rfl)
      exact absurd this (by decide)
    rcases hcase with ⟨hf, h1, h2⟩ | ⟨hf, h0, h1⟩
    · cases neg with
      | false =>
        simp only [Bool.false_eq_true, if_false, hf, List.nil_append, List.cons_append,
          List.append_assoc, getFixed, n2, n3, hc, if_true, h1, h2, List.singleton_append]
        simp only [Option.some.injEq, Prod.mk.injEq, and_true]
        rw [hsplit]
      | true =>
        simp only [if_true, hf, if_false, List.cons_append, List.nil_append,
          List.append_assoc, getFixed, hc, h1, h2, List.singleton_append]
        simp only [Option.some.injEq, Prod.mk.injEq, and_true]
        rw [hsplit]
    · have hn : n / 1000000 * 1000000 = n := by omega
      cases neg with
      | false =>
        simp only [Bool.false_eq_true, if_false, hf, if_true, List.nil_append, List.cons_append,
          List.append_nil, getFixed, n2, n3, hc, h1]
        cases rest with
        | nil => simp [hn]
        | cons r rs =>
          rw [hn]
      | true =>
        simp only [if_true, hf, List.cons_append, List.nil_append, List.append_nil, getFixed, hc,
          h1]
        cases rest with
        | nil => simp [hn]
        | cons r rs =>
          rw [hn]

theorem putFixed_token (x : Fixed) : Token (putFixed x) := by
  have hdig : ∀ c ∈ putNat (x.natAbs / 1000000), isspace c = false ∧ c ≠ Char.ofNat 0 :=
    fun c hc => ⟨isdigit_not_space (putNat_allDigits _ c hc),
      (isdigit_ne (putNat_allDigits _ c hc)).2.2.2⟩
  have hfrac : ∀ c ∈ (fractionDigits 6 (x.natAbs % 1000000)).map digitChar,
      isspace c = false ∧ c ≠ Char.ofNat 0 := by
    intro c hc
    obtain ⟨d, hd, rfl⟩ := List.mem_map.1 hc
    have hlt := fractionDigits_lt 6 (x.natAbs % 1000000) (Nat.mod_lt _ (by norm_num)) d hd
    have h := (digitChar_spec d hlt).1
    exact ⟨isdigit_not_space h, (isdigit_ne h).2.2.2⟩
  constructor
  · intro h
    simp only [putFixed, List.append_eq_nil] at h
    exact putNat_ne_nil _ h.1.2
  · intro c hc
    simp only [putFixed, List.mem_append] at hc
    rcases hc with (hc | hc) | hc
    · split_ifs at hc
      · rw [List.mem_singleton.1 hc]
        exact ⟨by decide, by decide⟩
      · simp at hc
    · exact hdig c hc
    · split_ifs at hc
      · simp at hc
      · simp only [List.singleton_append, List.mem_cons] at hc
        rcases hc with rfl | hc
        · exact ⟨by decide, by decide⟩
        · exact hfrac c hc

/-- The example host writes every scalar in a form that reads back. -/
theorem fixedHost_exact (x : Fixed) : fixedHost.Exact x := by
  refine ⟨putFixed_token x, ?_⟩
  intro rest hrest
  have h := getFixed_digits x.natAbs rest (decide (x < 0)) hrest
  have e : fixedHost.put x ++ rest
      = (if decide (x < 0) = true then ['-'] else []) ++ putNat (x.natAbs / 1000000)
        ++ (if fractionDigits 6 (x.natAbs % 1000000) = [] then []
            else ['.'] ++ (fractionDigits 6 (x.natAbs % 1000000)).map digitChar) ++ rest := by
    simp only [fixedHost, putFixed, decide_eq_true_eq]
  have hv : (if decide (x < 0) = true then (-1 : Int) else 1) * (x.natAbs : Int) = x := by
    by_cases hx : x < 0
    · simp only [hx, decide_True, if_true]
      rw [← Int.abs_eq_natAbs, abs_of_neg hx]
      ring
    · simp only [hx, decide_False, Bool.false_eq_true, if_false]
      rw [← Int.abs_eq_natAbs, abs_of_nonneg (not_lt.1 hx)]
      ring
  show getFixed (fixedHost.put x ++ rest) = some (x, rest)
  rw [e, h, hv]

theorem staleGarbage_harmless : staleGarbage.Harmless := fun _ _ _ => Or.inr ⟨rfl, rfl⟩

/-- C13, as claimed. With the default precision of an output stream, six significant digits,
the shininess 65 is written as `Ns 507.812`, not as 507.8125, and read back as 64.999936. And a
negative `alpha` is written as `d -0.5` and not read back: a token that starts with `-` after
`d` is taken for an option, and `alpha` is read from the end of the line, which leaves the
variable as it was (here zero). -/
theorem written_scalars_do_not_read_back :
    (saveMaterials streamHost shinyMesh
        = "newmtl m\nKa 0.1 0.1 0.1\nKd 0.5 0.5 0.5\nKs 0 0 0\nNs 507.812\nd 1\n".toList
      ∧ loadMaterials streamHost (oneFile "d/x.mtl".toList (saveMaterials streamHost shinyMesh))
          blankGarbage "d/x.mtl".toList (SurfaceMesh.empty Fixed)
        = Except.ok { SurfaceMesh.empty Fixed with
            materials := [{ freshMaterial "m".toList with shininess := 64999936 }] })
      ∧ (saveMaterials fixedHost negativeAlphaMesh
          = "newmtl m\nKa 0.1 0.1 0.1\nKd 0.5 0.5 0.5\nKs 0 0 0\nNs 507.8125\nd -0.5\n".toList
        ∧ loadMaterials fixedHost
            (oneFile "d/x.mtl".toList (saveMaterials fixedHost negativeAlphaMesh))
            blankGarbage "d/x.mtl".toList (SurfaceMesh.empty Fixed)
          = Except.ok { SurfaceMesh.empty Fixed with
              materials := [{ freshMaterial "m".toList with alpha := 0 }] }
        ∧ loadMaterials fixedHost
            (oneFile "d/x.mtl".toList (saveMaterials fixedHost negativeAlphaMesh))
            staleGarbage "d/x.mtl".toList (SurfaceMesh.empty Fixed)
          = Except.ok { SurfaceMesh.empty Fixed with
              materials := [{ freshMaterial "m".toList with alpha := 0 }] }) := by
  refine ⟨⟨?_, ?_⟩, ?_, ?_, ?_⟩ <;> decide

theorem savedMesh_roundTrips : ∀ m ∈ savedMesh.materials, fixedHost.RoundTrips m := by
  intro m hm
  simp only [savedMesh, SurfaceMesh.empty, List.mem_cons, List.mem_singleton, List.not_mem_nil,
    or_false] at hm
  rcases hm with rfl | rfl
  · exact ⟨⟨by decide, by decide⟩,
      ⟨fixedHost_exact _, fixedHost_exact _, fixedHost_exact _⟩,
      ⟨fixedHost_exact _, fixedHost_exact _, fixedHost_exact _⟩,
      ⟨fixedHost_exact _, fixedHost_exact _, fixedHost_exact _⟩,
      fixedHost_exact _, by decide, fixedHost_exact _, by decide,
      fun _ => ⟨by decide, by decide⟩⟩
  · exact ⟨⟨by decide, by decide⟩,
      ⟨fixedHost_exact _, fixedHost_exact _, fixedHost_exact _⟩,
      ⟨fixedHost_exact _, fixedHost_exact _, fixedHost_exact _⟩,
      ⟨fixedHost_exact _, fixedHost_exact _, fixedHost_exact _⟩,
      fixedHost_exact _, by decide, fixedHost_exact _, by decide,
      fun h => absurd h (by decide)⟩

/-- C13, instance: two materials, one of shininess 65 with a texture file and one without
texture, written by the example host, which writes scalars in full (`Ns 507.8125`), and read
back with buffers that keep their content. -/
theorem material_round_trip_witness :
    saveMaterials fixedHost savedMesh
        = ("newmtl wood\nKa 0.1 0.2 0.3\nKd 0.5 0.5 0.5\nKs 0 0 1\nNs 507.8125\nd 0.5\n"
            ++ "map_Kd wood.png\n"
            ++ "newmtl glass\nKa 0 0 0\nKd 1.25 0 0\nKs 0 0 0\nNs 1000\nd 0.25\n").toList
      ∧ loadMaterials fixedHost (oneFile "d/x.mtl".toList (saveMaterials fixedHost savedMesh))
          staleGarbage "d/x.mtl".toList (SurfaceMesh.empty Fixed)
        = Except.ok { SurfaceMesh.empty Fixed with
            materials := (SurfaceMesh.empty Fixed).materials
              ++ savedMesh.materials.map (Material.reloaded "d/x.mtl".toList) }
      ∧ savedMesh.materials.map (fun m => (Material.reloaded "d/x.mtl".toList m).texture_file_name)
        = ["d/wood.png".toList, []] :=
  ⟨by decide,
    (material_round_trip fixedHost (oneFile "d/x.mtl".toList (saveMaterials fixedHost savedMesh))
      staleGarbage "d/x.mtl".toList savedMesh (SurfaceMesh.empty Fixed) (by decide)
      savedMesh_roundTrips (by unfold ShortLines; decide) (by decide) staleGarbage_harmless
      (by simp [oneFile])).1,
    by decide⟩

/-! ## C24: the gradients are derivatives in the scaled radius -/

/-- A function of `r` whose derivative at `r` is `g / s` has, as a function of `q = r / s`, the
derivative `g`; and `g` is `s` times its derivative in `r`. -/
theorem derivative_in_scaled {f : ℝ → ℝ} {g r s : ℝ} (hs : s ≠ 0) (hd : HasDerivAt f (g / s) r) :
    g = s * deriv f r ∧ HasDerivAt (fun q => f (q * s)) g (r / s) := by
  constructor
  · rw [hd.deriv]
    field_simp
  · have hpoint : r / s * s = r := by field_simp
    have hin : HasDerivAt (fun q : ℝ => q * s) s (r / s) := by
      simpa using (hasDerivAt_id (r / s)).mul_const s
    have hout : HasDerivAt f (g / s) ((fun q : ℝ => q * s) (r / s)) := by
      simp only [hpoint]
      exact hd
    have hcomp := HasDerivAt.comp (r / s) hout hin
    have hval : g / s * s = g := by field_simp
    rw [hval] at hcomp
    exact hcomp

/-- C24. For `h > 0` and `r` in the interior of a piece, the gradient of Spiky, Cubic, Quadratic
and Gauss is the derivative of the weight in `q = r / h` with `h` held fixed, which is `h` times
the derivative in `r`; the gradient of Quartic is the derivative of the weight in
`q = 2.5 * r / h`, which is `h / 2.5` times the derivative in `r`. -/
theorem gradient_is_derivative_in_q (PI r h : ℝ) (hh : 0 < h) :
    (r / h ≠ 1 →
        SpikyKernel.gradient PI r h = h * deriv (fun x => SpikyKernel.weight PI x h) r
          ∧ HasDerivAt (fun q => SpikyKernel.weight PI (q * h) h) (SpikyKernel.gradient PI r h)
              (r / h))
      ∧ (r / h ≠ 1 → r / h ≠ 2 →
        CubicKernel.gradient PI r h = h * deriv (fun x => CubicKernel.weight PI x h) r
          ∧ HasDerivAt (fun q => CubicKernel.weight PI (q * h) h) (CubicKernel.gradient PI r h)
              (r / h))
      ∧ (r / h ≠ 1 →
        QuadraticKernel.gradient PI r h = h * deriv (fun x => QuadraticKernel.weight PI x h) r
          ∧ HasDerivAt (fun q => QuadraticKernel.weight PI (q * h) h)
              (QuadraticKernel.gradient PI r h) (r / h))
      ∧ (GaussKernel.gradient (fun x y : ℝ => x ^ y) (Real.exp 1) r h
          = h * deriv (fun x => GaussKernel.weight (fun x y : ℝ => x ^ y) (Real.exp 1) x h) r
        ∧ HasDerivAt (fun q => GaussKernel.weight (fun x y : ℝ => x ^ y) (Real.exp 1) (q * h) h)
            (GaussKernel.gradient (fun x y : ℝ => x ^ y) (Real.exp 1) r h) (r / h))
      ∧ (2.5 * r / h ≠ 0.5 → 2.5 * r / h ≠ 1.5 → 2.5 * r / h ≠ 2.5 →
        QuarticKernel.gradient r h = h / 2.5 * deriv (fun x => QuarticKernel.weight x h) r
          ∧ HasDerivAt (fun q => QuarticKernel.weight (q * (h / 2.5)) h)
              (QuarticKernel.gradient r h) (2.5 * r / h)) := by
  have hne : h ≠ 0 := ne_of_gt hh
  refine ⟨fun h1 => derivative_in_scaled hne (spiky_hasDerivAt PI r h h1),
    fun h1 h2 => derivative_in_scaled hne (cubic_hasDerivAt PI r h h1 h2),
    fun h1 => derivative_in_scaled hne (quadratic_hasDerivAt PI r h h1),
    derivative_in_scaled hne (gauss_hasDerivAt r h), ?_⟩
  intro h1 h2 h3
  have hs : h / 2.5 ≠ 0 := by positivity
  have hd := quartic_hasDerivAt r h h1 h2 h3
  have e : 2.5 * QuarticKernel.gradient r h / h = QuarticKernel.gradient r h / (h / 2.5) := by
    field_simp
    ring
  rw [e] at hd
  have hq := derivative_in_scaled hs hd
  have e2 : r / (h / 2.5) = 2.5 * r / h := by
    field_simp
    ring
  rw [e2] at hq
  exact hq

/-- C24, instance: `h = 2`, `r = 1` and π, where `q = 1/2` for the first four kernels and
`q = 5/4` for Quartic. -/
theorem gradient_is_derivative_in_q_witness :
    (0 : ℝ) < 2
      ∧ SpikyKernel.gradient Real.pi 1 2
          = 2 * deriv (fun x => SpikyKernel.weight Real.pi x 2) 1
      ∧ CubicKernel.gradient Real.pi 1 2
          = 2 * deriv (fun x => CubicKernel.weight Real.pi x 2) 1
      ∧ QuadraticKernel.gradient Real.pi 1 2
          = 2 * deriv (fun x => QuadraticKernel.weight Real.pi x 2) 1
      ∧ GaussKernel.gradient (fun x y : ℝ => x ^ y) (Real.exp 1) 1 2
          = 2 * deriv (fun x => GaussKernel.weight (fun x y : ℝ => x ^ y) (Real.exp 1) x 2) 1
      ∧ QuarticKernel.gradient (1 : ℝ) 2
          = 2 / 2.5 * deriv (fun x => QuarticKernel.weight x 2) 1 :=
  have h := gradient_is_derivative_in_q Real.pi 1 2 (by norm_num)
  ⟨by norm_num, (h.1 (by norm_num)).1, (h.2.1 (by norm_num) (by norm_num)).1,
    (h.2.2.1 (by norm_num)).1, h.2.2.2.1.1,
    (h.2.2.2.2 (by norm_num) (by norm_num) (by norm_num)).1⟩

/-! ## C25: the branches of the piecewise kernels at their breakpoints -/

theorem cubic_weight_branches (PI r h : ℝ) :
    CubicKernel.weight PI r h
      = if r / h > 2 then 0
        else if r / h ≥ 1 then CubicKernel.weightOuter PI (r / h) h
        else CubicKernel.weightInner PI (r / h) h := rfl

theorem cubic_gradient_branches (PI r h : ℝ) :
    CubicKernel.gradient PI r h
      = if r / h > 2 then 0
        else if r / h ≥ 1 then CubicKernel.gradientOuter PI (r / h) h
        else CubicKernel.gradientInner PI (r / h) h := rfl

theorem quartic_weight_branches (r h : ℝ) :
    QuarticKernel.weight r h
      = if 2.5 * r / h > 2.5 then 0
        else if 2.5 * r / h > 1.5 then QuarticKernel.weightOuter (2.5 * r / h) h
        else if 2.5 * r / h > 0.5 then QuarticKernel.weightMiddle (2.5 * r / h) h
        else QuarticKernel.weightInner (2.5 * r / h) h := rfl

theorem quartic_gradient_branches (r h : ℝ) :
    QuarticKernel.gradient r h
      = if 2.5 * r / h > 2.5 then 0
        else if 2.5 * r / h > 1.5 then QuarticKernel.gradientOuter (2.5 * r / h) h
        else if 2.5 * r / h > 0.5 then QuarticKernel.gradientMiddle (2.5 * r / h) h
        else QuarticKernel.gradientInner (2.5 * r / h) h := rfl

/-- A function made of two continuous pieces that agree at the breakpoint `c` is continuous. -/
theorem continuous_if_gt {f g : ℝ → ℝ} (c : ℝ) (hf : Continuous f) (hg : Continuous g)
    (hfg : f c = g c) : Continuous (fun q => if q > c then f q else g q) := by
  have h := Continuous.if_le hg hf continuous_id continuous_const
    (fun x (hx : id x = c) => by rw [show x = c from hx, hfg])
  have e : (fun q => if q > c then f q else g q) = (fun x => if id x ≤ c then g x else f x) := by
    funext q
    by_cases hq : q ≤ c
    · simp [hq, not_lt.2 hq]
    · simp [hq, not_le.1 hq]
  rw [e]
  exact h

theorem continuous_if_ge {f g : ℝ → ℝ} (c : ℝ) (hf : Continuous f) (hg : Continuous g)
    (hfg : f c = g c) : Continuous (fun q => if q ≥ c then f q else g q) :=
  Continuous.if_le hf hg continuous_const continuous_id
    (fun x (hx : c = id x) => by rw [← show c = x from hx, hfg])

/-- The two branches of `CubicKernel::weight` at `q = 1`: the last branch exceeds the branch
`q >= 1` by `alpha / 50331648`, since `2.0f/3.0f` exceeds 2/3 by `1 / 50331648`; the branch
`q >= 1` is 0 at `q = 2`. -/
theorem cubic_weight_jump (PI h : ℝ) :
    CubicKernel.weightInner PI 1 h - CubicKernel.weightOuter PI 1 h
        = 3 / (2 * PI * (h * h) * h) / 50331648
      ∧ CubicKernel.weightOuter PI 2 h = 0 := by
  constructor
  · simp only [CubicKernel.weightOuter, CubicKernel.weightInner]
    norm_num
    ring
  · simp only [CubicKernel.weightOuter]
    norm_num

theorem cubic_gradient_agree (PI h : ℝ) :
    CubicKernel.gradientOuter PI 1 h = CubicKernel.gradientInner PI 1 h
      ∧ CubicKernel.gradientOuter PI 2 h = 0 := by
  constructor
  · simp only [CubicKernel.gradientOuter, CubicKernel.gradientInner]
    norm_num
    ring
  · simp only [CubicKernel.gradientOuter]
    norm_num

theorem quartic_weight_agree (h : ℝ) :
    QuarticKernel.weightOuter 1.5 h = QuarticKernel.weightMiddle 1.5 h
      ∧ QuarticKernel.weightMiddle 0.5 h = QuarticKernel.weightInner 0.5 h
      ∧ QuarticKernel.weightOuter 2.5 h = 0 := by
  refine ⟨?_, ?_, ?_⟩
  · simp only [QuarticKernel.weightOuter, QuarticKernel.weightMiddle]
    norm_num
  · simp only [QuarticKernel.weightMiddle, QuarticKernel.weightInner]
    norm_num
  · simp only [QuarticKernel.weightOuter]
    norm_num

theorem quartic_gradient_agree (h : ℝ) :
    QuarticKernel.gradientOuter 1.5 h = QuarticKernel.gradientMiddle 1.5 h
      ∧ QuarticKernel.gradientMiddle 0.5 h = QuarticKernel.gradientInner 0.5 h
      ∧ QuarticKernel.gradientOuter 2.5 h = 0 := by
  refine ⟨?_, ?_, ?_⟩
  · simp only [QuarticKernel.gradientOuter, QuarticKernel.gradientMiddle]
    norm_num
  · simp only [QuarticKernel.gradientMiddle, QuarticKernel.gradientInner]
    norm_num
  · simp only [QuarticKernel.gradientOuter]
    norm_num

theorem cubic_branches_differ (PI h : ℝ) (hPI : 0 < PI) (hh : 0 < h) :
    CubicKernel.weightInner PI 1 h ≠ CubicKernel.weightOuter PI 1 h := by
  intro e
  have j := (cubic_weight_jump PI h).1
  rw [e, sub_self] at j
  have hpos : (0 : ℝ) < 3 / (2 * PI * (h * h) * h) / 50331648 := by positivity
  linarith

/-- The weight of the cubic kernel is not continuous at `r = h`: to the left of it the last
branch applies, whose value at `q = 1` is not that of the branch `q >= 1`. -/
theorem cubic_weight_not_continuousAt (PI h : ℝ) (hPI : 0 < PI) (hh : 0 < h) :
    ¬ ContinuousAt (fun r => CubicKernel.weight PI r h) h := by
  intro hc
  have hg : Continuous (fun r : ℝ => CubicKernel.weightInner PI (r / h) h) := by
    unfold CubicKernel.weightInner
    fun_prop
  have hev : (fun r : ℝ => CubicKernel.weightInner PI (r / h) h)
      =ᶠ[nhdsWithin h (Set.Iio h)] (fun r => CubicKernel.weight PI r h) := by
    filter_upwards [self_mem_nhdsWithin] with r hr
    have hlt : r / h < 1 := (div_lt_one hh).2 hr
    rw [cubic_weight_branches, if_neg (by linarith), if_neg (not_le.2 hlt)]
  have t1 : Filter.Tendsto (fun r => CubicKernel.weight PI r h) (nhdsWithin h (Set.Iio h))
      (nhds (CubicKernel.weight PI h h)) := hc.tendsto.mono_left nhdsWithin_le_nhds
  have t2 : Filter.Tendsto (fun r : ℝ => CubicKernel.weightInner PI (r / h) h)
      (nhdsWithin h (Set.Iio h)) (nhds (CubicKernel.weightInner PI (h / h) h)) :=
    (hg.tendsto h).mono_left nhdsWithin_le_nhds
  have e := tendsto_nhds_unique t1 (t2.congr' hev)
  have n2 : ¬ ((1 : ℝ) > 2) := by norm_num
  have p1 : (1 : ℝ) ≥ 1 := le_refl 1
  rw [cubic_weight_branches, div_self hh.ne', if_neg n2, if_pos p1] at e
  exact cubic_branches_differ PI h hPI hh e.symm

theorem cubic_gradient_continuous (PI h : ℝ) :
    Continuous (fun r => CubicKernel.gradient PI r h) := by
  have hA : Continuous (fun q => CubicKernel.gradientOuter PI q h) := by
    unfold CubicKernel.gradientOuter
    fun_prop
  have hB : Continuous (fun q => CubicKernel.gradientInner PI q h) := by
    unfold CubicKernel.gradientInner
    fun_prop
  have h1 := continuous_if_ge 1 hA hB (cubic_gradient_agree PI h).1
  have h2 := continuous_if_gt 2 continuous_const h1 (by
    have e : (2 : ℝ) ≥ 1 := by norm_num
    simp only [e, if_true]
    exact (cubic_gradient_agree PI h).2.symm)
  have hq : Continuous (fun r : ℝ => r / h) := by fun_prop
  exact h2.comp hq

theorem quartic_weight_continuous (h : ℝ) : Continuous (fun r => QuarticKernel.weight r h) := by
  have hA : Continuous (fun q => QuarticKernel.weightOuter q h) := by
    unfold QuarticKernel.weightOuter
    fun_prop
  have hB : Continuous (fun q => QuarticKernel.weightMiddle q h) := by
    unfold QuarticKernel.weightMiddle
    fun_prop
  have hC : Continuous (fun q => QuarticKernel.weightInner q h) := by
    unfold QuarticKernel.weightInner
    fun_prop
  have h1 := continuous_if_gt 0.5 hB hC (quartic_weight_agree h).2.1
  have h2 := continuous_if_gt 1.5 hA h1 (by
    have e2 : (1.5 : ℝ) > 0.5 := by norm_num
    simp only [e2, if_true]
    exact (quartic_weight_agree h).1)
  have h3 := continuous_if_gt 2.5 continuous_const h2 (by
    have e2 : (2.5 : ℝ) > 1.5 := by norm_num
    simp only [e2, if_true]
    exact (quartic_weight_agree h).2.2.symm)
  have hq : Continuous (fun r : ℝ => 2.5 * r / h) := by fun_prop
  exact h3.comp hq

theorem quartic_gradient_continuous (h : ℝ) :
    Continuous (fun r => QuarticKernel.gradient r h) := by
  have hA : Continuous (fun q => QuarticKernel.gradientOuter q h) := by
    unfold QuarticKernel.gradientOuter
    fun_prop
  have hB : Continuous (fun q => QuarticKernel.gradientMiddle q h) := by
    unfold QuarticKernel.gradientMiddle
    fun_prop
  have hC : Continuous (fun q => QuarticKernel.gradientInner q h) := by
    unfold QuarticKernel.gradientInner
    fun_prop
  have h1 := continuous_if_gt 0.5 hB hC (quartic_gradient_agree h).2.1
  have h2 := continuous_if_gt 1.5 hA h1 (by
    have e2 : (1.5 : ℝ) > 0.5 := by norm_num
    simp only [e2, if_true]
    exact (quartic_gradient_agree h).1)
  have h3 := continuous_if_gt 2.5 continuous_const h2 (by
    have e2 : (2.5 : ℝ) > 1.5 := by norm_num
    simp only [e2, if_true]
    exact (quartic_gradient_agree h).2.2.symm)
  have hq : Continuous (fun r : ℝ => 2.5 * r / h) := by fun_prop
  exact h3.comp hq

/-- C25, evaluation. The constant of the last branch of `CubicKernel::weight` is `2.0f/3.0f`,
the `float` nearest to 2/3 and not 2/3, so at `q = 1` the last branch exceeds the branch
`q >= 1` by `alpha / 50331648`: the two differ for every positive π and `h`, and the weight is
not continuous at `r = h`; with π taken as 3 and `h = 1` the branch `q >= 1` gives `1/12` and
the last branch `2796203/33554432`. The other agreements hold: the branch `q >= 1` of the
cubic weight is 0 at `q = 2`; the branches of the cubic gradient agree at `q = 1` and the outer
one is 0 at `q = 2`; the branches of the quartic weight and of the quartic gradient agree at
`q = 1.5` and `q = 0.5` and the outer ones are 0 at `q = 2.5`; and these three functions, which
are the branch expressions on their pieces, are continuous in `r`. -/
theorem cubic_weight_branches_differ_at_one :
    (∀ PI h : ℝ, CubicKernel.weightInner PI 1 h - CubicKernel.weightOuter PI 1 h
        = 3 / (2 * PI * (h * h) * h) / 50331648)
      ∧ (∀ PI h : ℝ, 0 < PI → 0 < h →
          CubicKernel.weightInner PI 1 h ≠ CubicKernel.weightOuter PI 1 h
            ∧ ¬ ContinuousAt (fun r => CubicKernel.weight PI r h) h)
      ∧ (CubicKernel.weightOuter (3 : ℝ) 1 1 = 1 / 12
          ∧ CubicKernel.weightInner (3 : ℝ) 1 1 = 2796203 / 33554432
          ∧ CubicKernel.weight (3 : ℝ) 1 1 = 1 / 12)
      ∧ (∀ PI h : ℝ, CubicKernel.weightOuter PI 2 h = 0)
      ∧ (∀ PI h : ℝ, CubicKernel.gradientOuter PI 1 h = CubicKernel.gradientInner PI 1 h
          ∧ CubicKernel.gradientOuter PI 2 h = 0)
      ∧ (∀ h : ℝ, QuarticKernel.weightOuter 1.5 h = QuarticKernel.weightMiddle 1.5 h
          ∧ QuarticKernel.weightMiddle 0.5 h = QuarticKernel.weightInner 0.5 h
          ∧ QuarticKernel.weightOuter 2.5 h = 0)
      ∧ (∀ h : ℝ, QuarticKernel.gradientOuter 1.5 h = QuarticKernel.gradientMiddle 1.5 h
          ∧ QuarticKernel.gradientMiddle 0.5 h = QuarticKernel.gradientInner 0.5 h
          ∧ QuarticKernel.gradientOuter 2.5 h = 0)
      ∧ (∀ PI r h : ℝ, CubicKernel.weight PI r h
          = if r / h > 2 then 0
            else if r / h ≥ 1 then CubicKernel.weightOuter PI (r / h) h
            else CubicKernel.weightInner PI (r / h) h)
      ∧ (∀ PI r h : ℝ, CubicKernel.gradient PI r h
          = if r / h > 2 then 0
            else if r / h ≥ 1 then CubicKernel.gradientOuter PI (r / h) h
            else CubicKernel.gradientInner PI (r / h) h)
      ∧ (∀ r h : ℝ, QuarticKernel.weight r h
          = if 2.5 * r / h > 2.5 then 0
            else if 2.5 * r / h > 1.5 then QuarticKernel.weightOuter (2.5 * r / h) h
            else if 2.5 * r / h > 0.5 then QuarticKernel.weightMiddle (2.5 * r / h) h
            else QuarticKernel.weightInner (2.5 * r / h) h)
      ∧ (∀ r h : ℝ, QuarticKernel.gradient r h
          = if 2.5 * r / h > 2.5 then 0
            else if 2.5 * r / h > 1.5 then QuarticKernel.gradientOuter (2.5 * r / h) h
            else if 2.5 * r / h > 0.5 then QuarticKernel.gradientMiddle (2.5 * r / h) h
            else QuarticKernel.gradientInner (2.5 * r / h) h)
      ∧ (∀ PI h : ℝ, Continuous (fun r => CubicKernel.gradient PI r h))
      ∧ (∀ h : ℝ, Continuous (fun r => QuarticKernel.weight r h))
      ∧ (∀ h : ℝ, Continuous (fun r => QuarticKernel.gradient r h)) := by
  refine ⟨fun PI h => (cubic_weight_jump PI h).1,
    fun PI h hPI hh => ⟨cubic_branches_differ PI h hPI hh,
      cubic_weight_not_continuousAt PI h hPI hh⟩,
    ⟨?_, ?_, ?_⟩, fun PI h => (cubic_weight_jump PI h).2, cubic_gradient_agree,
    quartic_weight_agree, quartic_gradient_agree, cubic_weight_branches,
    cubic_gradient_branches, quartic_weight_branches, quartic_gradient_branches,
    cubic_gradient_continuous, quartic_weight_continuous, quartic_gradient_continuous⟩
  · simp only [CubicKernel.weightOuter]
    norm_num
  · simp only [CubicKernel.weightInner]
    norm_num
  · simp only [CubicKernel.weight]
    norm_num

/-! ## C23: parsing the face line that `save` writes -/

theorem wire_vertex (v : Vertex) : v.wire.vertex = v := by
  obtain ⟨p, n, t⟩ := v
  cases t <;> cases n <;> simp [Vertex.wire, WireRef.vertex]

theorem wire_valid (v : Vertex) (h : v.Fits) : v.wire.Valid := by
  obtain ⟨p, n, t⟩ := v
  obtain ⟨hp, ht, hn⟩ := h
  simp only at hp ht hn
  cases t with
  | none =>
    cases n with
    | none => exact ⟨by omega, hp⟩
    | some n => exact ⟨⟨by omega, hp⟩, ⟨by omega, hn n rfl⟩⟩
  | some t =>
    cases n with
    | none => exact ⟨⟨by omega, hp⟩, ⟨by omega, ht t rfl⟩⟩
    | some n => exact ⟨⟨by omega, hp⟩, ⟨by omega, ht t rfl⟩, ⟨by omega, hn n rfl⟩⟩

/-- The text that `save` writes for a vertex reference is its wire token, followed by a blank
when the reference has a normal. -/
theorem putVertex_wire (v : Vertex) (h : v.Fits) :
    putVertex v = v.wire.token ++ (if v.hasNormal = true then [' '] else []) := by
  obtain ⟨p, n, t⟩ := v
  obtain ⟨hp, ht, hn⟩ := h
  simp only at hp ht hn
  cases t with
  | none =>
    cases n with
    | none =>
      simp [putVertex, Vertex.wire, WireRef.token, Vertex.hasTexture, Vertex.hasNormal,
        uadd1_fits hp]
    | some n =>
      simp [putVertex, Vertex.wire, WireRef.token, Vertex.hasTexture, Vertex.hasNormal,
        uadd1_fits hp, uadd1_fits (hn n rfl)]
  | some t =>
    cases n with
    | none =>
      simp [putVertex, Vertex.wire, WireRef.token, Vertex.hasTexture, Vertex.hasNormal,
        uadd1_fits hp, uadd1_fits (ht t rfl)]
    | some n =>
      simp [putVertex, Vertex.wire, WireRef.token, Vertex.hasTexture, Vertex.hasNormal,
        uadd1_fits hp, uadd1_fits (ht t rfl), uadd1_fits (hn n rfl)]

theorem tokensAux_blank (s : Str) : tokensAux (' ' :: s) [] = tokensAux s [] := by
  have h : isspace ' ' = true := by decide
  simp [tokensAux, h]

/-- The tokens of the texts written for separated vertex references are their wire tokens. -/
theorem tokens_saved : ∀ (vs : List Vertex), Separated vs → (∀ v ∈ vs, v.Fits) →
    tokensAux ((vs.map putVertex).flatten) [] = vs.map (fun v => v.wire.token)
  | [], _, _ => by simp [tokensAux]
  | [v], _, hfit => by
    have hv := hfit v (List.mem_cons_self _ _)
    have hw := tokensAux_after_word v.wire.token (if v.hasNormal = true then [' '] else [])
      (fun c hc => (token_char_plain v.wire c hc).1) (token_ne_nil v.wire) (by
        intro c hc
        split_ifs at hc
        · simp only [List.head?_cons, Option.some.injEq] at hc
          rw [← hc]
          decide
        · simp at hc)
    simp only [List.map_cons, List.map_nil, List.flatten_cons, List.flatten_nil, List.append_nil,
      putVertex_wire v hv, hw]
    split_ifs
    · rw [tokensAux_blank]
      simp [tokensAux]
    · simp [tokensAux]
  | v :: w :: rest, hsep, hfit => by
    have hv := hfit v (List.mem_cons_self _ _)
    obtain ⟨hn, hsep2⟩ := hsep
    have ih := tokens_saved (w :: rest) hsep2 (fun x hx => hfit x (List.mem_cons_of_mem _ hx))
    have e : ((v :: w :: rest).map putVertex).flatten
        = v.wire.token ++ ' ' :: ((w :: rest).map putVertex).flatten := by
      rw [List.map_cons, List.flatten_cons, putVertex_wire v hv, if_pos hn]
      simp
    have hw := tokensAux_after_word v.wire.token (' ' :: ((w :: rest).map putVertex).flatten)
      (fun c hc => (token_char_plain v.wire c hc).1) (token_ne_nil v.wire) (by
        intro c hc
        simp only [List.head?_cons, Option.some.injEq] at hc
        rw [← hc]
        decide)
    rw [e, hw, tokensAux_blank, ih]
    rfl

theorem putVertex_plain (v : Vertex) (h : v.Fits) : ∀ c ∈ putVertex v, c ≠ Char.ofNat 0 := by
  intro c hc
  rw [putVertex_wire v h, List.mem_append] at hc
  rcases hc with hc | hc
  · exact (token_char_plain v.wire c hc).2
  · split_ifs at hc
    · rw [List.mem_singleton.1 hc]
      decide
    · simp at hc

theorem extract_savedFaceLine (f : Face) (hfit : ∀ v ∈ f.vertices, v.Fits) :
    extract (cstr (savedFaceLine f)) = some (['f'], ' ' :: (f.vertices.map putVertex).flatten) := by
  have hc : cstr (savedFaceLine f) = savedFaceLine f := by
    apply cstr_eq_self
    intro c hc
    simp only [savedFaceLine, List.mem_append, List.mem_flatten, List.mem_map] at hc
    rcases hc with hc | ⟨l, ⟨v, hv, rfl⟩, hc⟩
    · revert hc
      revert c
      decide
    · exact putVertex_plain v (hfit v hv) c hc
  have hf : isspace 'f' = false := by decide
  have hsp : isspace ' ' = true := by decide
  rw [hc]
  simp [savedFaceLine, extract, List.dropWhile, List.takeWhile, hf, hsp]

theorem readFace_saved (vs : List Vertex) (hfit : ∀ v ∈ vs, v.Fits ∧ v.wire.token.length < 20) :
    readFace (vs.map (fun v => v.wire.token)) { vertices := [] }
      = Except.ok { vertices := vs } := by
  have h := readFace_wireRefs (vs.map Vertex.wire) { vertices := [] } (by
    intro r hr
    obtain ⟨v, hv, rfl⟩ := List.mem_map.1 hr
    exact ⟨wire_valid v (hfit v hv).1, (hfit v hv).2⟩)
  have e1 : (vs.map Vertex.wire).map WireRef.token = vs.map (fun v => v.wire.token) := by
    rw [List.map_map]
    rfl
  have e2 : (vs.map Vertex.wire).map WireRef.vertex = vs := by
    rw [List.map_map]
    have : (WireRef.vertex ∘ Vertex.wire) = id := by
      funext v
      exact wire_vertex v
    rw [this, List.map_id]
  rw [e1, e2] at h
  simpa using h

theorem loadLine_savedFaceLine {S : Type} (H : Host S) (files : Files) (garbage : Garbage S)
    (filename : Str) (st : LoadState S) (i : Nat) (f : Face)
    (hcur : st.current_group = some i) (hsep : Separated f.vertices)
    (hfit : ∀ v ∈ f.vertices, v.Fits ∧ v.wire.token.length < 20) :
    loadLine H files garbage filename st (savedFaceLine f) =
      Except.ok { st with
        line_num := uadd1 st.line_num
        type_of_line := ['f']
        iteration := st.iteration + 1
        num_face := uadd1 st.num_face
        num_group_faces := uadd1 st.num_group_faces
        mesh := st.mesh.updateGroup i (fun g => g.addFace f) } := by
  have hx := extract_savedFaceLine f (fun v hv => (hfit v hv).1)
  have ht : tokens (' ' :: (f.vertices.map putVertex).flatten)
      = f.vertices.map (fun v => v.wire.token) := by
    rw [tokens, tokensAux_blank, tokens_saved f.vertices hsep (fun v hv => (hfit v hv).1)]
  have hr := readFace_saved f.vertices hfit
  have h1 : ((['f'] : Str) = "v".toList) = False := eq_false (by decide)
  have h2 : ((['f'] : Str) = "vn".toList) = False := eq_false (by decide)
  have h3 : ((['f'] : Str) = "vt".toList) = False := eq_false (by decide)
  have h4 : ((['f'] : Str) = "g".toList) = False := eq_false (by decide)
  have h5 : ((['f'] : Str) = "f".toList) = True := eq_true (by decide)
  simp only [loadLine, hx, h1, h2, h3, h4, h5, if_false, if_true, true_or, branchF, hcur, ht, hr]

/-- C23, evaluation. `save` writes a blank only after a vertex reference that has a normal, so
the references of a face without normals run together: the triangle on positions 0, 1, 2 is
written as `f 123`, which `load` parses as one reference to position 122; `p/t` followed by
`p//n` is written as `f 1/12//1 `, which is fatal; and a reference with three indices of seven
digits is written as a token of 23 characters, which overruns the buffer of 20 of `load`. A
face is parsed back as it was when every reference but the last has a normal and every token is
shorter than 20 characters, as `f 1//1 2/1/1 3`. -/
theorem saved_face_runs_together :
    (putFace (plainFace [0, 1, 2]) = "f 123\n".toList
        ∧ reparsed blankGarbage (plainFace [0, 1, 2]) = Except.ok [[plainFace [122]]]
        ∧ reparsed staleGarbage (plainFace [0, 1, 2]) = Except.ok [[plainFace [122]]])
      ∧ (putFace { vertices := [(WireRef.posTex 1 1).vertex, (WireRef.posNor 2 1).vertex] }
          = "f 1/12//1 \n".toList
        ∧ reparsed blankGarbage
            { vertices := [(WireRef.posTex 1 1).vertex, (WireRef.posNor 2 1).vertex] }
          = Except.error (Err.fatal "invalid vertx in this face"))
      ∧ (putFace { vertices := [(WireRef.posTexNor 1000000 1000000 1000000).vertex] }
          = "f 1000000/1000000/1000000 \n".toList
        ∧ reparsed blankGarbage
            { vertices := [(WireRef.posTexNor 1000000 1000000 1000000).vertex] }
          = Except.error (Err.undefined "vertex_indice overrun"))
      ∧ (putFace { vertices := [(WireRef.posNor 1 1).vertex, (WireRef.posTexNor 2 1 1).vertex,
            (WireRef.pos 3).vertex] } = "f 1//1 2/1/1 3\n".toList)
      ∧ (∀ f : Face, putFace f = savedFaceLine f ++ ['\n'])
      ∧ (∀ (S : Type) (H : Host S) (files : Files) (garbage : Garbage S) (filename : Str)
          (st : LoadState S) (i : Nat) (f : Face),
          st.current_group = some i → Separated f.vertices →
          (∀ v ∈ f.vertices, v.Fits ∧ v.wire.token.length < 20) →
          loadLine H files garbage filename st (savedFaceLine f) =
            Except.ok { st with
              line_num := uadd1 st.line_num
              type_of_line := ['f']
              iteration := st.iteration + 1
              num_face := uadd1 st.num_face
              num_group_faces := uadd1 st.num_group_faces
              mesh := st.mesh.updateGroup i (fun g => g.addFace f) }) := by
  refine ⟨⟨by decide, by decide, by decide⟩, ⟨by decide, by decide⟩, ⟨by decide, by decide⟩,
    by decide, fun f => ?_, ?_⟩
  · simp [putFace, savedFaceLine]
  · intro S H files garbage filename st i f hcur hsep hfit
    exact loadLine_savedFaceLine H files garbage filename st i f hcur hsep hfit

/-! ## The MPM driver base: the setters and the time step -/

theorem place_same {W M : Type} (store : FreeStore W M) (a : Nat) (x : Owned W M) :
    store.place a x a = some x := by
  simp [FreeStore.place]

theorem place_other {W M : Type} (store : FreeStore W M) (a p : Nat) (x : Owned W M)
    (h : p ≠ a) : store.place a x p = store p := by
  simp [FreeStore.place, h]

theorem release_other {W M : Type} (store : FreeStore W M) (q : Option Nat) (p : Nat)
    (h : q ≠ some p) : store.release q p = store p := by
  cases q with
  | none => rfl
  | some a =>
    have : p ≠ a := fun e => h (by rw [e])
    simp [FreeStore.release, FreeStore.delete, this]

theorem release_same {W M : Type} (store : FreeStore W M) (p : Nat) :
    store.release (some p) p = none := by
  simp [FreeStore.release, FreeStore.delete]

theorem setWeightFunction_driver {Scalar Vec W M : Type} (type : W) (s : Vec) (fresh : Nat)
    (m : Machine Scalar Vec W M) :
    (MPMBase.setWeightFunction type s fresh m).driver
      = { m.driver with weight_function_ := some fresh, weight_radius_cell_scale_ := s } := rfl

theorem setWeightFunction_store {Scalar Vec W M : Type} (type : W) (s : Vec) (fresh : Nat)
    (m : Machine Scalar Vec W M) :
    (MPMBase.setWeightFunction type s fresh m).store
      = (m.store.release m.driver.weight_function_).place fresh
          (Owned.gridWeightFunction type) := rfl

theorem setStepMethod_driver {Scalar Vec W M : Type} (type : M) (this fresh : Nat)
    (m : Machine Scalar Vec W M) :
    (MPMBase.setStepMethod type this fresh m).driver
      = { m.driver with step_method_ := some fresh } := rfl

theorem setStepMethod_store {Scalar Vec W M : Type} (type : M) (this fresh : Nat)
    (m : Machine Scalar Vec W M) :
    (MPMBase.setStepMethod type this fresh m).store
      = ((m.store.release m.driver.step_method_).place fresh (Owned.stepMethod type none)).place
          fresh (Owned.stepMethod type (some this)) := by
  simp [MPMBase.setStepMethod, newStepMethod, place_same, Owned.setMPMDriver]

/-- In a well-formed machine the weight function and the step method are different objects. -/
theorem wellFormed_distinct {Scalar Vec W M : Type} (m : Machine Scalar Vec W M)
    (hwf : m.WellFormed) (p : Nat) (hw : m.driver.weight_function_ = some p)
    (hs : m.driver.step_method_ = some p) : False := by
  obtain ⟨t, ht⟩ := hwf.1 p hw
  obtain ⟨u, d, hu⟩ := hwf.2 p hs
  rw [ht] at hu
  cases hu

/-- An address that is free once the weight function is deleted is not that of the step
method. -/
theorem fresh_ne_step {Scalar Vec W M : Type} (m : Machine Scalar Vec W M)
    (hwf : m.WellFormed) (fresh p : Nat)
    (hfresh : m.store.release m.driver.weight_function_ fresh = none)
    (hs : m.driver.step_method_ = some p) : p ≠ fresh := by
  intro e
  subst e
  obtain ⟨u, d, hu⟩ := hwf.2 p hs
  rw [release_other _ _ _ (fun hw => wellFormed_distinct m hwf p hw hs), hu] at hfresh
  cases hfresh

/-- An address that is free once the step method is deleted is not that of the weight
function. -/
theorem fresh_ne_weight {Scalar Vec W M : Type} (m : Machine Scalar Vec W M)
    (hwf : m.WellFormed) (fresh p : Nat)
    (hfresh : m.store.release m.driver.step_method_ fresh = none)
    (hw : m.driver.weight_function_ = some p) : p ≠ fresh := by
  intro e
  subst e
  obtain ⟨t, ht⟩ := hwf.1 p hw
  rw [release_other _ _ _ (fun hs => wellFormed_distinct m hwf p hw hs), ht] at hfresh
  cases hfresh

theorem setWeightFunction_frame {Scalar Vec W M : Type} (type : W) (s : Vec) (fresh : Nat)
    (m : Machine Scalar Vec W M) (hwf : m.WellFormed)
    (hfresh : m.store.release m.driver.weight_function_ fresh = none) :
    (MPMBase.setWeightFunction type s fresh m).driver.weight_function_ = some fresh
      ∧ (MPMBase.setWeightFunction type s fresh m).store fresh
          = some (Owned.gridWeightFunction type)
      ∧ (∀ p, m.driver.weight_function_ = some p → p ≠ fresh →
          (MPMBase.setWeightFunction type s fresh m).store p = none)
      ∧ (MPMBase.setWeightFunction type s fresh m).driver.weight_radius_cell_scale_ = s
      ∧ (MPMBase.setWeightFunction type s fresh m).driver.step_method_ = m.driver.step_method_
      ∧ (∀ p, m.driver.step_method_ = some p →
          (MPMBase.setWeightFunction type s fresh m).store p = m.store p)
      ∧ (MPMBase.setWeightFunction type s fresh m).driver.cfl_num_ = m.driver.cfl_num_
      ∧ (MPMBase.setWeightFunction type s fresh m).driver.sound_speed_ = m.driver.sound_speed_
      ∧ (MPMBase.setWeightFunction type s fresh m).WellFormed := by
  have hstep : ∀ p, m.driver.step_method_ = some p →
      (MPMBase.setWeightFunction type s fresh m).store p = m.store p := by
    intro p hs
    rw [setWeightFunction_store, place_other _ _ _ _ (fresh_ne_step m hwf fresh p hfresh hs),
      release_other _ _ _ (fun hw => wellFormed_distinct m hwf p hw hs)]
  refine ⟨rfl, ?_, ?_, rfl, rfl, hstep, rfl, rfl, ?_, ?_⟩
  · rw [setWeightFunction_store, place_same]
  · intro p hp hne
    rw [setWeightFunction_store, place_other _ _ _ _ hne, hp, release_same]
  · intro p hp
    rw [setWeightFunction_driver] at hp
    cases hp
    exact ⟨type, by rw [setWeightFunction_store, place_same]⟩
  · intro p hp
    rw [setWeightFunction_driver] at hp
    obtain ⟨u, d, hu⟩ := hwf.2 p hp
    exact ⟨u, d, by rw [hstep p hp, hu]⟩

theorem setStepMethod_frame {Scalar Vec W M : Type} (type : M) (this fresh : Nat)
    (m : Machine Scalar Vec W M) (hwf : m.WellFormed)
    (hfresh : m.store.release m.driver.step_method_ fresh = none) :
    (MPMBase.setStepMethod type this fresh m).driver.step_method_ = some fresh
      ∧ (MPMBase.setStepMethod type this fresh m).store fresh
          = some (Owned.stepMethod type (some this))
      ∧ (∀ p, m.driver.step_method_ = some p → p ≠ fresh →
          (MPMBase.setStepMethod type this fresh m).store p = none)
      ∧ (MPMBase.setStepMethod type this fresh m).driver.weight_function_
          = m.driver.weight_function_
      ∧ (∀ p, m.driver.weight_function_ = some p →
          (MPMBase.setStepMethod type this fresh m).store p = m.store p)
      ∧ (MPMBase.setStepMethod type this fresh m).driver.weight_radius_cell_scale_
          = m.driver.weight_radius_cell_scale_
      ∧ (MPMBase.setStepMethod type this fresh m).driver.cfl_num_ = m.driver.cfl_num_
      ∧ (MPMBase.setStepMethod type this fresh m).driver.sound_speed_ = m.driver.sound_speed_
      ∧ (MPMBase.setStepMethod type this fresh m).WellFormed := by
  have hweight : ∀ p, m.driver.weight_function_ = some p →
      (MPMBase.setStepMethod type this fresh m).store p = m.store p := by
    intro p hw
    have hne := fresh_ne_weight m hwf fresh p hfresh hw
    rw [setStepMethod_store, place_other _ _ _ _ hne, place_other _ _ _ _ hne,
      release_other _ _ _ (fun hs => wellFormed_distinct m hwf p hw hs)]
  refine ⟨rfl, ?_, ?_, rfl, hweight, rfl, rfl, rfl, ?_, ?_⟩
  · rw [setStepMethod_store, place_same]
  · intro p hp hne
    rw [setStepMethod_store, place_other _ _ _ _ hne, place_other _ _ _ _ hne, hp, release_same]
  · intro p hp
    rw [setStepMethod_driver] at hp
    obtain ⟨t, ht⟩ := hwf.1 p hp
    exact ⟨t, by rw [hweight p hp, ht]⟩
  · intro p hp
    rw [setStepMethod_driver] at hp
    cases hp
    exact ⟨type, some this, by rw [setStepMethod_store, place_same]⟩

/-- C21. After `setWeightFunction<K>(s)` the driver points to a live weight function of type
`K`, the prior one is deleted, `weight_radius_cell_scale_` is `s`, and the step method (pointer
and object), `cfl_num_` and `sound_speed_` are unchanged; after `setStepMethod<T>()` the driver
points to a live step method of type `T` bound to this driver, the prior one is deleted, and the
weight function (pointer and object), its scale, `cfl_num_` and `sound_speed_` are unchanged.
Both keep the machine well formed. Each allocation returns an address that is free once the
prior object of that setter is deleted, which may be the address of that object. -/
theorem setters_replace_and_frame {Scalar Vec W M : Type} (m : Machine Scalar Vec W M)
    (hwf : m.WellFormed) (K : W) (s : Vec) (T : M) (this freshW freshS : Nat)
    (hw : m.store.release m.driver.weight_function_ freshW = none)
    (hs : m.store.release m.driver.step_method_ freshS = none) :
    ((MPMBase.setWeightFunction K s freshW m).driver.weight_function_ = some freshW
      ∧ (MPMBase.setWeightFunction K s freshW m).store freshW
          = some (Owned.gridWeightFunction K)
      ∧ (∀ p, m.driver.weight_function_ = some p → p ≠ freshW →
          (MPMBase.setWeightFunction K s freshW m).store p = none)
      ∧ (MPMBase.setWeightFunction K s freshW m).driver.weight_radius_cell_scale_ = s
      ∧ (MPMBase.setWeightFunction K s freshW m).driver.step_method_ = m.driver.step_method_
      ∧ (∀ p, m.driver.step_method_ = some p →
          (MPMBase.setWeightFunction K s freshW m).store p = m.store p)
      ∧ (MPMBase.setWeightFunction K s freshW m).driver.cfl_num_ = m.driver.cfl_num_
      ∧ (MPMBase.setWeightFunction K s freshW m).driver.sound_speed_ = m.driver.sound_speed_
      ∧ (MPMBase.setWeightFunction K s freshW m).WellFormed)
    ∧ ((MPMBase.setStepMethod T this freshS m).driver.step_method_ = some freshS
      ∧ (MPMBase.setStepMethod T this freshS m).store freshS
          = some (Owned.stepMethod T (some this))
      ∧ (∀ p, m.driver.step_method_ = some p → p ≠ freshS →
          (MPMBase.setStepMethod T this freshS m).store p = none)
      ∧ (MPMBase.setStepMethod T this freshS m).driver.weight_function_
          = m.driver.weight_function_
      ∧ (∀ p, m.driver.weight_function_ = some p →
          (MPMBase.setStepMethod T this freshS m).store p = m.store p)
      ∧ (MPMBase.setStepMethod T this freshS m).driver.weight_radius_cell_scale_
          = m.driver.weight_radius_cell_scale_
      ∧ (MPMBase.setStepMethod T this freshS m).driver.cfl_num_ = m.driver.cfl_num_
      ∧ (MPMBase.setStepMethod T this freshS m).driver.sound_speed_ = m.driver.sound_speed_
      ∧ (MPMBase.setStepMethod T this freshS m).WellFormed) :=
  ⟨setWeightFunction_frame K s freshW m hwf hw, setStepMethod_frame T this freshS m hwf hs⟩

theorem exampleMachine_wellFormed : exampleMachine.WellFormed := by
  refine ⟨fun p hp => ?_, fun p hp => ?_⟩
  · cases hp
    exact ⟨_, rfl⟩
  · cases hp
    exact ⟨_, _, rfl⟩

/-- C21, instances on the example driver (weight function at address 1, step method at
address 2). With each allocation returning the block that the setter has just deleted: the
weight function at address 1 becomes the cubic one with scale `[2, 2]` and the step method at
address 2 stays; the step method at address 2 becomes the one of type MUSL bound to driver 0
and the weight function at address 1 stays. With both allocations returning the unused
address 3: the new object is at address 3 and the prior one is deleted. -/
theorem setters_replace_and_frame_witness :
    exampleMachine.WellFormed
      ∧ exampleMachine.store.release exampleMachine.driver.weight_function_ 1 = none
      ∧ exampleMachine.store.release exampleMachine.driver.step_method_ 2 = none
      ∧ (MPMBase.setWeightFunction "cubic" [2, 2] 1 exampleMachine).driver.weight_function_
          = some 1
      ∧ (MPMBase.setWeightFunction "cubic" [2, 2] 1 exampleMachine).store 1
          = some (Owned.gridWeightFunction "cubic")
      ∧ (MPMBase.setWeightFunction "cubic" [2, 2] 1 exampleMachine).store 2
          = some (Owned.stepMethod "USL" (some 0))
      ∧ (MPMBase.setStepMethod "MUSL" 0 2 exampleMachine).driver.step_method_ = some 2
      ∧ (MPMBase.setStepMethod "MUSL" 0 2 exampleMachine).store 2
          = some (Owned.stepMethod "MUSL" (some 0))
      ∧ (MPMBase.setStepMethod "MUSL" 0 2 exampleMachine).store 1
          = some (Owned.gridWeightFunction "linear")
      ∧ exampleMachine.store.release exampleMachine.driver.weight_function_ 3 = none
      ∧ exampleMachine.store.release exampleMachine.driver.step_method_ 3 = none
      ∧ (MPMBase.setWeightFunction "cubic" [2, 2] 3 exampleMachine).store 3
          = some (Owned.gridWeightFunction "cubic")
      ∧ (MPMBase.setWeightFunction "cubic" [2, 2] 3 exampleMachine).store 1 = none
      ∧ (MPMBase.setStepMethod "MUSL" 0 3 exampleMachine).store 3
          = some (Owned.stepMethod "MUSL" (some 0))
      ∧ (MPMBase.setStepMethod "MUSL" 0 3 exampleMachine).store 2 = none :=
  have h := setters_replace_and_frame exampleMachine exampleMachine_wellFormed "cubic" [2, 2]
    "MUSL" 0 1 2 rfl rfl
  have k := setters_replace_and_frame exampleMachine exampleMachine_wellFormed "cubic" [2, 2]
    "MUSL" 0 3 3 rfl rfl
  ⟨exampleMachine_wellFormed, rfl, rfl, h.1.1, h.1.2.1, (h.1.2.2.2.2.2.1 2 rfl).trans rfl,
    h.2.1, h.2.2.1, (h.2.2.2.2.2.1 1 rfl).trans rfl, rfl, rfl, k.1.2.1,
    k.1.2.2.1 1 rfl (by decide), k.2.2.1, k.2.2.2.1 2 rfl (by decide)⟩

theorem computeTimeStep_pos_sum {Scalar Vec : Type} [LinearOrderedField Scalar]
    (d : MPMBase Scalar Vec) (cell speed : Scalar) (h : 0 < speed + d.sound_speed_) :
    d.computeTimeStep cell speed
      = min d.max_dt_ (d.cfl_num_ * cell / (speed + d.sound_speed_)) := by
  simp [MPMBase.computeTimeStep, ne_of_gt h]

theorem computeTimeStep_zero_sum {Scalar Vec : Type} [LinearOrderedField Scalar]
    (d : MPMBase Scalar Vec) (cell speed : Scalar) (h : speed + d.sound_speed_ = 0) :
    d.computeTimeStep cell speed = d.max_dt_ := by
  simp [MPMBase.computeTimeStep, h]

/-- C22. For `max_dt > 0`, `cfl_num` in (0, 1], `min_cell_edge > 0`, `max_particle_speed ≥ 0`
and `sound_speed ≥ 0`, `computeTimeStep()` returns
`min(max_dt, cfl_num * min_cell_edge / (max_particle_speed + sound_speed))` when the sum of
the speeds is positive and `max_dt` when it is 0; the step is positive, at most `max_dt`, and
in it a signal at the sum of the speeds travels at most `cfl_num` cell edges, so at most one. -/
theorem computeTimeStep_cfl {Scalar Vec : Type} [LinearOrderedField Scalar]
    (d : MPMBase Scalar Vec) (minCellEdgeLength maxParticleVelocityNorm : Scalar)
    (hdt : 0 < d.max_dt_) (hcfl : 0 < d.cfl_num_ ∧ d.cfl_num_ ≤ 1)
    (hcell : 0 < minCellEdgeLength) (hspeed : 0 ≤ maxParticleVelocityNorm)
    (hsound : 0 ≤ d.sound_speed_) :
    (0 < maxParticleVelocityNorm + d.sound_speed_ →
        d.computeTimeStep minCellEdgeLength maxParticleVelocityNorm
          = min d.max_dt_
              (d.cfl_num_ * minCellEdgeLength / (maxParticleVelocityNorm + d.sound_speed_)))
      ∧ (maxParticleVelocityNorm + d.sound_speed_ = 0 →
        d.computeTimeStep minCellEdgeLength maxParticleVelocityNorm = d.max_dt_)
      ∧ 0 < d.computeTimeStep minCellEdgeLength maxParticleVelocityNorm
      ∧ d.computeTimeStep minCellEdgeLength maxParticleVelocityNorm ≤ d.max_dt_
      ∧ d.computeTimeStep minCellEdgeLength maxParticleVelocityNorm
            * (maxParticleVelocityNorm + d.sound_speed_)
          ≤ d.cfl_num_ * minCellEdgeLength
      ∧ d.computeTimeStep minCellEdgeLength maxParticleVelocityNorm
            * (maxParticleVelocityNorm + d.sound_speed_)
          ≤ minCellEdgeLength := by
  have hnum : 0 < d.cfl_num_ * minCellEdgeLength := mul_pos hcfl.1 hcell
  have hle : d.cfl_num_ * minCellEdgeLength ≤ minCellEdgeLength := by
    calc d.cfl_num_ * minCellEdgeLength ≤ 1 * minCellEdgeLength :=
          mul_le_mul_of_nonneg_right hcfl.2 hcell.le
      _ = minCellEdgeLength := one_mul _
  have hsum : 0 ≤ maxParticleVelocityNorm + d.sound_speed_ := add_nonneg hspeed hsound
  refine ⟨computeTimeStep_pos_sum d _ _, computeTimeStep_zero_sum d _ _, ?_⟩
  rcases hsum.eq_or_lt with h0 | hpos
  · rw [computeTimeStep_zero_sum d _ _ h0.symm, ← h0, mul_zero]
    exact ⟨hdt, le_refl _, hnum.le, hcell.le⟩
  · rw [computeTimeStep_pos_sum d _ _ hpos]
    have hq : 0 < d.cfl_num_ * minCellEdgeLength / (maxParticleVelocityNorm + d.sound_speed_) :=
      div_pos hnum hpos
    have hb : min d.max_dt_
          (d.cfl_num_ * minCellEdgeLength / (maxParticleVelocityNorm + d.sound_speed_))
          * (maxParticleVelocityNorm + d.sound_speed_)
        ≤ d.cfl_num_ * minCellEdgeLength := by
      calc _ ≤ d.cfl_num_ * minCellEdgeLength / (maxParticleVelocityNorm + d.sound_speed_)
              * (maxParticleVelocityNorm + d.sound_speed_) :=
            mul_le_mul_of_nonneg_right (min_le_right _ _) hpos.le
        _ = d.cfl_num_ * minCellEdgeLength := div_mul_cancel₀ _ (ne_of_gt hpos)
    exact ⟨lt_min hdt hq, min_le_left _ _, hb, hb.trans hle⟩

/-- The spec's instance: CFL number 0.5, least cell edge 0.01, largest particle speed 1, sound
speed 0 and largest time step 1 give the time step 0.005. -/
theorem computeTimeStep_cfl_witness :
    ((0 : ℚ) < exampleMachine.driver.max_dt_
        ∧ (0 < exampleMachine.driver.cfl_num_ ∧ exampleMachine.driver.cfl_num_ ≤ 1)
        ∧ (0 : ℚ) < 0.01 ∧ (0 : ℚ) ≤ 1 ∧ 0 ≤ exampleMachine.driver.sound_speed_)
      ∧ exampleMachine.driver.computeTimeStep 0.01 1 = 0.005 := by
  have hdt : (0 : ℚ) < exampleMachine.driver.max_dt_ := by norm_num [exampleMachine]
  have hcfl : 0 < exampleMachine.driver.cfl_num_ ∧ exampleMachine.driver.cfl_num_ ≤ 1 := by
    norm_num [exampleMachine]
  have hcell : (0 : ℚ) < 0.01 := by norm_num
  have hspeed : (0 : ℚ) ≤ 1 := by norm_num
  have hsound : 0 ≤ exampleMachine.driver.sound_speed_ := by norm_num [exampleMachine]
  refine ⟨⟨hdt, hcfl, hcell, hspeed, hsound⟩, ?_⟩
  rw [(computeTimeStep_cfl exampleMachine.driver 0.01 1 hdt hcfl hcell hspeed hsound).1
    (by norm_num [exampleMachine])]
  norm_num [exampleMachine]

/-! ## C1: save, load, save on a mesh with one group -/

theorem updateAt_length {α : Type} (f : α → α) : ∀ (i : Nat) (l : List α),
    (updateAt f i l).length = l.length
  | 0, [] => rfl
  | _ + 1, [] => rfl
  | 0, _ :: _ => rfl
  | i + 1, x :: xs => by simp only [updateAt, List.length_cons, updateAt_length f i xs]

end Physika
